import Mathlib

/-!
# Reaktoro: property aggregation engine and formation reactions

A shallow embedding of `Reaktoro/Core/ChemicalProperties.cpp` and of the
formation-reaction resolver exercised by `Reaktoro/Core/FormationReaction.test.cxx`.

Conventions of the embedding.

* A C++ `double` is an exact rational number (`ℚ`): rounding, `NaN` and `Inf`
  are outside the model, and `x / 0 = 0`.
* A `ThermoScalar` is a value with its temperature and pressure partials; a
  `ChemicalScalar` carries in addition one partial per species amount (`ddn`).
* A `ThermoVector` / `ChemicalVector` is the list of its rows, each row being a
  scalar; the row of a `ChemicalVector` holds the matching row of the `ddn` matrix.
* Block and segment accesses of the linear-algebra layer check their bounds:
  an access outside the vector, or an assignment between blocks of different
  shapes, yields `none`.
-/

namespace Reaktoro

/-! ## Differentiable number types -/

/-- Modelled from the spec: `ThermoScalar` of `Reaktoro/Common/ThermoScalar.hpp`, which
is not among the sources. A value with its partial derivatives with respect to
temperature and pressure. -/
structure ThermoScalar where
  val : ℚ
  ddT : ℚ
  ddP : ℚ
deriving DecidableEq

/-- Modelled from the spec: `ChemicalScalar` of `Reaktoro/Common/ChemicalScalar.hpp`,
which is not among the sources. A value with its partial derivatives with respect to
temperature, pressure and the amount of every species. -/
structure ChemicalScalar where
  val : ℚ
  ddT : ℚ
  ddP : ℚ
  ddn : List ℚ
deriving DecidableEq

/-- Modelled from the spec: `ThermoVector`, whose header is not among the sources.
The rows of a vector of `ThermoScalar` values. -/
abbrev ThermoVector := List ThermoScalar

/-- Modelled from the spec: `ChemicalVector`, whose header is not among the sources.
The rows of a vector of `ChemicalScalar` values; row `i` holds row `i` of the `ddn`
matrix. -/
abbrev ChemicalVector := List ChemicalScalar

/-- Modelled from the spec: `Temperature`, whose header is not among the sources. The
temperature as a `ThermoScalar`: the variable `T` itself, so `ddT = 1`. -/
def Temperature (v : ℚ) : ThermoScalar := ⟨v, 1, 0⟩

/-- Modelled from the spec: `Pressure`, whose header is not among the sources. The
pressure as a `ThermoScalar`: the variable `P` itself, so `ddP = 1`. -/
def Pressure (v : ℚ) : ThermoScalar := ⟨v, 0, 1⟩

namespace ThermoScalar

/-- Modelled from the spec: `double * ThermoScalar` of the missing header. -/
def scale (c : ℚ) (a : ThermoScalar) : ThermoScalar :=
  ⟨c * a.val, c * a.ddT, c * a.ddP⟩

/-- Modelled from the spec: `ThermoScalar - ThermoScalar` of the missing header. -/
def sub (l r : ThermoScalar) : ThermoScalar :=
  ⟨l.val - r.val, l.ddT - r.ddT, l.ddP - r.ddP⟩

/-- Modelled from the spec: `ThermoScalar * ThermoScalar` of the missing header, by the
product rule. -/
def mul (l r : ThermoScalar) : ThermoScalar :=
  ⟨l.val * r.val, l.val * r.ddT + l.ddT * r.val, l.val * r.ddP + l.ddP * r.val⟩

/-- Modelled from the spec: `ThermoScalar / ThermoScalar` of the missing header, by the
quotient rule. -/
def div (l r : ThermoScalar) : ThermoScalar :=
  ⟨l.val / r.val,
   (l.ddT * r.val - l.val * r.ddT) / (r.val * r.val),
   (l.ddP * r.val - l.val * r.ddP) / (r.val * r.val)⟩

end ThermoScalar

namespace ChemicalScalar

/-- Modelled from the spec: the zero `ChemicalScalar` with `ncols` composition partials. -/
def zero (ncols : Nat) : ChemicalScalar := ⟨0, 0, 0, List.replicate ncols 0⟩

/-- Modelled from the spec: `ChemicalScalar + ChemicalScalar` of the missing header (the
`ddn` rows are added column by column). -/
def add (l r : ChemicalScalar) : ChemicalScalar :=
  ⟨l.val + r.val, l.ddT + r.ddT, l.ddP + r.ddP, List.zipWith (· + ·) l.ddn r.ddn⟩

/-- Modelled from the spec: `ThermoScalar + ChemicalScalar` of the missing header. -/
def thermoAdd (l : ThermoScalar) (r : ChemicalScalar) : ChemicalScalar :=
  ⟨l.val + r.val, l.ddT + r.ddT, l.ddP + r.ddP, r.ddn⟩

/-- Modelled from the spec: `ThermoScalar * ChemicalScalar` of the missing header, by the
product rule. -/
def thermoMul (l : ThermoScalar) (r : ChemicalScalar) : ChemicalScalar :=
  ⟨l.val * r.val, l.val * r.ddT + l.ddT * r.val, l.val * r.ddP + l.ddP * r.val,
   r.ddn.map (fun d => l.val * d)⟩

/-- Modelled from the spec: `ChemicalScalar * ThermoScalar` of the missing header, by the
product rule. -/
def mulThermo (l : ChemicalScalar) (r : ThermoScalar) : ChemicalScalar :=
  ⟨l.val * r.val, l.val * r.ddT + l.ddT * r.val, l.val * r.ddP + l.ddP * r.val,
   l.ddn.map (fun d => d * r.val)⟩

/-- Modelled from the spec: `double * ChemicalScalar` of the missing header. -/
def scale (c : ℚ) (r : ChemicalScalar) : ChemicalScalar :=
  ⟨c * r.val, c * r.ddT, c * r.ddP, r.ddn.map (fun d => c * d)⟩

/-- Modelled from the spec: `ChemicalScalar - ChemicalScalar` of the missing header (the
`ddn` rows are subtracted column by column). -/
def sub (l r : ChemicalScalar) : ChemicalScalar :=
  ⟨l.val - r.val, l.ddT - r.ddT, l.ddP - r.ddP, List.zipWith (· - ·) l.ddn r.ddn⟩

/-- Modelled from the spec: `ChemicalScalar * ChemicalScalar` of the missing header, by
the product rule. -/
def mul (l r : ChemicalScalar) : ChemicalScalar :=
  ⟨l.val * r.val, l.val * r.ddT + l.ddT * r.val, l.val * r.ddP + l.ddP * r.val,
   List.zipWith (fun dl dr => l.val * dr + dl * r.val) l.ddn r.ddn⟩

/-- Modelled from the spec: `ChemicalScalar / ChemicalScalar` of the missing header, by
the quotient rule. -/
def div (l r : ChemicalScalar) : ChemicalScalar :=
  ⟨l.val / r.val,
   (l.ddT * r.val - l.val * r.ddT) / (r.val * r.val),
   (l.ddP * r.val - l.val * r.ddP) / (r.val * r.val),
   List.zipWith (fun dl dr => (dl * r.val - l.val * dr) / (r.val * r.val)) l.ddn r.ddn⟩

/-- Modelled from the spec: `ChemicalScalar / ThermoScalar` of the missing header, by
the quotient rule. -/
def divThermo (l : ChemicalScalar) (r : ThermoScalar) : ChemicalScalar :=
  ⟨l.val / r.val,
   (l.ddT * r.val - l.val * r.ddT) / (r.val * r.val),
   (l.ddP * r.val - l.val * r.ddP) / (r.val * r.val),
   l.ddn.map (fun d => d * r.val / (r.val * r.val))⟩

end ChemicalScalar

/-! ## Segments, blocks and vector arithmetic -/

/-- Modelled from the spec: `rows(v, offset, size)` of the missing linear-algebra
header: the segment of `size` entries of `v` starting at `offset`. -/
def rows {α : Type} (v : List α) (offset size : Nat) : Option (List α) :=
  if offset + size ≤ v.length then some ((v.drop offset).take size) else none

/-- Modelled from the spec: `res.rows(offset, size) = v` of the missing header: overwrite the segment of `size` entries of `res`
starting at `offset` with `v`. -/
def setRows {α : Type} (res : List α) (offset size : Nat) (v : List α) : Option (List α) :=
  if offset + size ≤ res.length ∧ v.length = size then
    some (res.take offset ++ v ++ res.drop (offset + size))
  else none

/-- Modelled from the spec: a componentwise binary operation of the missing vector
headers; the two vectors must have the same length. -/
def zipSame {α β γ : Type} (f : α → β → γ) (l : List α) (r : List β) : Option (List γ) :=
  if l.length = r.length then some (List.zipWith f l r) else none

namespace ThermoVector

/-- Modelled from the spec: `ThermoVector res(nrows)` of the missing header: the zero
vector. -/
def zeros (nrows : Nat) : ThermoVector := List.replicate nrows ⟨0, 0, 0⟩

/-- Modelled from the spec: `ThermoVector - ThermoVector` of the missing header. -/
def sub (l r : ThermoVector) : Option ThermoVector := zipSame ThermoScalar.sub l r

/-- Modelled from the spec: `ThermoVector / ThermoScalar` of the missing header. -/
def divScalar (l : ThermoVector) (r : ThermoScalar) : ThermoVector :=
  l.map (fun a => ThermoScalar.div a r)

/-- Modelled from the spec: `ThermoScalar * ThermoVector` of the missing header. -/
def scalarMul (l : ThermoScalar) (r : ThermoVector) : ThermoVector :=
  r.map (fun a => ThermoScalar.mul l a)

end ThermoVector

namespace ChemicalVector

/-- Modelled from the spec: `ChemicalVector res(nrows, ncols)` of the missing header:
the zero vector with a zero `ddn` matrix. -/
def zeros (nrows ncols : Nat) : ChemicalVector :=
  List.replicate nrows (ChemicalScalar.zero ncols)

/-- Modelled from the spec: `res.row(irow, icol, ncols) = v` of the missing header: row `irow` takes the value and the `T`, `P`
partials of `v`, and the columns `icol .. icol + ncols - 1` of its `ddn` row take
`v.ddn`; the other columns of the row keep what they held. -/
def setRow (res : ChemicalVector) (irow icol ncols : Nat) (v : ChemicalScalar) :
    Option ChemicalVector :=
  (res[irow]?).bind fun old =>
    (setRows old.ddn icol ncols v.ddn).map fun d => res.set irow ⟨v.val, v.ddT, v.ddP, d⟩

/-- Modelled from the spec: `res.rows(irow, icol, nrows, ncols) = v` of the missing
header: the rows `irow .. irow + nrows - 1` take
the values and the `T`, `P` partials of the rows of `v`, and the columns
`icol .. icol + ncols - 1` of their `ddn` rows take the `ddn` rows of `v`. -/
def setBlock (res : ChemicalVector) (irow icol nrows ncols : Nat) (v : ChemicalVector) :
    Option ChemicalVector :=
  if irow + nrows ≤ res.length ∧ v.length = nrows ∧
      (∀ old ∈ (res.drop irow).take nrows, icol + ncols ≤ old.ddn.length) ∧
      (∀ x ∈ v, x.ddn.length = ncols) then
    some (res.take irow ++
      List.zipWith (fun old x => (⟨x.val, x.ddT, x.ddP,
          old.ddn.take icol ++ x.ddn ++ old.ddn.drop (icol + ncols)⟩ : ChemicalScalar))
        ((res.drop irow).take nrows) v ++
      res.drop (irow + nrows))
  else none

/-- Modelled from the spec: `l % r` of the missing header for a `ChemicalVector` and a
`ThermoVector`: the componentwise product. -/
def mulThermo (l : ChemicalVector) (r : ThermoVector) : Option ChemicalVector :=
  zipSame ChemicalScalar.mulThermo l r

/-- Modelled from the spec: `ThermoScalar * ChemicalVector` of the missing header. -/
def scalarMul (l : ThermoScalar) (r : ChemicalVector) : ChemicalVector :=
  r.map (fun a => ChemicalScalar.thermoMul l a)

/-- Modelled from the spec: `ThermoVector + ChemicalVector` of the missing header. -/
def thermoAdd (l : ThermoVector) (r : ChemicalVector) : Option ChemicalVector :=
  zipSame ChemicalScalar.thermoAdd l r

/-- Modelled from the spec: `sum(v)` of the missing header: the sum of the rows of `v`, whose `ddn` matrix has `ncols` columns. -/
def sum (ncols : Nat) (v : ChemicalVector) : ChemicalScalar :=
  v.foldl ChemicalScalar.add (ChemicalScalar.zero ncols)

/-- Modelled from the spec: `Reaktoro::composition(n)` of the missing header: the
amounts as a `ChemicalVector`, whose `ddn` matrix is the identity. -/
def composition (n : List ℚ) : ChemicalVector :=
  (List.range n.length).map fun i =>
    ⟨n.getD i 0, 0, 0, (List.range n.length).map fun j => if i = j then 1 else 0⟩

/-- Modelled from the spec: `v.rows(irow, icol, nrows, ncols)` of the missing header:
the rows `irow .. irow + nrows - 1` of `v` with the columns `icol .. icol + ncols - 1`
of their `ddn` rows. -/
def block (v : ChemicalVector) (irow icol nrows ncols : Nat) : Option ChemicalVector :=
  if irow + nrows ≤ v.length ∧
      (∀ x ∈ (v.drop irow).take nrows, icol + ncols ≤ x.ddn.length) then
    some (((v.drop irow).take nrows).map fun x =>
      (⟨x.val, x.ddT, x.ddP, (x.ddn.drop icol).take ncols⟩ : ChemicalScalar))
  else none

/-- Modelled from the spec: `l % r` of the missing header for a plain vector and a
`ChemicalVector`: the componentwise product. -/
def scaleRows (l : List ℚ) (r : ChemicalVector) : Option ChemicalVector :=
  zipSame ChemicalScalar.scale l r

/-- Modelled from the spec: `ChemicalVector - ChemicalVector` of the missing header. -/
def sub (l r : ChemicalVector) : Option ChemicalVector := zipSame ChemicalScalar.sub l r

/-- Modelled from the spec: `l % r` of the missing header for two `ChemicalVector`s: the
componentwise product. -/
def mul (l r : ChemicalVector) : Option ChemicalVector := zipSame ChemicalScalar.mul l r

/-- Modelled from the spec: `ChemicalVector / ChemicalVector` of the missing header: the
componentwise quotient. -/
def div (l r : ChemicalVector) : Option ChemicalVector := zipSame ChemicalScalar.div l r

/-- Modelled from the spec: `ChemicalVector / ThermoScalar` of the missing header. -/
def divScalar (l : ChemicalVector) (r : ThermoScalar) : ChemicalVector :=
  l.map (fun a => ChemicalScalar.divThermo a r)

end ChemicalVector

/-- Modelled from the spec: `Reaktoro::molarFractions` of `Reaktoro/Core/Utils.hpp`
is not among the sources. Each amount is divided by the sum of the amounts of the
given segment; a segment of zero total amount yields zero fractions. The partial of
`n_i / nt` with respect to `n_j` is `δ_ij / nt - n_i / nt²`. -/
def molarFractions (n : List ℚ) : ChemicalVector :=
  let nt := n.sum
  if nt = 0 then ChemicalVector.zeros n.length n.length
  else n.enum.map fun p =>
    ⟨p.2 / nt, 0, 0,
     (List.range n.length).map fun j => (if p.1 = j then 1 / nt else 0) - p.2 / nt / nt⟩

/-! ## Per-phase model results and the chemical system -/

/-- Modelled from the spec: `PhaseThermoModelResult`, whose header is not among the
sources. The result of the thermo model of one phase: parallel arrays indexed by the
species of the phase. -/
structure PhaseThermoModelResult where
  standard_partial_molar_gibbs_energies : ThermoVector
  standard_partial_molar_enthalpies : ThermoVector
  standard_partial_molar_volumes : ThermoVector
  standard_partial_molar_heat_capacities_cp : ThermoVector
  standard_partial_molar_heat_capacities_cv : ThermoVector

/-- Modelled from the spec: `PhaseChemicalModelResult`, whose header is not among the
sources. The result of the chemical model of one phase. A `molar_volume` whose value
is not positive means that the model provides no molar volume. -/
structure PhaseChemicalModelResult where
  ln_activity_coefficients : ChemicalVector
  ln_activity_constants : ThermoVector
  ln_activities : ChemicalVector
  molar_volume : ChemicalScalar

/-- One record per phase. -/
abbrev ThermoModelResult := List PhaseThermoModelResult

/-- One record per phase. -/
abbrev ChemicalModelResult := List PhaseChemicalModelResult

/-- Modelled from the spec: the class `ChemicalSystem` is not among the sources.
What `ChemicalProperties` uses of it is the phase partition (the ordered species
counts of the phases), the molar masses of the species and the two model functions. -/
structure ChemicalSystem where
  phases : List Nat
  molarMasses : List ℚ
  thermoModel : ℚ → ℚ → ThermoModelResult
  chemicalModel : ℚ → ℚ → List ℚ → ChemicalModelResult

namespace ChemicalSystem

/-- The chemical system of a default-constructed `ChemicalProperties`. -/
def empty : ChemicalSystem := ⟨[], [], fun _ _ => [], fun _ _ _ => []⟩

/-- The number of phases. -/
def numPhases (sys : ChemicalSystem) : Nat := sys.phases.length

/-- The number of species: the phase sizes add up to it. -/
def numSpecies (sys : ChemicalSystem) : Nat := sys.phases.sum

/-- The number of species of phase `i`; a phase index out of range is an error. -/
def numSpeciesInPhase (sys : ChemicalSystem) (i : Nat) : Option Nat := sys.phases[i]?

end ChemicalSystem

/-! ## `ChemicalProperties::Impl` -/

namespace ChemicalProperties

/-- The state of `ChemicalProperties`. -/
structure Impl where
  system : ChemicalSystem
  num_species : Nat
  num_phases : Nat
  T : ThermoScalar
  P : ThermoScalar
  n : List ℚ
  tres : ThermoModelResult
  cres : ChemicalModelResult

namespace Impl

/-- The constructor `Impl()`. -/
def default : Impl :=
  ⟨ChemicalSystem.empty, 0, 0, Temperature 0, Pressure 0, [], [], []⟩

/-- The constructor `Impl(const ChemicalSystem& system)`. -/
def ofSystem (system : ChemicalSystem) : Impl :=
  ⟨system, system.numSpecies, system.numPhases, Temperature 0, Pressure 0, [], [], []⟩

/-- The function `update(T, P)`. -/
def updateTP (s : Impl) (T_ P_ : ℚ) : Impl :=
  { s with T := Temperature T_, P := Pressure P_, tres := s.system.thermoModel T_ P_ }

/-- The function `update(T, P, n)`. -/
def update (s : Impl) (T_ P_ : ℚ) (n_ : List ℚ) : Impl :=
  { s with T := Temperature T_, P := Pressure P_, n := n_,
           tres := s.system.thermoModel T_ P_,
           cres := s.system.chemicalModel T_ P_ n_ }

/-- The function `ChemicalProperties::temperature()`: `pimpl->T.val`. -/
def temperature (s : Impl) : ℚ := s.T.val

/-- The function `ChemicalProperties::pressure()`: `pimpl->P.val`. -/
def pressure (s : Impl) : ℚ := s.P.val

/-- The function `ChemicalProperties::composition()`: `pimpl->n`. -/
def composition (s : Impl) : List ℚ := s.n

/-- The loop `for(i = 0; i < num_phases; ++i) { size = numSpeciesInPhase(i); body; offset += size; }`
shared by the accessors: `forPhases s body k i offset res` runs the `k` iterations
that start at phase `i` with the running `offset`, threading `res` through `body`. -/
def forPhases {α : Type} (s : Impl) (body : Nat → Nat → Nat → α → Option α) :
    Nat → Nat → Nat → α → Option α
  | 0, _, _, res => some res
  | k + 1, i, offset, res =>
    (s.system.numSpeciesInPhase i).bind fun size =>
      (body i offset size res).bind fun res' =>
        forPhases s body k (i + 1) (offset + size) res'

/-- The species-level loop `res.rows(offset, size) = field(i)` over all phases. -/
def collectThermo (s : Impl) (field : Nat → Option ThermoVector) : Option ThermoVector :=
  forPhases s (fun i offset size res => (field i).bind fun v => setRows res offset size v)
    s.num_phases 0 0 (ThermoVector.zeros s.num_species)

/-- The function `standardPartialMolarGibbsEnergies()`. -/
def standardPartialMolarGibbsEnergies (s : Impl) : Option ThermoVector :=
  collectThermo s fun i => (s.tres[i]?).map (·.standard_partial_molar_gibbs_energies)

/-- The function `standardPartialMolarEnthalpies()`. -/
def standardPartialMolarEnthalpies (s : Impl) : Option ThermoVector :=
  collectThermo s fun i => (s.tres[i]?).map (·.standard_partial_molar_enthalpies)

/-- The function `standardPartialMolarVolumes()`. -/
def standardPartialMolarVolumes (s : Impl) : Option ThermoVector :=
  collectThermo s fun i => (s.tres[i]?).map (·.standard_partial_molar_volumes)

/-- The function `standardPartialMolarHeatCapacitiesConstP()`. -/
def standardPartialMolarHeatCapacitiesConstP (s : Impl) : Option ThermoVector :=
  collectThermo s fun i => (s.tres[i]?).map (·.standard_partial_molar_heat_capacities_cp)

/-- The function `standardPartialMolarHeatCapacitiesConstV()`. -/
def standardPartialMolarHeatCapacitiesConstV (s : Impl) : Option ThermoVector :=
  collectThermo s fun i => (s.tres[i]?).map (·.standard_partial_molar_heat_capacities_cv)

/-- The function `lnActivityConstants()`: the source reads `cres[i].ln_activity_constants`. -/
def lnActivityConstants (s : Impl) : Option ThermoVector :=
  collectThermo s fun i => (s.cres[i]?).map (·.ln_activity_constants)

/-- The species-level loop `res.rows(offset, offset, size, size) = field(i)` over all phases. -/
def collectChemical (s : Impl) (field : Nat → Nat → Nat → Option ChemicalVector) :
    Option ChemicalVector :=
  forPhases s (fun i offset size res =>
      (field i offset size).bind fun v => ChemicalVector.setBlock res offset offset size size v)
    s.num_phases 0 0 (ChemicalVector.zeros s.num_species s.num_species)

/-- The function `molarFractions()`. -/
def molarFractions (s : Impl) : Option ChemicalVector :=
  collectChemical s fun _ offset size =>
    (rows s.n offset size).map fun np => Reaktoro.molarFractions np

/-- The function `lnActivityCoefficients()`. -/
def lnActivityCoefficients (s : Impl) : Option ChemicalVector :=
  collectChemical s fun i _ _ => (s.cres[i]?).map (·.ln_activity_coefficients)

/-- The function `lnActivities()`. -/
def lnActivities (s : Impl) : Option ChemicalVector :=
  collectChemical s fun i _ _ => (s.cres[i]?).map (·.ln_activities)

/-- The function `chemicalPotentials()`: `G + R*T*lna`, with `R` the universal gas constant. -/
def chemicalPotentials (R : ℚ) (s : Impl) : Option ChemicalVector :=
  (standardPartialMolarGibbsEnergies s).bind fun G =>
    (lnActivities s).bind fun lna =>
      ChemicalVector.thermoAdd G (ChemicalVector.scalarMul (ThermoScalar.scale R s.T) lna)

/-- The function `standardPartialMolarEntropies()`: `(H - G)/T`. -/
def standardPartialMolarEntropies (s : Impl) : Option ThermoVector :=
  (standardPartialMolarGibbsEnergies s).bind fun G =>
    (standardPartialMolarEnthalpies s).bind fun H =>
      (ThermoVector.sub H G).map fun d => ThermoVector.divScalar d s.T

/-- The function `standardPartialMolarInternalEnergies()`: `H - P*V`. -/
def standardPartialMolarInternalEnergies (s : Impl) : Option ThermoVector :=
  (standardPartialMolarEnthalpies s).bind fun H =>
    (standardPartialMolarVolumes s).bind fun V =>
      ThermoVector.sub H (ThermoVector.scalarMul s.P V)

/-- The function `standardPartialMolarHelmholtzEnergies()`: `G - P*V`. -/
def standardPartialMolarHelmholtzEnergies (s : Impl) : Option ThermoVector :=
  (standardPartialMolarGibbsEnergies s).bind fun G =>
    (standardPartialMolarVolumes s).bind fun V =>
      ThermoVector.sub G (ThermoVector.scalarMul s.P V)

/-- The phase-level loop `res.row(i, offset, size) = value(i, offset, size)` over all phases. -/
def collectPhase (s : Impl) (value : Nat → Nat → Nat → Option ChemicalScalar) :
    Option ChemicalVector :=
  forPhases s (fun i offset size res =>
      (value i offset size).bind fun v => ChemicalVector.setRow res i offset size v)
    s.num_phases 0 0 (ChemicalVector.zeros s.num_phases s.num_species)

/-- The loop body `np = rows(n, offset, size); xp = molarFractions(np); sum(xp % field(tres[i]))`
of the phase molar accessors. -/
def fractionWeightedSum (s : Impl) (field : PhaseThermoModelResult → ThermoVector)
    (i offset size : Nat) : Option ChemicalScalar :=
  (rows s.n offset size).bind fun np =>
    let xp := Reaktoro.molarFractions np
    (s.tres[i]?).bind fun t =>
      (ChemicalVector.mulThermo xp (field t)).map fun w => ChemicalVector.sum size w

/-- The function `phaseMolarGibbsEnergies()`. -/
def phaseMolarGibbsEnergies (s : Impl) : Option ChemicalVector :=
  collectPhase s (fractionWeightedSum s (·.standard_partial_molar_gibbs_energies))

/-- The function `phaseMolarEnthalpies()`. -/
def phaseMolarEnthalpies (s : Impl) : Option ChemicalVector :=
  collectPhase s (fractionWeightedSum s (·.standard_partial_molar_enthalpies))

/-- The function `phaseMolarVolumes()`: the molar volume of the chemical model when its value is
positive, the fraction-weighted sum of the standard partial molar volumes otherwise. -/
def phaseMolarVolumes (s : Impl) : Option ChemicalVector :=
  collectPhase s fun i offset size =>
    (s.cres[i]?).bind fun c =>
      if c.molar_volume.val > 0 then some c.molar_volume
      else fractionWeightedSum s (·.standard_partial_molar_volumes) i offset size

/-- The function `phaseMolarHeatCapacitiesConstP()`. -/
def phaseMolarHeatCapacitiesConstP (s : Impl) : Option ChemicalVector :=
  collectPhase s (fractionWeightedSum s (·.standard_partial_molar_heat_capacities_cp))

/-- The function `phaseMolarHeatCapacitiesConstV()`. -/
def phaseMolarHeatCapacitiesConstV (s : Impl) : Option ChemicalVector :=
  collectPhase s (fractionWeightedSum s (·.standard_partial_molar_heat_capacities_cv))

/-- The function `phaseMolarEntropies()`: `(H - G)/T`. -/
def phaseMolarEntropies (s : Impl) : Option ChemicalVector :=
  (phaseMolarGibbsEnergies s).bind fun G =>
    (phaseMolarEnthalpies s).bind fun H =>
      (ChemicalVector.sub H G).map fun d => ChemicalVector.divScalar d s.T

/-- The function `phaseMolarInternalEnergies()`: `H - P*V`. -/
def phaseMolarInternalEnergies (s : Impl) : Option ChemicalVector :=
  (phaseMolarEnthalpies s).bind fun H =>
    (phaseMolarVolumes s).bind fun V =>
      ChemicalVector.sub H (ChemicalVector.scalarMul s.P V)

/-- The function `phaseMolarHelmholtzEnergies()`: `G - P*V`. -/
def phaseMolarHelmholtzEnergies (s : Impl) : Option ChemicalVector :=
  (phaseMolarGibbsEnergies s).bind fun G =>
    (phaseMolarVolumes s).bind fun V =>
      ChemicalVector.sub G (ChemicalVector.scalarMul s.P V)

/-- The function `phaseMasses()`: row `i` is `sum(mmp % np)`, with `np` the block of
`composition(n)` of phase `i` and `mmp` the molar masses of its species. -/
def phaseMasses (s : Impl) : Option ChemicalVector :=
  collectPhase s fun _ offset size =>
    (ChemicalVector.block (ChemicalVector.composition s.n) offset offset size size).bind fun np =>
      (rows s.system.molarMasses offset size).bind fun mmp =>
        (ChemicalVector.scaleRows mmp np).map fun w => ChemicalVector.sum size w

/-- The function `phaseAmounts()`: row `i` is `sum(np)`, with `np` the block of
`composition(n)` of phase `i`. -/
def phaseAmounts (s : Impl) : Option ChemicalVector :=
  collectPhase s fun _ offset size =>
    (ChemicalVector.block (ChemicalVector.composition s.n) offset offset size size).map
      fun np => ChemicalVector.sum size np

/-- The expression `phaseAmounts()/phaseMasses() % molar` shared by the phase specific
accessors. -/
def specificOf (s : Impl) (molar : Option ChemicalVector) : Option ChemicalVector :=
  (phaseAmounts s).bind fun A =>
    (phaseMasses s).bind fun M =>
      (ChemicalVector.div A M).bind fun q =>
        molar.bind fun X => ChemicalVector.mul q X

/-- The function `phaseSpecificGibbsEnergies()`. -/
def phaseSpecificGibbsEnergies (s : Impl) : Option ChemicalVector :=
  specificOf s (phaseMolarGibbsEnergies s)

/-- The function `phaseSpecificEnthalpies()`. -/
def phaseSpecificEnthalpies (s : Impl) : Option ChemicalVector :=
  specificOf s (phaseMolarEnthalpies s)

/-- The function `phaseSpecificVolumes()`. -/
def phaseSpecificVolumes (s : Impl) : Option ChemicalVector :=
  specificOf s (phaseMolarVolumes s)

/-- The function `phaseSpecificEntropies()`. -/
def phaseSpecificEntropies (s : Impl) : Option ChemicalVector :=
  specificOf s (phaseMolarEntropies s)

/-- The function `phaseSpecificInternalEnergies()`. -/
def phaseSpecificInternalEnergies (s : Impl) : Option ChemicalVector :=
  specificOf s (phaseMolarInternalEnergies s)

/-- The function `phaseSpecificHelmholtzEnergies()`. -/
def phaseSpecificHelmholtzEnergies (s : Impl) : Option ChemicalVector :=
  specificOf s (phaseMolarHelmholtzEnergies s)

/-- The function `phaseSpecificHeatCapacitiesConstP()`. -/
def phaseSpecificHeatCapacitiesConstP (s : Impl) : Option ChemicalVector :=
  specificOf s (phaseMolarHeatCapacitiesConstP s)

/-- The function `phaseSpecificHeatCapacitiesConstV()`. -/
def phaseSpecificHeatCapacitiesConstV (s : Impl) : Option ChemicalVector :=
  specificOf s (phaseMolarHeatCapacitiesConstV s)

/-- The function `phaseVolumes()`: `phaseAmounts() % phaseMolarVolumes()`. -/
def phaseVolumes (s : Impl) : Option ChemicalVector :=
  (phaseAmounts s).bind fun A =>
    (phaseMolarVolumes s).bind fun V => ChemicalVector.mul A V

/-- The function `phaseDensities()`: `phaseMasses()/(phaseAmounts() % phaseMolarVolumes())`. -/
def phaseDensities (s : Impl) : Option ChemicalVector :=
  (phaseMasses s).bind fun M =>
    (phaseAmounts s).bind fun A =>
      (phaseMolarVolumes s).bind fun V =>
        (ChemicalVector.mul A V).bind fun AV => ChemicalVector.div M AV

/-- The function `volume()`: `sum(phaseAmounts() % phaseMolarVolumes())`. -/
def volume (s : Impl) : Option ChemicalScalar :=
  (phaseAmounts s).bind fun A =>
    (phaseMolarVolumes s).bind fun V =>
      (ChemicalVector.mul A V).map fun AV => ChemicalVector.sum s.num_species AV

/-- The running offset of the loop when it reaches phase `i`: the sum of the sizes
of the phases before `i`. -/
def phaseOffset (s : Impl) (i : Nat) : Nat := (s.system.phases.take i).sum

end Impl

end ChemicalProperties

/-! ### The partition invariant and well-shaped inputs -/

/-- A `ChemicalVector` of `nrows` rows whose `ddn` matrix has `ncols` columns. -/
def ChemicalVector.shaped (v : ChemicalVector) (nrows ncols : Nat) : Prop :=
  v.length = nrows ∧ ∀ x ∈ v, x.ddn.length = ncols

namespace ChemicalProperties

namespace Impl

/-- The partition invariant of a state: `num_phases` is the number of phases of the
system, the sizes of the phases add up to `num_species`, and the system has one molar
mass per species (`molarMasses(system.species())`). -/
def partitioned (s : Impl) : Prop :=
  s.num_phases = s.system.phases.length ∧ s.num_species = s.system.phases.sum ∧
    s.system.molarMasses.length = s.num_species

/-- Well-shaped inputs of the accessors: `n` has one amount per species, `tres` and
`cres` have one record per phase, and the arrays of the record of phase `i` have
`numSpeciesInPhase(i)` rows (and as many `ddn` columns, where they have a `ddn`
matrix). -/
def wellShaped (s : Impl) : Prop :=
  s.n.length = s.num_species ∧ s.tres.length = s.num_phases ∧
  s.cres.length = s.num_phases ∧
  (∀ (i size : Nat) t, s.system.numSpeciesInPhase i = some size → s.tres[i]? = some t →
    t.standard_partial_molar_gibbs_energies.length = size ∧
    t.standard_partial_molar_enthalpies.length = size ∧
    t.standard_partial_molar_volumes.length = size ∧
    t.standard_partial_molar_heat_capacities_cp.length = size ∧
    t.standard_partial_molar_heat_capacities_cv.length = size) ∧
  (∀ (i size : Nat) c, s.system.numSpeciesInPhase i = some size → s.cres[i]? = some c →
    c.ln_activity_coefficients.shaped size size ∧
    c.ln_activity_constants.length = size ∧
    c.ln_activities.shaped size size ∧
    c.molar_volume.ddn.length = size)

end Impl

end ChemicalProperties

/-! ## `PhaseChemicalProperties` -/

/-- The record of the chemical properties of one phase, with the fields that
`ChemicalProperties.cpp` initialises and reads. -/
structure PhaseChemicalProperties where
  T : ThermoScalar
  P : ThermoScalar
  n : List ℚ
  standard_partial_molar_gibbs_energies : ThermoVector
  standard_partial_molar_enthalpies : ThermoVector
  standard_partial_molar_volumes : ThermoVector
  standard_partial_molar_heat_capacities_cp : ThermoVector
  standard_partial_molar_heat_capacities_cv : ThermoVector
  molar_fractions : ChemicalVector
  ln_activity_coefficients : ChemicalVector
  ln_activity_constants : ThermoVector
  ln_activities : ChemicalVector
  phase_molar_gibbs_energy : ChemicalScalar
  phase_molar_enthalpy : ChemicalScalar
  phase_molar_volume : ChemicalScalar
  phase_molar_heat_capacity_cp : ChemicalScalar
  phase_molar_heat_capacity_cv : ChemicalScalar
  phase_amount : ChemicalScalar
  phase_mass : ChemicalScalar

namespace PhaseChemicalProperties

/-- The function `PhaseChemicalProperties::chemicalPotentials()`: `G + R*T*lna`. -/
def chemicalPotentials (R : ℚ) (p : PhaseChemicalProperties) : Option ChemicalVector :=
  ChemicalVector.thermoAdd p.standard_partial_molar_gibbs_energies
    (ChemicalVector.scalarMul (ThermoScalar.scale R p.T) p.ln_activities)

/-- The function `PhaseChemicalProperties::standardPartialMolarEntropies()`: `(H - G)/T`. -/
def standardPartialMolarEntropies (p : PhaseChemicalProperties) : Option ThermoVector :=
  (ThermoVector.sub p.standard_partial_molar_enthalpies
      p.standard_partial_molar_gibbs_energies).map fun d => ThermoVector.divScalar d p.T

/-- The function `PhaseChemicalProperties::standardPartialMolarInternalEnergies()`: `H - P*V`. -/
def standardPartialMolarInternalEnergies (p : PhaseChemicalProperties) : Option ThermoVector :=
  ThermoVector.sub p.standard_partial_molar_enthalpies
    (ThermoVector.scalarMul p.P p.standard_partial_molar_volumes)

/-- The function `PhaseChemicalProperties::standardPartialMolarHelmholtzEnergies()`: `G - P*V`. -/
def standardPartialMolarHelmholtzEnergies (p : PhaseChemicalProperties) : Option ThermoVector :=
  ThermoVector.sub p.standard_partial_molar_gibbs_energies
    (ThermoVector.scalarMul p.P p.standard_partial_molar_volumes)

/-- The function `PhaseChemicalProperties::molarGibbsEnergy()`. -/
def molarGibbsEnergy (p : PhaseChemicalProperties) : ChemicalScalar :=
  p.phase_molar_gibbs_energy

/-- The function `PhaseChemicalProperties::molarEnthalpy()`. -/
def molarEnthalpy (p : PhaseChemicalProperties) : ChemicalScalar :=
  p.phase_molar_enthalpy

/-- The function `PhaseChemicalProperties::molarVolume()`. -/
def molarVolume (p : PhaseChemicalProperties) : ChemicalScalar :=
  p.phase_molar_volume

/-- The function `PhaseChemicalProperties::molarEntropy()`: `(H - G)/T`. -/
def molarEntropy (p : PhaseChemicalProperties) : ChemicalScalar :=
  ChemicalScalar.divThermo (ChemicalScalar.sub p.phase_molar_enthalpy p.phase_molar_gibbs_energy)
    p.T

/-- The function `PhaseChemicalProperties::molarInternalEnergy()`: `H - P*V`. -/
def molarInternalEnergy (p : PhaseChemicalProperties) : ChemicalScalar :=
  ChemicalScalar.sub p.phase_molar_enthalpy (ChemicalScalar.thermoMul p.P p.phase_molar_volume)

/-- The function `PhaseChemicalProperties::molarHelmholtzEnergy()`: `G - P*V`. -/
def molarHelmholtzEnergy (p : PhaseChemicalProperties) : ChemicalScalar :=
  ChemicalScalar.sub p.phase_molar_gibbs_energy
    (ChemicalScalar.thermoMul p.P p.phase_molar_volume)

/-- The function `PhaseChemicalProperties::molarHeatCapacityConstP()`. -/
def molarHeatCapacityConstP (p : PhaseChemicalProperties) : ChemicalScalar :=
  p.phase_molar_heat_capacity_cp

/-- The function `PhaseChemicalProperties::molarHeatCapacityConstV()`. -/
def molarHeatCapacityConstV (p : PhaseChemicalProperties) : ChemicalScalar :=
  p.phase_molar_heat_capacity_cv

/-- The function `PhaseChemicalProperties::specificGibbsEnergy()`. -/
def specificGibbsEnergy (p : PhaseChemicalProperties) : ChemicalScalar :=
  ChemicalScalar.mul (ChemicalScalar.div p.phase_amount p.phase_mass) p.molarGibbsEnergy

/-- The function `PhaseChemicalProperties::specificEnthalpy()`. -/
def specificEnthalpy (p : PhaseChemicalProperties) : ChemicalScalar :=
  ChemicalScalar.mul (ChemicalScalar.div p.phase_amount p.phase_mass) p.molarEnthalpy

/-- The function `PhaseChemicalProperties::specificVolume()`. -/
def specificVolume (p : PhaseChemicalProperties) : ChemicalScalar :=
  ChemicalScalar.mul (ChemicalScalar.div p.phase_amount p.phase_mass) p.molarVolume

/-- The function `PhaseChemicalProperties::specificEntropy()`. -/
def specificEntropy (p : PhaseChemicalProperties) : ChemicalScalar :=
  ChemicalScalar.mul (ChemicalScalar.div p.phase_amount p.phase_mass) p.molarEntropy

/-- The function `PhaseChemicalProperties::specificInternalEnergy()`. -/
def specificInternalEnergy (p : PhaseChemicalProperties) : ChemicalScalar :=
  ChemicalScalar.mul (ChemicalScalar.div p.phase_amount p.phase_mass) p.molarInternalEnergy

/-- The function `PhaseChemicalProperties::specificHelmholtzEnergy()`. -/
def specificHelmholtzEnergy (p : PhaseChemicalProperties) : ChemicalScalar :=
  ChemicalScalar.mul (ChemicalScalar.div p.phase_amount p.phase_mass) p.molarHelmholtzEnergy

/-- The function `PhaseChemicalProperties::specificHeatCapacityConstP()`. -/
def specificHeatCapacityConstP (p : PhaseChemicalProperties) : ChemicalScalar :=
  ChemicalScalar.mul (ChemicalScalar.div p.phase_amount p.phase_mass) p.molarHeatCapacityConstP

/-- The function `PhaseChemicalProperties::specificHeatCapacityConstV()`. -/
def specificHeatCapacityConstV (p : PhaseChemicalProperties) : ChemicalScalar :=
  ChemicalScalar.mul (ChemicalScalar.div p.phase_amount p.phase_mass) p.molarHeatCapacityConstV

/-- The function `PhaseChemicalProperties::density()`. -/
def density (p : PhaseChemicalProperties) : ChemicalScalar :=
  ChemicalScalar.div p.phase_mass (ChemicalScalar.mul p.phase_amount p.phase_molar_volume)

/-- The function `PhaseChemicalProperties::mass()`. -/
def mass (p : PhaseChemicalProperties) : ChemicalScalar := p.phase_mass

/-- The function `PhaseChemicalProperties::amount()`. -/
def amount (p : PhaseChemicalProperties) : ChemicalScalar := p.phase_amount

/-- The function `PhaseChemicalProperties::volume()`. -/
def volume (p : PhaseChemicalProperties) : ChemicalScalar :=
  ChemicalScalar.mul p.phase_amount p.phase_molar_volume

end PhaseChemicalProperties

/-! ## Formation reactions and the standard-property resolver -/

/-- Modelled from the spec: `StandardThermoProps` is declared in a header that is not
among the sources. The standard properties `{G0, H0, V0, Cp0, Cv0}` of a species at
one `(T, P)`. -/
structure StandardThermoProps where
  G0 : ℚ
  H0 : ℚ
  V0 : ℚ
  Cp0 : ℚ
  Cv0 : ℚ
deriving DecidableEq

/-- Modelled from the spec: `ReactionThermoProps` is declared in a header that is not
among the sources. The corrections `{ΔG0, ΔH0, …}` of a formation reaction at one
`(T, P)`, one for each property that is summed over the reactants. -/
structure ReactionThermoProps where
  dG0 : ℚ
  dH0 : ℚ
  dCp0 : ℚ
  dCv0 : ℚ
deriving DecidableEq

/-- A function `(T, P) → {G0, H0, V0, Cp0, Cv0}`. -/
abbrev StandardThermoModel := ℚ → ℚ → StandardThermoProps

/-- A function `(T, P) → {ΔG0, ΔH0, …}`. -/
abbrev ReactionThermoModel := ℚ → ℚ → ReactionThermoProps

/-- Modelled from the spec: `FormationReaction.cpp` is not among the sources. The
configuration errors of the resolver: a reaction without a reaction thermo model
(in particular the empty reaction of a species that has none), a species that is
its own direct or indirect reactant, a reactant that names no species, and a
recursion deeper than the number of species allows. -/
inductive ConfigurationError where
  | noReaction
  | cyclicReaction
  | unknownSpecies
  | depthExceeded
deriving DecidableEq

/-- Modelled from the spec: `FormationReaction.cpp` is not among the sources. The
record `{product, reactants, reaction_model?, product_standard_volume?}`, with the
equilibrium constant `log₁₀K` from which the default reaction thermo model is
built. The reactants refer to their species by name. -/
structure FormationReaction where
  product : String
  reactants : List (String × ℚ)
  reaction_model : Option ReactionThermoModel
  equilibrium_constant : Option ℚ
  product_standard_volume : Option ℚ

/-- Modelled from the spec: `Species.cpp` is not among the sources. A species owns
either literal standard thermodynamic data or a formation reaction. -/
inductive SpeciesData where
  | literal (props : StandardThermoProps)
  | reaction (rxn : FormationReaction)

/-- Modelled from the spec: `Species.cpp` is not among the sources. A species record
of the arena that the reactants of the formation reactions index by name. -/
structure Species where
  name : String
  data : SpeciesData

namespace FormationReaction

/-- Modelled from the spec: `FormationReaction()`, the reaction of a species that has
no formation reaction. -/
def empty : FormationReaction := ⟨"", [], none, none, none⟩

/-- Modelled from the spec: `withProduct(name)`. -/
def withProduct (r : FormationReaction) (name : String) : FormationReaction :=
  { r with product := name }

/-- Modelled from the spec: `withReactants(list)`. -/
def withReactants (r : FormationReaction) (list : List (String × ℚ)) : FormationReaction :=
  { r with reactants := list }

/-- Modelled from the spec: `withEquilibriumConstant(lgK)`. -/
def withEquilibriumConstant (r : FormationReaction) (lgK : ℚ) : FormationReaction :=
  { r with equilibrium_constant := some lgK }

/-- Modelled from the spec: `withProductStandardVolume(V0)`. -/
def withProductStandardVolume (r : FormationReaction) (V0 : ℚ) : FormationReaction :=
  { r with product_standard_volume := some V0 }

/-- Modelled from the spec: `withReactionThermoModel(model)`, the custom reaction
thermo model. -/
def withReactionThermoModel (r : FormationReaction) (model : ReactionThermoModel) :
    FormationReaction :=
  { r with reaction_model := some model }

/-- Modelled from the spec: `stoichiometry(name)`, the coefficient of the reactant
called `name`, zero when there is none. -/
def stoichiometry (r : FormationReaction) (name : String) : ℚ :=
  match r.reactants.find? (fun rc => rc.1 == name) with
  | some rc => rc.2
  | none => 0

/-- Modelled from the spec: `reactionThermoModel()`. The custom model when there is
one; otherwise the default rule `ΔG0 = -R*T*ln(10)*log₁₀K` of the equilibrium constant,
with every other correction zero; absent when there is neither. `R` is the universal
gas constant and `ln10` the constant `ln(10)`. -/
def reactionThermoModel (R ln10 : ℚ) (r : FormationReaction) : Option ReactionThermoModel :=
  match r.reaction_model with
  | some model => some model
  | none => r.equilibrium_constant.map fun lgK => fun T _ => ⟨-R * T * ln10 * lgK, 0, 0, 0⟩

end FormationReaction

namespace Species

/-- Modelled from the spec: `Species()`. -/
def empty : Species := ⟨"", .literal ⟨0, 0, 0, 0, 0⟩⟩

/-- Modelled from the spec: `withName(name)`. -/
def withName (sp : Species) (name : String) : Species := { sp with name := name }

/-- Modelled from the spec: `withStandardGibbsEnergy(G0)`, literal data whose other
properties are zero. -/
def withStandardGibbsEnergy (sp : Species) (G0 : ℚ) : Species :=
  { sp with data := .literal ⟨G0, 0, 0, 0, 0⟩ }

/-- Modelled from the spec: `withFormationReaction(reaction)`. -/
def withFormationReaction (sp : Species) (rxn : FormationReaction) : Species :=
  { sp with data := .reaction rxn }

/-- Modelled from the spec: `reaction()`, the empty reaction for a species with
literal data. -/
def reaction (sp : Species) : FormationReaction :=
  match sp.data with
  | .literal _ => FormationReaction.empty
  | .reaction rxn => rxn

end Species

/-- Modelled from the spec: the species called `name` in the arena `db`. -/
def findSpecies (db : List Species) (name : String) : Option Species :=
  db.find? (fun sp => sp.name == name)

/-- Apply `f` to every reactant, failing with the first error. -/
def traverseReactants {α ε : Type} (f : String × ℚ → Except ε α) :
    List (String × ℚ) → Except ε (List α)
  | [] => .ok []
  | rc :: rest =>
    match f rc with
    | .error e => .error e
    | .ok x =>
      match traverseReactants f rest with
      | .error e => .error e
      | .ok xs => .ok (x :: xs)

/-- Modelled from the spec: the signed stoichiometric sum
`X(product) = Σ coefficient_i · X(reactant_i) + ΔX(reaction)` for every property but
the volume, which is the product standard volume (zero when none is supplied). -/
def combineReactants (ms : List (ℚ × StandardThermoModel)) (rm : ReactionThermoModel)
    (V0 : Option ℚ) : StandardThermoModel := fun T P =>
  { G0 := (ms.map fun cm => cm.1 * (cm.2 T P).G0).sum + (rm T P).dG0
    H0 := (ms.map fun cm => cm.1 * (cm.2 T P).H0).sum + (rm T P).dH0
    V0 := V0.getD 0
    Cp0 := (ms.map fun cm => cm.1 * (cm.2 T P).Cp0).sum + (rm T P).dCp0
    Cv0 := (ms.map fun cm => cm.1 * (cm.2 T P).Cv0).sum + (rm T P).dCv0 }

/-- Modelled from the spec: `FormationReaction.cpp` is not among the sources. The
resolver, as explicit recursion with a visited-set guard: a reaction without a
reaction thermo model is an error; every reactant is looked up in the arena, a
reactant with literal data contributes its constant model, a reactant with a formation
reaction is resolved recursively unless it is already being resolved on the current
path, which is a cycle. `fuel` bounds the depth of the recursion. -/
def resolve (R ln10 : ℚ) (db : List Species) :
    Nat → List String → FormationReaction → Except ConfigurationError StandardThermoModel
  | 0, _, _ => .error .depthExceeded
  | fuel + 1, visited, rxn =>
    match rxn.reactionThermoModel R ln10 with
    | none => .error .noReaction
    | some rm =>
      match traverseReactants (fun rc =>
          (match findSpecies db rc.1 with
          | none => .error .unknownSpecies
          | some sp =>
            match sp.data with
            | .literal props => .ok (rc.2, fun _ _ => props)
            | .reaction r =>
              if rc.1 ∈ visited then .error .cyclicReaction
              else
                match resolve R ln10 db fuel (rc.1 :: visited) r with
                | .error e => .error e
                | .ok m => .ok (rc.2, m) :
            Except ConfigurationError (ℚ × StandardThermoModel))) rxn.reactants with
      | .error e => .error e
      | .ok ms => .ok (combineReactants ms rm rxn.product_standard_volume)

/-- Modelled from the spec: `FormationReaction::standardThermoModel()`. The depth of
the recursion never exceeds the number of species of the arena. -/
def FormationReaction.standardThermoModel (R ln10 : ℚ) (db : List Species)
    (rxn : FormationReaction) : Except ConfigurationError StandardThermoModel :=
  resolve R ln10 db (db.length + 1) [] rxn

/-- Modelled from the spec: `Species::standardThermoModel()`, the constant function of
the literal data or the resolved model of the formation reaction. -/
def Species.standardThermoModel (R ln10 : ℚ) (db : List Species) (sp : Species) :
    Except ConfigurationError StandardThermoModel :=
  match sp.data with
  | .literal props => .ok fun _ _ => props
  | .reaction rxn => rxn.standardThermoModel R ln10 db

/-! ### The species of `FormationReaction.test.cxx` -/

/-- Species `A` of the test: `Species().withName("A").withStandardGibbsEnergy(0.0)`. -/
def speciesA : Species := (Species.empty.withName "A").withStandardGibbsEnergy 0

/-- Species `B` of the test: `Species().withName("B").withStandardGibbsEnergy(0.0)`. -/
def speciesB : Species := (Species.empty.withName "B").withStandardGibbsEnergy 0

/-- Species `C` of the test, formed by `A + 2B = C` with `lgK_C = 1.234`. -/
def speciesC : Species :=
  (Species.empty.withName "C").withFormationReaction
    ((((FormationReaction.empty.withProduct "C").withReactants [("A", 1), ("B", 2)]
      ).withProductStandardVolume 16.324).withEquilibriumConstant 1.234)

/-- Species `D` of the test, formed by `B + 3C = D` with the custom model
`dG0 = -R*T*ln10*lgK_D`, `dH0 = dH0_D`, where `lgK_D = 2.345` and `dH0_D = 234.5`. -/
def speciesD (R ln10 : ℚ) : Species :=
  (Species.empty.withName "D").withFormationReaction
    ((((FormationReaction.empty.withProduct "D").withReactants [("B", 1), ("C", 3)]
      ).withProductStandardVolume 17.435).withReactionThermoModel
        fun T _ => ⟨-R * T * ln10 * 2.345, 234.5, 0, 0⟩)

/-- Species `E` of the test, formed by `C - 2D = E` with the custom model
`dG0 = -R*T*ln10*lgK_E`, `dH0 = dH0_E`, where `lgK_E = 3.456` and `dH0_E = 345.6`. -/
def speciesE (R ln10 : ℚ) : Species :=
  (Species.empty.withName "E").withFormationReaction
    ((((FormationReaction.empty.withProduct "E").withReactants [("C", 1), ("D", -2)]
      ).withProductStandardVolume 18.546).withReactionThermoModel
        fun T _ => ⟨-R * T * ln10 * 3.456, 345.6, 0, 0⟩)

/-- The arena of the test. -/
def testSpecies (R ln10 : ℚ) : List Species :=
  [speciesA, speciesB, speciesC, speciesD R ln10, speciesE R ln10]

/-! ### Reactant chains, well-formed reactions and a cyclic arena -/

/-- A chain of reactants that starts at the reaction `rxn`: the first name is a
reactant of `rxn` that is a species of the arena `db` with a formation reaction, the
second name is such a reactant of that reaction, and so on. -/
def ReactantPath (db : List Species) : FormationReaction → List String → Prop
  | _, [] => True
  | rxn, p :: rest =>
    ∃ c sp r, (p, c) ∈ rxn.reactants ∧ findSpecies db p = some sp ∧
      sp.data = .reaction r ∧ ReactantPath db r rest

/-- A reaction that the resolver can combine in the arena `db`: it has a reaction
thermo model, and every reactant names a species of the arena. -/
def FormationReaction.wellFormed (R ln10 : ℚ) (db : List Species) (rxn : FormationReaction) :
    Prop :=
  (rxn.reactionThermoModel R ln10).isSome ∧
    ∀ rc ∈ rxn.reactants, (findSpecies db rc.1).isSome

/-- A species `X` formed from `Y`, for an arena that is not acyclic. -/
def speciesX : Species :=
  (Species.empty.withName "X").withFormationReaction
    (((FormationReaction.empty.withProduct "X").withReactants [("Y", 1)]
      ).withEquilibriumConstant 1)

/-- A species `Y` formed from `X`, for an arena that is not acyclic. -/
def speciesY : Species :=
  (Species.empty.withName "Y").withFormationReaction
    (((FormationReaction.empty.withProduct "Y").withReactants [("X", 2)]
      ).withEquilibriumConstant 1)

/-- An arena with a cycle: `X` is formed from `Y` and `Y` from `X`. -/
def cyclicSpecies : List Species := [speciesX, speciesY]

/-- A species `R` formed from `P`, which lies on a cycle that `R` is not part of. -/
def speciesR : Species :=
  (Species.empty.withName "R").withFormationReaction
    (((FormationReaction.empty.withProduct "R").withReactants [("P", 1)]
      ).withEquilibriumConstant 1)

/-- A species `P` formed from `Q`. -/
def speciesP : Species :=
  (Species.empty.withName "P").withFormationReaction
    (((FormationReaction.empty.withProduct "P").withReactants [("Q", 1)]
      ).withEquilibriumConstant 1)

/-- A species `Q` formed from `P`. -/
def speciesQ : Species :=
  (Species.empty.withName "Q").withFormationReaction
    (((FormationReaction.empty.withProduct "Q").withReactants [("P", 3)]
      ).withEquilibriumConstant 1)

/-- An arena whose cycle does not pass through the species that is resolved: `R` is
formed from `P`, `P` from `Q` and `Q` from `P`. -/
def lassoSpecies : List Species := [speciesR, speciesP, speciesQ]

/-- The depth of the species of the test in the reactant graph. -/
def testRank (name : String) : Nat :=
  if name = "E" then 3 else if name = "D" then 2 else if name = "C" then 1 else 0

/-! ## A small two-phase system used to exercise the engine -/

/-- The thermo model of the example: a phase of one species and a phase of two. -/
def exampleThermoModel (T P : ℚ) : ThermoModelResult :=
  [⟨[⟨T, 1, 0⟩], [⟨P, 0, 1⟩], [⟨2, 0, 0⟩], [⟨3, 0, 0⟩], [⟨4, 0, 0⟩]⟩,
   ⟨[⟨T, 1, 0⟩, ⟨2 * T, 2, 0⟩], [⟨P, 0, 1⟩, ⟨3 * P, 0, 3⟩], [⟨4, 1, 2⟩, ⟨6, 3, 4⟩],
    [⟨1, 0, 0⟩, ⟨3, 0, 0⟩], [⟨5, 0, 0⟩, ⟨7, 0, 0⟩]⟩]

/-- The chemical-model result of the first phase of the example, which provides a
molar volume. -/
def exampleChemical0 (T P : ℚ) (n : List ℚ) : PhaseChemicalModelResult :=
  ⟨[⟨1, 0, 0, [0]⟩], [⟨2, 0, 0⟩], [⟨T, 1, 0, [P]⟩], ⟨7, 1, 2, [n.sum]⟩⟩

/-- The chemical-model result of the second phase of the example, which provides no
molar volume. -/
def exampleChemical1 (T P : ℚ) : PhaseChemicalModelResult :=
  ⟨[⟨1, 0, 0, [0, 1]⟩, ⟨2, 0, 0, [1, 0]⟩], [⟨2, 0, 0⟩, ⟨3, 0, 0⟩],
   [⟨P, 0, 1, [1, 2]⟩, ⟨T + P, 1, 1, [3, 4]⟩], ⟨0, 0, 0, [0, 0]⟩⟩

/-- The example system: phases of sizes 1 and 2. -/
def exampleSystem : ChemicalSystem :=
  { phases := [1, 2]
    molarMasses := [1, 2, 3]
    thermoModel := exampleThermoModel
    chemicalModel := fun T P n => [exampleChemical0 T P n, exampleChemical1 T P] }

/-- The example state: `update(300, 2, [5, 1, 1])` on the example system. -/
def exampleState : ChemicalProperties.Impl :=
  (ChemicalProperties.Impl.ofSystem exampleSystem).update 300 2 [5, 1, 1]

/-- A system of one phase with one species whose chemical model reports the total
amount as the ln activity constant of the species, while its thermo model is constant. -/
def constantsSystem : ChemicalSystem :=
  { phases := [1]
    molarMasses := [1]
    thermoModel := fun _ _ => [⟨[⟨0, 0, 0⟩], [⟨0, 0, 0⟩], [⟨0, 0, 0⟩], [⟨0, 0, 0⟩], [⟨0, 0, 0⟩]⟩]
    chemicalModel := fun _ _ n =>
      [⟨[⟨0, 0, 0, [0]⟩], [⟨n.sum, 0, 0⟩], [⟨0, 0, 0, [0]⟩], ⟨0, 0, 0, [0]⟩⟩] }

/-- The record of the second phase of the example state: its fields hold the temperature,
the pressure and the rows at phase `1` of the phase amounts, masses, molar volumes,
molar Gibbs energies and molar enthalpies of the state; the other fields are empty. -/
def examplePhaseRecord : PhaseChemicalProperties :=
  { T := Temperature 300
    P := Pressure 2
    n := [1, 1]
    standard_partial_molar_gibbs_energies := []
    standard_partial_molar_enthalpies := []
    standard_partial_molar_volumes := []
    standard_partial_molar_heat_capacities_cp := []
    standard_partial_molar_heat_capacities_cv := []
    molar_fractions := []
    ln_activity_coefficients := []
    ln_activity_constants := []
    ln_activities := []
    phase_molar_gibbs_energy := ⟨450, 3/2, 0, [0, -75, 75]⟩
    phase_molar_enthalpy := ⟨4, 0, 2, [0, -1, 1]⟩
    phase_molar_volume := ⟨5, 2, 3, [0, -1/2, 1/2]⟩
    phase_molar_heat_capacity_cp := ⟨0, 0, 0, []⟩
    phase_molar_heat_capacity_cv := ⟨0, 0, 0, []⟩
    phase_amount := ⟨2, 0, 0, [0, 1, 1]⟩
    phase_mass := ⟨5, 0, 0, [0, 2, 3]⟩ }

/-- The record of the second phase of the example state with the species-level arrays
of that phase: the standard partial molar Gibbs energies, enthalpies and volumes and
the ln activities that the models of the example return for it at `T = 300`, `P = 2`. -/
def examplePhaseArrays : PhaseChemicalProperties :=
  { examplePhaseRecord with
    standard_partial_molar_gibbs_energies := [⟨300, 1, 0⟩, ⟨600, 2, 0⟩]
    standard_partial_molar_enthalpies := [⟨2, 0, 1⟩, ⟨6, 0, 3⟩]
    standard_partial_molar_volumes := [⟨4, 1, 2⟩, ⟨6, 3, 4⟩]
    ln_activities := [⟨2, 0, 1, [1, 2]⟩, ⟨302, 1, 1, [3, 4]⟩] }

/-! ## The DEW activity model (`ActivityModelDEW.cpp`) -/

/-- The electrostatic constant `eta` of the DEW model, `1.66027e+05`. -/
def eta : ℚ := 166027

/-- The parameters of the DEW model for one species. -/
structure DEWParams where
  a1 : ℚ
  a2 : ℚ
  a3 : ℚ
  a4 : ℚ
  c1 : ℚ
  c2 : ℚ
deriving DecidableEq

/-- The table `dew_parameters` of the DEW parameters, keyed by species name. -/
def dew_parameters : List (String × DEWParams) :=
  [("Na+", ⟨1, 2, 3, 4, 5, 6⟩), ("Cl-", ⟨1, 2, 3, 4, 5, 6⟩)]

/-- The function `dewCorrectionTerm(T, P, params)`. The function `std::log` is the
parameter `log`. -/
def dewCorrectionTerm (log : ℚ → ℚ) (T P : ℚ) (params : DEWParams) : ℚ :=
  let TK := T
  let T_term1 := params.a1 / TK
  let T_term2 := params.a2 / (TK * TK)
  let T_term3 := params.a3 * log TK
  let T_term4 := params.a4 * TK
  let P_term1 := params.c1 * P
  let P_term2 := params.c2 * P * P
  eta * (T_term1 + T_term2 + T_term3 + T_term4 + P_term1 + P_term2)

/-- Modelled from the spec: `StateOfMatter` is declared in a header that is not among
the sources. The state of matter of a phase. -/
inductive StateOfMatter where
  | Unspecified
  | Solid
  | Liquid
  | Gas
  | Supercritical
  | Plasma
deriving DecidableEq

/-- Modelled from the spec: `ActivityProps` is declared in a header that is not among
the sources. The fields that `activityModelDEW` writes: the ln activity coefficients,
the ln activities and the state of matter of the phase. -/
structure ActivityProps where
  ln_g : List ℚ
  ln_a : List ℚ
  som : StateOfMatter
deriving DecidableEq

/-- Modelled from the spec: `AqueousMixture` is declared in a header that is not among
the sources, and its physics is one of the pluggable models that the spec leaves open.
It is kept abstract: the names of its species, and the HKF ln activity coefficients
that `lnActivityCoefficients()` returns after `update(T, P, x)`, as an arbitrary
function of `(T, P, x)`. -/
structure AqueousMixture where
  species : List String
  lnActivityCoefficients : ℚ → ℚ → List ℚ → List ℚ

/-- The loop `for(auto i = 0; i < x.size(); ++i)` of `activityModelDEW`, with `k`
iterations left at index `i`: the entry `i` of `ln_gamma_DEW` is overwritten with the
correction term when the name of species `i` is a key of `dew_parameters`. -/
def dewCorrections (log : ℚ → ℚ) (mixture : AqueousMixture) (T P : ℚ) :
    Nat → Nat → List ℚ → Option (List ℚ)
  | 0, _, ln_gamma_DEW => some ln_gamma_DEW
  | k + 1, i, ln_gamma_DEW =>
    (mixture.species[i]?).bind fun name =>
      match dew_parameters.lookup name with
      | some params =>
        dewCorrections log mixture T P k (i + 1)
          (ln_gamma_DEW.set i (dewCorrectionTerm log T P params))
      | none => dewCorrections log mixture T P k (i + 1) ln_gamma_DEW

/-- The function that `activityModelDEW(species)` returns, applied to `props` and
`(T, P, x)`: `ln_g = ln_gamma_HKF + ln_gamma_DEW`, `ln_a = ln_g + log(x)` and
`som = Liquid`. -/
def activityModelDEW (log : ℚ → ℚ) (mixture : AqueousMixture) (props : ActivityProps)
    (T P : ℚ) (x : List ℚ) : Option ActivityProps :=
  let ln_gamma_HKF := mixture.lnActivityCoefficients T P x
  (dewCorrections log mixture T P x.length 0 (List.replicate x.length 0)).bind
    fun ln_gamma_DEW =>
      (zipSame (· + ·) ln_gamma_HKF ln_gamma_DEW).bind fun ln_g =>
        (zipSame (· + ·) ln_g (x.map log)).map fun ln_a =>
          { props with ln_g := ln_g, ln_a := ln_a, som := StateOfMatter.Liquid }

/-- The species of `ActivityModelDEW.test.cxx`, in an aqueous mixture whose HKF ln
activity coefficients are the stand-in `T + P * x_i`. -/
def testMixture : AqueousMixture :=
  { species := ["H2O", "H+", "OH-", "Na+", "Cl-", "Ca++", "HCO3-", "CO3--", "CO2", "NaCl",
      "HCl", "NaOH"]
    lnActivityCoefficients := fun T P x => x.map fun xi => T + P * xi }

/-- The amounts of `moleFractions` in `ActivityModelDEW.test.cxx`: `0.1` for every
species but `H2O`, `H+`, `OH-`, `Na+` and `Cl-`. -/
def testAmounts : List ℚ :=
  [55.508, 1e-7, 1e-7, 0.3, 0.3, 0.1, 0.1, 0.1, 0.1, 0.1, 0.1, 0.1]

/-- The function `moleFractions` of `ActivityModelDEW.test.cxx`: `n / n.sum()`. -/
def moleFractions : List ℚ := testAmounts.map fun ni => ni / testAmounts.sum

/-! # Properties of the aggregation engine -/


theorem zipSame_eq_some {α β γ : Type} {f : α → β → γ} {l : List α} {r : List β} {w : List γ} :
    zipSame f l r = some w ↔ l.length = r.length ∧ w = List.zipWith f l r := by
  unfold zipSame
  split <;> simp_all [eq_comm]

theorem ChemicalVector.sum_fold_val (v : ChemicalVector) :
    ∀ acc : ChemicalScalar,
      (v.foldl ChemicalScalar.add acc).val = acc.val + (v.map (·.val)).sum := by
  induction v with
  | nil => intro acc; simp
  | cons a t ih =>
    intro acc
    simp only [List.foldl_cons, List.map_cons, List.sum_cons, ih, ChemicalScalar.add]
    ring

theorem ChemicalVector.sum_val (ncols : Nat) (v : ChemicalVector) :
    (ChemicalVector.sum ncols v).val = (v.map (·.val)).sum := by
  unfold ChemicalVector.sum
  rw [ChemicalVector.sum_fold_val]
  simp [ChemicalScalar.zero]

theorem ChemicalVector.mulThermo_val {l : ChemicalVector} {r : ThermoVector} {w : ChemicalVector}
    (h : ChemicalVector.mulThermo l r = some w) :
    l.length = r.length ∧ w.map (·.val) = List.zipWith (fun x a => x.val * a.val) l r := by
  unfold ChemicalVector.mulThermo at h
  obtain ⟨hl, rfl⟩ := zipSame_eq_some.1 h
  refine ⟨hl, ?_⟩
  rw [List.map_zipWith]
  rfl

theorem setRows_length {α : Type} {res v d : List α} {o sz : Nat}
    (h : setRows res o sz v = some d) : d.length = res.length := by
  unfold setRows at h
  split at h
  · rename_i hc
    simp only [Option.some.injEq] at h
    subst h
    simp only [List.length_append, List.length_take, List.length_drop]
    omega
  · simp at h

theorem ChemicalVector.setBlock_length {res v d : ChemicalVector} {ir ic nr nc : Nat}
    (h : ChemicalVector.setBlock res ir ic nr nc v = some d) : d.length = res.length := by
  unfold ChemicalVector.setBlock at h
  split at h
  · rename_i hc
    simp only [Option.some.injEq] at h
    subst h
    simp only [List.length_append, List.length_take, List.length_drop, List.length_zipWith]
    omega
  · simp at h

/-- The entries of a componentwise operation of two vectors of the same length. -/
theorem zipSame_entries {α β γ : Type} (f : α → β → γ) (l : List α) (r : List β)
    (h : l.length = r.length) :
    ∃ w, zipSame f l r = some w ∧ w.length = l.length ∧
      ∀ (j : Nat) a b, l[j]? = some a → r[j]? = some b → w[j]? = some (f a b) := by
  refine ⟨List.zipWith f l r, zipSame_eq_some.2 ⟨h, rfl⟩, by simp [h], ?_⟩
  intro j a b ha hb
  rw [List.getElem?_zipWith, ha, hb]

theorem zipSame_entries_of_eq {α β γ : Type} {f : α → β → γ} {l : List α} {r : List β}
    {w : List γ} (h : zipSame f l r = some w) :
    ∀ (j : Nat) a b, l[j]? = some a → r[j]? = some b → w[j]? = some (f a b) := by
  obtain ⟨-, rfl⟩ := zipSame_eq_some.1 h
  intro j a b ha hb
  rw [List.getElem?_zipWith, ha, hb]

/-- The entries of a list whose segment `[o, o + mid.length)` has been replaced. -/
theorem splice_getElem? {α : Type} (res mid : List α) (o : Nat)
    (h : o + mid.length ≤ res.length) (p : Nat) :
    (res.take o ++ mid ++ res.drop (o + mid.length))[p]? =
      if p < o then res[p]? else if p < o + mid.length then mid[p - o]? else res[p]? := by
  have hto : (res.take o).length = o := by simp; omega
  split
  · rename_i hp
    rw [List.append_assoc, List.getElem?_append_left (by omega), List.getElem?_take_of_lt hp]
  · rename_i hp
    split
    · rename_i hp2
      rw [List.getElem?_append_left (by simp; omega),
        List.getElem?_append_right (by omega), hto]
    · rename_i hp2
      rw [List.getElem?_append_right (by simp; omega)]
      simp only [List.length_append, hto, List.getElem?_drop]
      congr 1
      omega

/-- What a successful segment assignment is made of. -/
theorem setRows_eq_some {α : Type} {res v d : List α} {o sz : Nat}
    (h : setRows res o sz v = some d) :
    o + sz ≤ res.length ∧ v.length = sz ∧ d = res.take o ++ v ++ res.drop (o + sz) := by
  unfold setRows at h
  split at h
  · rename_i hc
    simp only [Option.some.injEq] at h
    exact ⟨hc.1, hc.2, h.symm⟩
  · simp at h

/-- What a successful block assignment is made of. -/
theorem ChemicalVector.setBlock_eq_some {res v d : ChemicalVector} {ir ic nr nc : Nat}
    (h : ChemicalVector.setBlock res ir ic nr nc v = some d) :
    ir + nr ≤ res.length ∧ v.length = nr ∧
      (∀ old ∈ (res.drop ir).take nr, ic + nc ≤ old.ddn.length) ∧
      (∀ x ∈ v, x.ddn.length = nc) ∧
      d = res.take ir ++
        List.zipWith (fun old x => (⟨x.val, x.ddT, x.ddP,
          old.ddn.take ic ++ x.ddn ++ old.ddn.drop (ic + nc)⟩ : ChemicalScalar))
        ((res.drop ir).take nr) v ++ res.drop (ir + nr) := by
  unfold ChemicalVector.setBlock at h
  split at h
  · rename_i hc
    simp only [Option.some.injEq] at h
    exact ⟨hc.1, hc.2.1, hc.2.2.1, hc.2.2.2, h.symm⟩
  · simp at h

/-- The entries of a segment. -/
theorem rows_eq_some {α : Type} {v xs : List α} {o sz : Nat} (h : rows v o sz = some xs) :
    o + sz ≤ v.length ∧ xs.length = sz ∧ ∀ k : Nat, k < sz → xs[k]? = v[o + k]? := by
  unfold rows at h
  split at h
  · rename_i hc
    simp only [Option.some.injEq] at h
    subst h
    refine ⟨hc, by simp; omega, ?_⟩
    intro k hk
    rw [List.getElem?_take_of_lt hk, List.getElem?_drop]
  · simp at h

/-- The molar fractions of a segment are as many as its amounts. -/
theorem molarFractions_length (np : List ℚ) :
    (Reaktoro.molarFractions np).length = np.length := by
  unfold Reaktoro.molarFractions
  simp only
  split <;> simp [ChemicalVector.zeros]

/-- The value of a molar fraction of a segment whose total amount is not zero. -/
theorem molarFractions_val_of_ne_zero (np : List ℚ) (h : np.sum ≠ 0) (k : Nat) (nk : ℚ)
    (hk : np[k]? = some nk) :
    ∃ x, (Reaktoro.molarFractions np)[k]? = some x ∧ x.val = nk / np.sum := by
  unfold Reaktoro.molarFractions
  simp only [if_neg h, List.getElem?_map, List.getElem?_enum, hk, Option.map_some']
  exact ⟨_, rfl, rfl⟩

/-- The values of the molar fractions of a segment whose total amount is not zero. -/
theorem molarFractions_map_val_of_ne_zero (np : List ℚ) (h : np.sum ≠ 0) :
    (Reaktoro.molarFractions np).map (·.val) = np.map (fun a => a / np.sum) := by
  apply List.ext_getElem?
  intro k
  cases hk : np[k]? with
  | none =>
    have hlen : np.length ≤ k := List.getElem?_eq_none_iff.1 hk
    simp only [List.getElem?_map, hk, Option.map_none']
    rw [List.getElem?_eq_none (by rw [molarFractions_length]; exact hlen)]
    rfl
  | some nk =>
    obtain ⟨x, hx, hv⟩ := molarFractions_val_of_ne_zero np h k nk hk
    simp only [List.getElem?_map, hk, hx, Option.map_some', hv]

/-- The molar fractions of a segment of zero total amount are zero. -/
theorem molarFractions_of_sum_eq_zero (np : List ℚ) (h : np.sum = 0) :
    Reaktoro.molarFractions np = ChemicalVector.zeros np.length np.length := by
  unfold Reaktoro.molarFractions
  simp only [if_pos h]

/-- Amounts divided by their nonzero sum add up to one. -/
theorem sum_map_div_self (np : List ℚ) (h : np.sum ≠ 0) :
    (np.map (fun a => a / np.sum)).sum = 1 := by
  have : (np.map (fun a => a / np.sum)).sum = np.sum / np.sum := by
    simp only [div_eq_mul_inv]
    rw [List.sum_map_mul_right]
    simp
  rw [this, div_self h]

/-- A list of rationals is the list of its entries read with a default. -/
theorem map_getD_range (l : List ℚ) : (List.range l.length).map (fun i => l.getD i 0) = l := by
  apply List.ext_getElem?
  intro k
  by_cases hk : k < l.length
  · simp [List.getElem?_map, List.getElem?_range hk, hk, List.getD_eq_getElem?_getD]
  · rw [List.getElem?_eq_none (by simp; omega), List.getElem?_eq_none (by omega)]

/-- The sum of the indicator of `c` over `0 .. m - 1`. -/
theorem sum_indicator_range (c : Nat) :
    ∀ m : Nat, ((List.range m).map (fun k => if k = c then (1 : ℚ) else 0)).sum =
      if c < m then 1 else 0 := by
  intro m
  induction m with
  | zero => simp
  | succ m ih =>
    rw [List.range_succ, List.map_append, List.sum_append, ih]
    by_cases h1 : c < m
    · have : m ≠ c := by omega
      simp [h1, this, Nat.lt_succ_of_lt h1]
    · by_cases h2 : m = c
      · subst h2
        simp
      · have : ¬ c < m + 1 := by omega
        simp [h1, h2, this]

/-- The sum of rows of equal width, starting from any accumulator of that width. -/
theorem ChemicalVector.foldl_add_eq (m : Nat) (v : ChemicalVector)
    (hv : ∀ x ∈ v, x.ddn.length = m) :
    ∀ acc : ChemicalScalar, acc.ddn.length = m →
      v.foldl ChemicalScalar.add acc =
        ⟨acc.val + (v.map (·.val)).sum, acc.ddT + (v.map (·.ddT)).sum,
         acc.ddP + (v.map (·.ddP)).sum,
         (List.range m).map fun c => acc.ddn.getD c 0 + (v.map (fun x => x.ddn.getD c 0)).sum⟩ := by
  induction v with
  | nil =>
    intro acc hacc
    simp only [List.foldl_nil, List.map_nil, List.sum_nil, add_zero]
    have : (List.range m).map (fun c => acc.ddn.getD c 0) = acc.ddn := by
      rw [← hacc]
      exact map_getD_range acc.ddn
    rw [this]
  | cons a t ih =>
    intro acc hacc
    have ha : a.ddn.length = m := hv a (List.mem_cons_self _ _)
    have hacc' : (ChemicalScalar.add acc a).ddn.length = m := by
      simp [ChemicalScalar.add, hacc, ha]
    rw [List.foldl_cons, ih (fun x hx => hv x (List.mem_cons_of_mem _ hx)) _ hacc']
    simp only [ChemicalScalar.add, List.map_cons, List.sum_cons, ChemicalScalar.mk.injEq]
    refine ⟨by ring, by ring, by ring, ?_⟩
    apply List.map_congr_left
    intro c hc
    have hc' : c < m := List.mem_range.1 hc
    have h1 : c < acc.ddn.length := by omega
    have h2 : c < a.ddn.length := by omega
    simp only [List.getD_eq_getElem?_getD, List.getElem?_zipWith,
      List.getElem?_eq_getElem h1, List.getElem?_eq_getElem h2, Option.getD_some]
    ring

/-- The components of the sum of rows of equal width. -/
theorem ChemicalVector.sum_eq (m : Nat) (v : ChemicalVector)
    (hv : ∀ x ∈ v, x.ddn.length = m) :
    ChemicalVector.sum m v =
      ⟨(v.map (·.val)).sum, (v.map (·.ddT)).sum, (v.map (·.ddP)).sum,
       (List.range m).map fun c => (v.map (fun x => x.ddn.getD c 0)).sum⟩ := by
  unfold ChemicalVector.sum
  rw [ChemicalVector.foldl_add_eq m v hv _ (by simp [ChemicalScalar.zero])]
  simp only [ChemicalScalar.zero, zero_add, ChemicalScalar.mk.injEq, true_and]
  apply List.map_congr_left
  intro c hc
  have hc' : c < m := List.mem_range.1 hc
  simp [List.getD_eq_getElem?_getD, hc']

/-- The sum of the rows of a composition: the total amount, with partial one with
respect to every amount. -/
theorem ChemicalVector.sum_composition (l : List ℚ) :
    ChemicalVector.sum l.length (ChemicalVector.composition l) =
      ⟨l.sum, 0, 0, List.replicate l.length 1⟩ := by
  rw [ChemicalVector.sum_eq]
  · simp only [ChemicalVector.composition, List.map_map, ChemicalScalar.mk.injEq]
    refine ⟨?_, by simp [Function.comp_def], by simp [Function.comp_def], ?_⟩
    · have : ((fun x : ChemicalScalar => x.val) ∘ fun i =>
          (⟨l.getD i 0, 0, 0, (List.range l.length).map fun j => if i = j then 1 else 0⟩ :
            ChemicalScalar)) = fun i => l.getD i 0 := rfl
      rw [this, map_getD_range]
    · apply List.ext_getElem?
      intro c
      by_cases hc : c < l.length
      · rw [List.getElem?_map, List.getElem?_range hc, List.getElem?_replicate, if_pos hc,
          Option.map_some']
        congr 1
        have : ((fun x : ChemicalScalar => x.ddn.getD c 0) ∘ fun i =>
            (⟨l.getD i 0, 0, 0, (List.range l.length).map fun j => if i = j then 1 else 0⟩ :
              ChemicalScalar)) = fun k => if k = c then (1 : ℚ) else 0 := by
          funext k
          simp [List.getD_eq_getElem?_getD, List.getElem?_range hc]
        rw [this, sum_indicator_range, if_pos hc]
      · rw [List.getElem?_eq_none (by simp; omega), List.getElem?_eq_none (by simp; omega)]
  · intro x hx
    simp only [ChemicalVector.composition, List.mem_map] at hx
    obtain ⟨i, -, rfl⟩ := hx
    simp

/-- The diagonal block of a composition is the composition of the segment. -/
theorem ChemicalVector.block_composition {n : List ℚ} {o sz : Nat} {np : ChemicalVector}
    (h : ChemicalVector.block (ChemicalVector.composition n) o o sz sz = some np) :
    o + sz ≤ n.length ∧ rows n o sz = some ((n.drop o).take sz) ∧
      ((n.drop o).take sz).length = sz ∧
      np = ChemicalVector.composition ((n.drop o).take sz) := by
  unfold ChemicalVector.block at h
  split at h
  · rename_i hc
    have hb : o + sz ≤ n.length := by simpa [ChemicalVector.composition] using hc.1
    have hl : ((n.drop o).take sz).length = sz := by simp; omega
    simp only [Option.some.injEq] at h
    refine ⟨hb, by simp [rows, hb], hl, ?_⟩
    rw [← h]
    apply List.ext_getElem?
    intro k
    by_cases hk : k < sz
    · have hok : o + k < n.length := by omega
      simp only [ChemicalVector.composition, List.getElem?_map, List.getElem?_take_of_lt hk,
        List.getElem?_drop, List.getElem?_range hok, hl, List.getElem?_range hk,
        Option.map_some', Option.some.injEq, ChemicalScalar.mk.injEq, true_and]
      refine ⟨?_, ?_⟩
      · simp [List.getD_eq_getElem?_getD, List.getElem?_take_of_lt hk, List.getElem?_drop]
      · apply List.ext_getElem?
        intro c
        by_cases hcc : c < sz
        · have hoc : o + c < n.length := by omega
          simp [List.getElem?_take_of_lt hcc, List.getElem?_drop, List.getElem?_range hoc,
            List.getElem?_range hcc]
        · rw [List.getElem?_eq_none (by simp; omega), List.getElem?_eq_none (by simp; omega)]
    · rw [List.getElem?_eq_none (by simp [ChemicalVector.composition]; omega),
        List.getElem?_eq_none (by simp [ChemicalVector.composition]; omega)]
  · simp at h

/-- The length of a componentwise operation. -/
theorem zipSame_length {α β γ : Type} {f : α → β → γ} {l : List α} {r : List β} {w : List γ}
    (h : zipSame f l r = some w) : w.length = l.length ∧ w.length = r.length := by
  obtain ⟨hl, rfl⟩ := zipSame_eq_some.1 h
  simp [hl]

namespace ChemicalProperties

namespace Impl

theorem phaseOffset_succ (s : Impl) (i size : Nat)
    (h : s.system.numSpeciesInPhase i = some size) :
    phaseOffset s (i + 1) = phaseOffset s i + size := by
  unfold phaseOffset
  unfold ChemicalSystem.numSpeciesInPhase at h
  obtain ⟨hi, rfl⟩ := List.getElem?_eq_some.1 h
  rw [List.sum_take_succ _ _ hi]

theorem setRow_length {res res' : ChemicalVector} {i o sz : Nat} {v : ChemicalScalar}
    (h : ChemicalVector.setRow res i o sz v = some res') : res'.length = res.length := by
  unfold ChemicalVector.setRow at h
  simp only [Option.bind_eq_some, Option.map_eq_some'] at h
  obtain ⟨old, -, d, -, rfl⟩ := h
  simp

theorem setRow_getElem?_ne {res res' : ChemicalVector} {i o sz : Nat} {v : ChemicalScalar}
    (h : ChemicalVector.setRow res i o sz v = some res') {j : Nat} (hj : j ≠ i) :
    res'[j]? = res[j]? := by
  unfold ChemicalVector.setRow at h
  simp only [Option.bind_eq_some, Option.map_eq_some'] at h
  obtain ⟨old, -, d, -, rfl⟩ := h
  rw [List.getElem?_set_ne (Ne.symm hj)]

theorem setRow_getElem?_self {res res' : ChemicalVector} {i o sz : Nat} {v : ChemicalScalar}
    (h : ChemicalVector.setRow res i o sz v = some res') :
    ∃ old d, res[i]? = some old ∧ setRows old.ddn o sz v.ddn = some d ∧
      res'[i]? = some ⟨v.val, v.ddT, v.ddP, d⟩ := by
  unfold ChemicalVector.setRow at h
  simp only [Option.bind_eq_some, Option.map_eq_some'] at h
  obtain ⟨old, hold, d, hd, rfl⟩ := h
  refine ⟨old, d, hold, hd, ?_⟩
  have hi : i < res.length := (List.getElem?_eq_some.1 hold).1
  simp [List.getElem?_set_self, hi]

/-- What the phase-level loop leaves in the rows. -/
theorem forPhases_setRow (s : Impl) (value : Nat → Nat → Nat → Option ChemicalScalar) :
    ∀ (k i0 : Nat) (res0 res : ChemicalVector),
      forPhases s (fun i offset size res =>
        (value i offset size).bind fun v => ChemicalVector.setRow res i offset size v)
        k i0 (phaseOffset s i0) res0 = some res →
      res.length = res0.length ∧
      (∀ j, j < i0 → res[j]? = res0[j]?) ∧
      (∀ j, i0 ≤ j → j < i0 + k → ∃ size v old d,
        s.system.numSpeciesInPhase j = some size ∧
        value j (phaseOffset s j) size = some v ∧
        res0[j]? = some old ∧
        setRows old.ddn (phaseOffset s j) size v.ddn = some d ∧
        res[j]? = some ⟨v.val, v.ddT, v.ddP, d⟩) := by
  intro k
  induction k with
  | zero =>
    intro i0 res0 res h
    simp only [forPhases, Option.some.injEq] at h
    subst h
    exact ⟨rfl, fun _ _ => rfl, fun j h1 h2 => by omega⟩
  | succ k ih =>
    intro i0 res0 res h
    simp only [forPhases, Option.bind_eq_some] at h
    obtain ⟨size, hsize, res1, ⟨v, hv, hset⟩, hrest⟩ := h
    rw [← phaseOffset_succ s i0 size hsize] at hrest
    obtain ⟨hlen, hlow, hhigh⟩ := ih (i0 + 1) res1 res hrest
    refine ⟨by rw [hlen, setRow_length hset], ?_, ?_⟩
    · intro j hj
      rw [hlow j (by omega), setRow_getElem?_ne hset (by omega)]
    · intro j h1 h2
      rcases Nat.eq_or_lt_of_le h1 with rfl | hlt
      · obtain ⟨old, d, hold, hd, hnew⟩ := setRow_getElem?_self hset
        exact ⟨size, v, old, d, hsize, hv, hold, hd, by rw [hlow _ (by omega), hnew]⟩
      · obtain ⟨size', v', old', d', a1, a2, a3, a4, a5⟩ := hhigh j (by omega) (by omega)
        refine ⟨size', v', old', d', a1, a2, ?_, a4, a5⟩
        rw [← a3, setRow_getElem?_ne hset (by omega)]

theorem phaseOffset_zero (s : Impl) : phaseOffset s 0 = 0 := by
  simp [phaseOffset]

theorem setRows_replicate {α : Type} (a : α) (N o sz : Nat) (v d : List α)
    (h : setRows (List.replicate N a) o sz v = some d) :
    d = List.replicate o a ++ v ++ List.replicate (N - (o + sz)) a ∧ v.length = sz ∧ o + sz ≤ N := by
  unfold setRows at h
  split at h
  · rename_i hc
    simp only [List.length_replicate] at hc
    simp only [Option.some.injEq] at h
    subst h
    refine ⟨?_, hc.2, hc.1⟩
    simp [List.take_replicate, List.drop_replicate]
    omega
  · simp at h

/-- The rows of the result of a phase-level accessor. -/
theorem collectPhase_row (s : Impl) (value : Nat → Nat → Nat → Option ChemicalScalar)
    (res : ChemicalVector) (h : collectPhase s value = some res) :
    res.length = s.num_phases ∧
    ∀ i, i < s.num_phases → ∃ size v,
      s.system.numSpeciesInPhase i = some size ∧
      value i (phaseOffset s i) size = some v ∧
      v.ddn.length = size ∧
      phaseOffset s i + size ≤ s.num_species ∧
      res[i]? = some ⟨v.val, v.ddT, v.ddP,
        List.replicate (phaseOffset s i) 0 ++ v.ddn ++
          List.replicate (s.num_species - (phaseOffset s i + size)) 0⟩ := by
  unfold collectPhase at h
  have h0 := forPhases_setRow s value s.num_phases 0 _ res (by rw [phaseOffset_zero]; exact h)
  obtain ⟨hlen, -, hrows⟩ := h0
  refine ⟨by simpa [ChemicalVector.zeros] using hlen, ?_⟩
  intro i hi
  obtain ⟨size, v, old, d, a1, a2, a3, a4, a5⟩ := hrows i (Nat.zero_le _) (by omega)
  have hold : old = ChemicalScalar.zero s.num_species := by
    exact List.eq_of_mem_replicate (List.getElem?_mem a3)
  subst hold
  obtain ⟨hd, hv, hle⟩ := setRows_replicate _ _ _ _ _ _ a4
  exact ⟨size, v, a1, a2, hv, hle, by rw [a5, hd]⟩

theorem fractionWeightedSum_eq_some {s : Impl} {field : PhaseThermoModelResult → ThermoVector}
    {i offset size : Nat} {v : ChemicalScalar}
    (h : fractionWeightedSum s field i offset size = some v) :
    ∃ np t w, rows s.n offset size = some np ∧ s.tres[i]? = some t ∧
      ChemicalVector.mulThermo (Reaktoro.molarFractions np) (field t) = some w ∧
      v = ChemicalVector.sum size w ∧
      v.val = (List.zipWith (fun x a => x.val * a.val) (Reaktoro.molarFractions np) (field t)).sum := by
  unfold fractionWeightedSum at h
  simp only [Option.bind_eq_some, Option.map_eq_some'] at h
  obtain ⟨np, hnp, t, ht, w, hw, rfl⟩ := h
  refine ⟨np, t, w, hnp, ht, hw, rfl, ?_⟩
  rw [ChemicalVector.sum_val, (ChemicalVector.mulThermo_val hw).2]


/-- A loop whose body keeps the length of the result keeps it. -/
theorem forPhases_length {α : Type} (s : Impl) (body : Nat → Nat → Nat → List α → Option (List α))
    (hbody : ∀ i o sz r r', body i o sz r = some r' → r'.length = r.length) :
    ∀ (k i0 off0 : Nat) (res0 res : List α),
      forPhases s body k i0 off0 res0 = some res → res.length = res0.length := by
  intro k
  induction k with
  | zero =>
    intro i0 off0 res0 res h
    simp only [forPhases, Option.some.injEq] at h
    rw [h]
  | succ k ih =>
    intro i0 off0 res0 res h
    simp only [forPhases, Option.bind_eq_some] at h
    obtain ⟨size, -, res1, h1, hrest⟩ := h
    rw [ih _ _ _ _ hrest, hbody _ _ _ _ _ h1]

theorem collectThermo_length {s : Impl} {field : Nat → Option ThermoVector} {res : ThermoVector}
    (h : collectThermo s field = some res) : res.length = s.num_species := by
  unfold collectThermo at h
  rw [forPhases_length s _ ?_ _ _ _ _ _ h]
  · simp [ThermoVector.zeros]
  · intro i o sz r r' hb
    simp only [Option.bind_eq_some] at hb
    obtain ⟨v, -, hv⟩ := hb
    exact setRows_length hv

theorem collectChemical_length {s : Impl} {field : Nat → Nat → Nat → Option ChemicalVector}
    {res : ChemicalVector} (h : collectChemical s field = some res) :
    res.length = s.num_species := by
  unfold collectChemical at h
  rw [forPhases_length s _ ?_ _ _ _ _ _ h]
  · simp [ChemicalVector.zeros]
  · intro i o sz r r' hb
    simp only [Option.bind_eq_some] at hb
    obtain ⟨v, -, hv⟩ := hb
    exact ChemicalVector.setBlock_length hv

/-- The running offset grows with the phase index. -/
theorem phaseOffset_mono (s : Impl) {i j : Nat} (h : i ≤ j) :
    phaseOffset s i ≤ phaseOffset s j := by
  unfold phaseOffset
  have hsub : List.Sublist (s.system.phases.take i) (s.system.phases.take j) := by
    have : s.system.phases.take i = (s.system.phases.take j).take i := by
      rw [List.take_take, Nat.min_eq_left h]
    rw [this]
    exact List.take_sublist _ _
  exact hsub.sum_le_sum (fun _ _ => Nat.zero_le _)

/-- What a species-level loop leaves in the segments of the phases, for a block
assignment `write` that keeps the length, succeeds only on arguments with `F`, leaves
the entries outside the segment alone and puts entries related by `Q` inside it. -/
theorem forPhases_segments {α β : Type} (s : Impl) (field : Nat → Nat → Nat → Option β)
    (write : List α → Nat → Nat → β → Option (List α))
    (F : Nat → Nat → β → Prop) (Q : Nat → Nat → β → Nat → α → α → Prop)
    (hlen : ∀ res o sz v res', write res o sz v = some res' →
      res'.length = res.length ∧ o + sz ≤ res.length ∧ F o sz v)
    (hout : ∀ res o sz v res', write res o sz v = some res' →
      ∀ p : Nat, (p < o ∨ o + sz ≤ p) → res'[p]? = res[p]?)
    (hin : ∀ res o sz v res', write res o sz v = some res' →
      ∀ q : Nat, q < sz → ∃ old new, res[o + q]? = some old ∧ res'[o + q]? = some new ∧
        Q o sz v q old new) :
    ∀ (k i0 : Nat) (res0 res : List α),
      forPhases s (fun i o sz r => (field i o sz).bind fun v => write r o sz v)
        k i0 (phaseOffset s i0) res0 = some res →
      res.length = res0.length ∧
      (∀ p : Nat, p < phaseOffset s i0 → res[p]? = res0[p]?) ∧
      (∀ j, i0 ≤ j → j < i0 + k → ∃ size v,
        s.system.numSpeciesInPhase j = some size ∧
        field j (phaseOffset s j) size = some v ∧
        phaseOffset s j + size ≤ res0.length ∧ F (phaseOffset s j) size v ∧
        ∀ q : Nat, q < size → ∃ old new, res0[phaseOffset s j + q]? = some old ∧
          res[phaseOffset s j + q]? = some new ∧ Q (phaseOffset s j) size v q old new) := by
  intro k
  induction k with
  | zero =>
    intro i0 res0 res h
    simp only [forPhases, Option.some.injEq] at h
    subst h
    exact ⟨rfl, fun _ _ => rfl, fun j h1 h2 => by omega⟩
  | succ k ih =>
    intro i0 res0 res h
    simp only [forPhases, Option.bind_eq_some] at h
    obtain ⟨size, hsize, res1, ⟨v, hv, hw⟩, hrest⟩ := h
    have hoff := phaseOffset_succ s i0 size hsize
    rw [← hoff] at hrest
    obtain ⟨hlen1, hlow, hhigh⟩ := ih (i0 + 1) res1 res hrest
    obtain ⟨hl, hb, hF⟩ := hlen _ _ _ _ _ hw
    refine ⟨by rw [hlen1, hl], ?_, ?_⟩
    · intro p hp
      rw [hlow p (by omega), hout _ _ _ _ _ hw p (Or.inl hp)]
    · intro j h1 h2
      rcases Nat.eq_or_lt_of_le h1 with rfl | hlt
      · refine ⟨size, v, hsize, hv, hb, hF, ?_⟩
        intro q hq
        obtain ⟨old, new, a1, a2, a3⟩ := hin _ _ _ _ _ hw q hq
        exact ⟨old, new, a1, by rw [hlow _ (by omega), a2], a3⟩
      · obtain ⟨size', v', b1, b2, b3, bF, b4⟩ := hhigh j (by omega) (by omega)
        have hm : phaseOffset s (i0 + 1) ≤ phaseOffset s j := phaseOffset_mono s (by omega)
        refine ⟨size', v', b1, b2, by rw [← hl]; exact b3, bF, ?_⟩
        intro q hq
        obtain ⟨old, new, c1, c2, c3⟩ := b4 q hq
        refine ⟨old, new, ?_, c2, c3⟩
        rw [← c1, hout _ _ _ _ _ hw _ (Or.inr (by omega))]

/-- The entries of the result of a species-level accessor of `ThermoVector` type. -/
theorem collectThermo_entries {s : Impl} {field : Nat → Option ThermoVector}
    {res : ThermoVector} (h : collectThermo s field = some res) (i : Nat)
    (hi : i < s.num_phases) :
    ∃ size v, s.system.numSpeciesInPhase i = some size ∧ field i = some v ∧
      v.length = size ∧ phaseOffset s i + size ≤ s.num_species ∧
      ∀ q : Nat, q < size → res[phaseOffset s i + q]? = v[q]? := by
  unfold collectThermo at h
  have h0 := forPhases_segments s (fun i _ _ => field i) setRows
    (fun _ sz v => v.length = sz) (fun _ _ v q _ new => v[q]? = some new) ?_ ?_ ?_
    s.num_phases 0 _ res (by rw [phaseOffset_zero]; exact h)
  · obtain ⟨-, -, hseg⟩ := h0
    obtain ⟨size, v, a1, a2, a3, aF, a4⟩ := hseg i (Nat.zero_le _) (by omega)
    refine ⟨size, v, a1, a2, aF, by simpa [ThermoVector.zeros] using a3, ?_⟩
    intro q hq
    obtain ⟨old, new, _, b2, b4⟩ := a4 q hq
    rw [b2, b4]
  · intro r o sz v r' hw
    exact ⟨setRows_length hw, (setRows_eq_some hw).1, (setRows_eq_some hw).2.1⟩
  · intro r o sz v r' hw p hp
    obtain ⟨h1, h2, rfl⟩ := setRows_eq_some hw
    subst h2
    rw [splice_getElem? _ _ _ h1]
    rcases hp with hp | hp
    · rw [if_pos hp]
    · rw [if_neg (by omega), if_neg (by omega)]
  · intro r o sz v r' hw q hq
    obtain ⟨h1, h2, rfl⟩ := setRows_eq_some hw
    subst h2
    have hold : o + q < r.length := by omega
    refine ⟨r[o + q], v[q], by simp [hold], ?_, by simp [hq]⟩
    rw [splice_getElem? _ _ _ h1, if_neg (by omega), if_pos (by omega)]
    simp [hq]

/-- The entries of the result of a species-level accessor of `ChemicalVector` type:
the rows of the phase, with their `ddn` rows on the columns of the phase and zero on
the other columns. -/
theorem collectChemical_entries {s : Impl} {field : Nat → Nat → Nat → Option ChemicalVector}
    {res : ChemicalVector} (h : collectChemical s field = some res) (i : Nat)
    (hi : i < s.num_phases) :
    ∃ size v, s.system.numSpeciesInPhase i = some size ∧
      field i (phaseOffset s i) size = some v ∧
      v.length = size ∧ phaseOffset s i + size ≤ s.num_species ∧
      ∀ q : Nat, q < size → ∃ x, v[q]? = some x ∧ x.ddn.length = size ∧
        res[phaseOffset s i + q]? = some ⟨x.val, x.ddT, x.ddP,
          List.replicate (phaseOffset s i) 0 ++ x.ddn ++
            List.replicate (s.num_species - (phaseOffset s i + size)) 0⟩ := by
  unfold collectChemical at h
  have h0 := forPhases_segments s field
    (fun r o sz v => ChemicalVector.setBlock r o o sz sz v)
    (fun _ sz v => v.length = sz)
    (fun o sz v q old new => ∃ x, v[q]? = some x ∧ x.ddn.length = sz ∧
      new = ⟨x.val, x.ddT, x.ddP, old.ddn.take o ++ x.ddn ++ old.ddn.drop (o + sz)⟩)
    ?_ ?_ ?_ s.num_phases 0 _ res (by rw [phaseOffset_zero]; exact h)
  · obtain ⟨-, -, hseg⟩ := h0
    obtain ⟨size, v, a1, a2, a3, aF, a4⟩ := hseg i (Nat.zero_le _) (by omega)
    have a3' : phaseOffset s i + size ≤ s.num_species := by
      simpa [ChemicalVector.zeros] using a3
    refine ⟨size, v, a1, a2, aF, a3', ?_⟩
    intro q hq
    obtain ⟨old, new, b1, b2, x, b3, b4, b5⟩ := a4 q hq
    have hold : old = ChemicalScalar.zero s.num_species :=
      List.eq_of_mem_replicate (List.getElem?_mem b1)
    refine ⟨x, b3, b4, ?_⟩
    rw [b2, b5, hold]
    simp only [ChemicalScalar.zero, List.take_replicate, List.drop_replicate,
      Nat.min_eq_left (Nat.le_trans (Nat.le_add_right _ _) a3')]
  · intro r o sz v r' hw
    exact ⟨ChemicalVector.setBlock_length hw, (ChemicalVector.setBlock_eq_some hw).1,
      (ChemicalVector.setBlock_eq_some hw).2.1⟩
  · intro r o sz v r' hw p hp
    obtain ⟨h1, h2, -, -, rfl⟩ := ChemicalVector.setBlock_eq_some hw
    have hm : (List.zipWith (fun old x => (⟨x.val, x.ddT, x.ddP,
          old.ddn.take o ++ x.ddn ++ old.ddn.drop (o + sz)⟩ : ChemicalScalar))
        ((r.drop o).take sz) v).length = sz := by
      simp only [List.length_zipWith, List.length_take, List.length_drop]
      omega
    have := splice_getElem? r _ o (by rw [hm]; exact h1) p
    rw [hm] at this
    rw [this]
    rcases hp with hp | hp
    · rw [if_pos hp]
    · rw [if_neg (by omega), if_neg (by omega)]
  · intro r o sz v r' hw q hq
    obtain ⟨h1, h2, -, h4, rfl⟩ := ChemicalVector.setBlock_eq_some hw
    have hm : (List.zipWith (fun old x => (⟨x.val, x.ddT, x.ddP,
          old.ddn.take o ++ x.ddn ++ old.ddn.drop (o + sz)⟩ : ChemicalScalar))
        ((r.drop o).take sz) v).length = sz := by
      simp only [List.length_zipWith, List.length_take, List.length_drop]
      omega
    have hold : o + q < r.length := by omega
    have hvq : q < v.length := by omega
    have := splice_getElem? r _ o (by rw [hm]; exact h1) (o + q)
    rw [hm] at this
    refine ⟨r[o + q], _, by simp [hold], ?_, v[q], by simp [hvq], h4 _ (List.getElem_mem _), rfl⟩
    rw [this, if_neg (by omega), if_pos (by omega), Nat.add_sub_cancel_left,
      List.getElem?_zipWith]
    have e1 : ((r.drop o).take sz)[q]? = some r[o + q] := by
      rw [List.getElem?_take_of_lt hq, List.getElem?_drop]
      simp [hold]
    have e2 : v[q]? = some v[q] := by simp [hvq]
    rw [e1, e2]

/-- The standard partial molar Gibbs energies of the example state. -/
theorem exampleState_gibbs :
    standardPartialMolarGibbsEnergies exampleState =
      some [⟨300, 1, 0⟩, ⟨300, 1, 0⟩, ⟨600, 2, 0⟩] := by
  simp [exampleState, exampleSystem, exampleThermoModel, standardPartialMolarGibbsEnergies,
    collectThermo, forPhases, update, ofSystem, ChemicalSystem.numPhases,
    ChemicalSystem.numSpecies, ChemicalSystem.numSpeciesInPhase, setRows, ThermoVector.zeros,
    List.replicate]
  norm_num

/-- The standard partial molar enthalpies of the example state. -/
theorem exampleState_enthalpies :
    standardPartialMolarEnthalpies exampleState =
      some [⟨2, 0, 1⟩, ⟨2, 0, 1⟩, ⟨6, 0, 3⟩] := by
  simp [exampleState, exampleSystem, exampleThermoModel, standardPartialMolarEnthalpies,
    collectThermo, forPhases, update, ofSystem, ChemicalSystem.numPhases,
    ChemicalSystem.numSpecies, ChemicalSystem.numSpeciesInPhase, setRows, ThermoVector.zeros,
    List.replicate]
  norm_num

/-- The standard partial molar volumes of the example state. -/
theorem exampleState_volumes :
    standardPartialMolarVolumes exampleState =
      some [⟨2, 0, 0⟩, ⟨4, 1, 2⟩, ⟨6, 3, 4⟩] := by
  simp [exampleState, exampleSystem, exampleThermoModel, standardPartialMolarVolumes,
    collectThermo, forPhases, update, ofSystem, ChemicalSystem.numPhases,
    ChemicalSystem.numSpecies, ChemicalSystem.numSpeciesInPhase, setRows, ThermoVector.zeros,
    List.replicate]

/-- The ln activities of the example state. -/
theorem exampleState_lnActivities :
    lnActivities exampleState =
      some [⟨300, 1, 0, [2, 0, 0]⟩, ⟨2, 0, 1, [0, 1, 2]⟩, ⟨302, 1, 1, [0, 3, 4]⟩] := by
  simp [exampleState, exampleSystem, exampleChemical0, exampleChemical1, lnActivities,
    collectChemical, forPhases, update, ofSystem, ChemicalSystem.numPhases,
    ChemicalSystem.numSpecies, ChemicalSystem.numSpeciesInPhase, ChemicalVector.setBlock,
    ChemicalVector.zeros, ChemicalScalar.zero, List.replicate]
  norm_num

/-- The phase molar Gibbs energies of the example state. -/
theorem exampleState_phaseMolarGibbsEnergies :
    phaseMolarGibbsEnergies exampleState =
      some [⟨300, 1, 0, [0, 0, 0]⟩, ⟨450, 3/2, 0, [0, -75, 75]⟩] := by
  simp [exampleState, exampleSystem, exampleThermoModel,
    phaseMolarGibbsEnergies, collectPhase, forPhases, update, ofSystem,
    ChemicalSystem.numPhases, ChemicalSystem.numSpecies, ChemicalSystem.numSpeciesInPhase,
    fractionWeightedSum, rows, setRows, ChemicalVector.setRow, ChemicalVector.zeros,
    ChemicalScalar.zero, Reaktoro.molarFractions, ChemicalVector.mulThermo, zipSame,
    ChemicalVector.sum, ChemicalScalar.add, ChemicalScalar.mulThermo, List.enum,
    List.enumFrom, List.range, List.range.loop, List.replicate]
  norm_num

/-- The phase molar volumes of the example state. -/
theorem exampleState_phaseMolarVolumes :
    phaseMolarVolumes exampleState =
      some [⟨7, 1, 2, [7, 0, 0]⟩, ⟨5, 2, 3, [0, -1/2, 1/2]⟩] := by
  simp [exampleState, exampleSystem, exampleThermoModel, exampleChemical0, exampleChemical1,
    phaseMolarVolumes, collectPhase, forPhases, update, ofSystem,
    ChemicalSystem.numPhases, ChemicalSystem.numSpecies, ChemicalSystem.numSpeciesInPhase,
    fractionWeightedSum, rows, setRows, ChemicalVector.setRow, ChemicalVector.zeros,
    ChemicalScalar.zero, Reaktoro.molarFractions, ChemicalVector.mulThermo, zipSame,
    ChemicalVector.sum, ChemicalScalar.add, ChemicalScalar.mulThermo, List.enum,
    List.enumFrom, List.range, List.range.loop, List.replicate]
  norm_num

/-- C1: after `update(T, P, n)`, a phase `i` whose chemical-model molar volume has a
positive value gets that molar volume as-is in `phaseMolarVolumes()`: same value, same
`T` and `P` partials, its `n` partials on the columns of the species of phase `i` and
zero on all other columns; neither `n` nor `tres[i]` enters the result. -/
theorem phaseMolarVolumes_override (s0 : Impl) (T P : ℚ) (n : List ℚ)
    (res : ChemicalVector) (i : Nat) (c : PhaseChemicalModelResult)
    (hres : phaseMolarVolumes (s0.update T P n) = some res)
    (hi : i < s0.num_phases)
    (hc : (s0.system.chemicalModel T P n)[i]? = some c)
    (hpos : c.molar_volume.val > 0) :
    ∃ size, s0.system.numSpeciesInPhase i = some size ∧
      c.molar_volume.ddn.length = size ∧
      res[i]? = some ⟨c.molar_volume.val, c.molar_volume.ddT, c.molar_volume.ddP,
        List.replicate (phaseOffset s0 i) 0 ++ c.molar_volume.ddn ++
          List.replicate (s0.num_species - (phaseOffset s0 i + size)) 0⟩ := by
  obtain ⟨-, hrows⟩ := collectPhase_row _ _ res hres
  obtain ⟨size, v, h1, h2, h3, -, h5⟩ := hrows i hi
  have hc' : (s0.update T P n).cres[i]? = some c := hc
  rw [hc'] at h2
  simp only [Option.some_bind, if_pos hpos, Option.some.injEq] at h2
  subst h2
  exact ⟨size, h1, h3, h5⟩

/-- Witness of C1 on the example state: its first phase provides the molar volume 7. -/
theorem phaseMolarVolumes_override_witness :
    phaseMolarVolumes ((ofSystem exampleSystem).update 300 2 [5, 1, 1]) =
        some [⟨7, 1, 2, [7, 0, 0]⟩, ⟨5, 2, 3, [0, -1/2, 1/2]⟩] ∧
      0 < (ofSystem exampleSystem).num_phases ∧
      ((ofSystem exampleSystem).system.chemicalModel 300 2 [5, 1, 1])[0]? =
        some (exampleChemical0 300 2 [5, 1, 1]) ∧
      (exampleChemical0 300 2 [5, 1, 1]).molar_volume.val > 0 ∧
      ∃ size, (ofSystem exampleSystem).system.numSpeciesInPhase 0 = some size ∧
        (exampleChemical0 300 2 [5, 1, 1]).molar_volume.ddn.length = size ∧
        ([⟨7, 1, 2, [7, 0, 0]⟩, ⟨5, 2, 3, [0, -1/2, 1/2]⟩] : ChemicalVector)[0]? =
          some ⟨(exampleChemical0 300 2 [5, 1, 1]).molar_volume.val,
            (exampleChemical0 300 2 [5, 1, 1]).molar_volume.ddT,
            (exampleChemical0 300 2 [5, 1, 1]).molar_volume.ddP,
            List.replicate (phaseOffset (ofSystem exampleSystem) 0) 0 ++
              (exampleChemical0 300 2 [5, 1, 1]).molar_volume.ddn ++
              List.replicate ((ofSystem exampleSystem).num_species -
                (phaseOffset (ofSystem exampleSystem) 0 + size)) 0⟩ :=
  ⟨exampleState_phaseMolarVolumes, by decide, rfl, by norm_num [exampleChemical0],
    phaseMolarVolumes_override (ofSystem exampleSystem) 300 2 [5, 1, 1] _ 0
      (exampleChemical0 300 2 [5, 1, 1])
      exampleState_phaseMolarVolumes (by decide) rfl (by norm_num [exampleChemical0])⟩

/-- C2: after `update(T, P, n)`, a phase `i` whose chemical-model molar volume has a
value that is not positive gets in `phaseMolarVolumes()` the sum over its species `k`
of `x_k * V0_k`, with `x` the molar fractions of the phase's segment of `n` and `V0`
the standard partial molar volumes of `tres[i]`. -/
theorem phaseMolarVolumes_fallback (s0 : Impl) (T P : ℚ) (n : List ℚ)
    (res : ChemicalVector) (i : Nat) (c : PhaseChemicalModelResult)
    (hres : phaseMolarVolumes (s0.update T P n) = some res)
    (hi : i < s0.num_phases)
    (hc : (s0.system.chemicalModel T P n)[i]? = some c)
    (hle : c.molar_volume.val ≤ 0) :
    ∃ size np t w r, s0.system.numSpeciesInPhase i = some size ∧
      rows n (phaseOffset s0 i) size = some np ∧
      (s0.system.thermoModel T P)[i]? = some t ∧
      ChemicalVector.mulThermo (Reaktoro.molarFractions np)
        t.standard_partial_molar_volumes = some w ∧
      res[i]? = some r ∧
      r.val = (List.zipWith (fun x V0 => x.val * V0.val) (Reaktoro.molarFractions np)
        t.standard_partial_molar_volumes).sum ∧
      r.ddT = (ChemicalVector.sum size w).ddT ∧
      r.ddP = (ChemicalVector.sum size w).ddP ∧
      r.ddn = List.replicate (phaseOffset s0 i) 0 ++ (ChemicalVector.sum size w).ddn ++
          List.replicate (s0.num_species - (phaseOffset s0 i + size)) 0 := by
  obtain ⟨-, hrows⟩ := collectPhase_row _ _ res hres
  obtain ⟨size, v, h1, h2, -, -, h5⟩ := hrows i hi
  have hc' : (s0.update T P n).cres[i]? = some c := hc
  rw [hc'] at h2
  simp only [Option.some_bind, if_neg (not_lt.2 hle)] at h2
  obtain ⟨np, t, w, a1, a2, a3, a4, a5⟩ := fractionWeightedSum_eq_some h2
  refine ⟨size, np, t, w, _, h1, a1, a2, a3, h5, a5, ?_, ?_, ?_⟩
  · simp [a4]
  · simp [a4]
  · simp only [a4]
    rfl


/-- Witness of C2 on the example state: its second phase provides no molar volume. -/
theorem phaseMolarVolumes_fallback_witness :
    phaseMolarVolumes ((ofSystem exampleSystem).update 300 2 [5, 1, 1]) =
        some [⟨7, 1, 2, [7, 0, 0]⟩, ⟨5, 2, 3, [0, -1/2, 1/2]⟩] ∧
      1 < (ofSystem exampleSystem).num_phases ∧
      ((ofSystem exampleSystem).system.chemicalModel 300 2 [5, 1, 1])[1]? =
        some (exampleChemical1 300 2) ∧
      (exampleChemical1 300 2).molar_volume.val ≤ 0 ∧
      ∃ size np t w r, (ofSystem exampleSystem).system.numSpeciesInPhase 1 = some size ∧
        rows [5, 1, 1] (phaseOffset (ofSystem exampleSystem) 1) size = some np ∧
        ((ofSystem exampleSystem).system.thermoModel 300 2)[1]? = some t ∧
        ChemicalVector.mulThermo (Reaktoro.molarFractions np)
          t.standard_partial_molar_volumes = some w ∧
        ([⟨7, 1, 2, [7, 0, 0]⟩, ⟨5, 2, 3, [0, -1/2, 1/2]⟩] : ChemicalVector)[1]? = some r ∧
        r.val = (List.zipWith (fun x V0 => x.val * V0.val) (Reaktoro.molarFractions np)
          t.standard_partial_molar_volumes).sum ∧
        r.ddT = (ChemicalVector.sum size w).ddT ∧
        r.ddP = (ChemicalVector.sum size w).ddP ∧
        r.ddn = List.replicate (phaseOffset (ofSystem exampleSystem) 1) 0 ++
            (ChemicalVector.sum size w).ddn ++
            List.replicate ((ofSystem exampleSystem).num_species -
              (phaseOffset (ofSystem exampleSystem) 1 + size)) 0 :=
  ⟨exampleState_phaseMolarVolumes, by decide, rfl, by norm_num [exampleChemical1],
    phaseMolarVolumes_fallback (ofSystem exampleSystem) 300 2 [5, 1, 1] _ 1
      (exampleChemical1 300 2)
      exampleState_phaseMolarVolumes (by decide) rfl (by norm_num [exampleChemical1])⟩

/-- C3: after `update(T, P, n)`, the value of every entry of `chemicalPotentials()` is
`G0_j + R * T * lna_j`, with `G0` and `lna` the results of
`standardPartialMolarGibbsEnergies()` and `lnActivities()`; and
`PhaseChemicalProperties::chemicalPotentials()` returns, for every record whose Gibbs
energies and ln activities have the same length, a vector of that length whose entries
obey the same relation on the fields of the record (and whenever it returns, its
entries obey it). -/
theorem chemicalPotentials_val (R : ℚ) (s0 : Impl) (T P : ℚ) (n : List ℚ)
    (G : ThermoVector) (lna : ChemicalVector)
    (hG : standardPartialMolarGibbsEnergies (s0.update T P n) = some G)
    (hlna : lnActivities (s0.update T P n) = some lna) :
    (∃ mu, chemicalPotentials R (s0.update T P n) = some mu ∧
      G.length = s0.num_species ∧ lna.length = s0.num_species ∧
      mu.length = s0.num_species ∧
      ∀ (j : Nat) g a, G[j]? = some g → lna[j]? = some a →
        ∃ m, mu[j]? = some m ∧ m.val = g.val + R * T * a.val) ∧
    (∀ p : PhaseChemicalProperties,
      p.standard_partial_molar_gibbs_energies.length = p.ln_activities.length →
      ∃ mu, p.chemicalPotentials R = some mu ∧ mu.length = p.ln_activities.length ∧
        ∀ (j : Nat) g a, p.standard_partial_molar_gibbs_energies[j]? = some g →
          p.ln_activities[j]? = some a →
          ∃ m, mu[j]? = some m ∧ m.val = g.val + R * p.T.val * a.val) ∧
    (∀ (p : PhaseChemicalProperties) (mu : ChemicalVector),
      p.chemicalPotentials R = some mu →
      ∀ (j : Nat) g a, p.standard_partial_molar_gibbs_energies[j]? = some g →
        p.ln_activities[j]? = some a →
        ∃ m, mu[j]? = some m ∧ m.val = g.val + R * p.T.val * a.val) := by
  have hGl : G.length = s0.num_species := collectThermo_length (s := s0.update T P n) hG
  have hll : lna.length = s0.num_species := collectChemical_length (s := s0.update T P n) hlna
  refine ⟨?_, ?_, ?_⟩
  · obtain ⟨mu, hmu, hlen, hent⟩ := zipSame_entries ChemicalScalar.thermoAdd G
      (ChemicalVector.scalarMul (ThermoScalar.scale R (s0.update T P n).T) lna)
      (by simp [ChemicalVector.scalarMul, hGl, hll])
    refine ⟨mu, ?_, hGl, hll, by rw [hlen, hGl], ?_⟩
    · simp only [chemicalPotentials, hG, hlna, Option.some_bind]
      exact hmu
    · intro j g a hg ha
      refine ⟨_, hent j g _ hg (by simp [ChemicalVector.scalarMul, ha]; rfl), ?_⟩
      simp [ChemicalScalar.thermoAdd, ChemicalScalar.thermoMul, ThermoScalar.scale, update,
        Temperature]
  · intro p hlen
    obtain ⟨mu, hmu, hmul, hent⟩ := zipSame_entries ChemicalScalar.thermoAdd
      p.standard_partial_molar_gibbs_energies
      (ChemicalVector.scalarMul (ThermoScalar.scale R p.T) p.ln_activities)
      (by simp [ChemicalVector.scalarMul, hlen])
    refine ⟨mu, hmu, by rw [hmul, hlen], ?_⟩
    intro j g a hg ha
    refine ⟨_, hent j g _ hg (by simp [ChemicalVector.scalarMul, ha]; rfl), ?_⟩
    simp [ChemicalScalar.thermoAdd, ChemicalScalar.thermoMul, ThermoScalar.scale]
  · intro p mu hmu j g a hg ha
    refine ⟨_, zipSame_entries_of_eq hmu j g _ hg
      (by simp [ChemicalVector.scalarMul, ha]; rfl), ?_⟩
    simp [ChemicalScalar.thermoAdd, ChemicalScalar.thermoMul, ThermoScalar.scale]


/-- Witness of C3 on the example state with `R = 8`, and on the record of its second
phase, whose `chemicalPotentials()` returns two entries. -/
theorem chemicalPotentials_val_witness :
    standardPartialMolarGibbsEnergies ((ofSystem exampleSystem).update 300 2 [5, 1, 1]) =
        some [⟨300, 1, 0⟩, ⟨300, 1, 0⟩, ⟨600, 2, 0⟩] ∧
      lnActivities ((ofSystem exampleSystem).update 300 2 [5, 1, 1]) =
        some [⟨300, 1, 0, [2, 0, 0]⟩, ⟨2, 0, 1, [0, 1, 2]⟩, ⟨302, 1, 1, [0, 3, 4]⟩] ∧
      (∃ mu, chemicalPotentials 8 ((ofSystem exampleSystem).update 300 2 [5, 1, 1]) = some mu ∧
        mu.length = 3 ∧
        ∃ m, mu[2]? = some m ∧ m.val = 600 + 8 * 300 * 302) ∧
      examplePhaseArrays.standard_partial_molar_gibbs_energies.length =
        examplePhaseArrays.ln_activities.length ∧
      ∃ mu, examplePhaseArrays.chemicalPotentials 8 = some mu ∧ mu.length = 2 ∧
        ∃ m, mu[1]? = some m ∧ m.val = 600 + 8 * 300 * 302 := by
  obtain ⟨⟨mu, h1, -, -, h2, h3⟩, hp, -⟩ :=
    chemicalPotentials_val 8 (ofSystem exampleSystem) 300 2 [5, 1, 1] _ _
      exampleState_gibbs exampleState_lnActivities
  obtain ⟨mu', h4, h5, h6⟩ := hp examplePhaseArrays rfl
  exact ⟨exampleState_gibbs, exampleState_lnActivities, ⟨mu, h1, h2, h3 2 _ _ rfl rfl⟩, rfl,
    mu', h4, h5, h6 1 _ _ rfl rfl⟩

/-- C7: in every state (so in every state left by an update), the value of every
entry of `standardPartialMolarEntropies()` is `(H0_j - G0_j) / T`, with `H0` and `G0`
the results of the enthalpy and Gibbs energy accessors and `T` the stored temperature;
`PhaseChemicalProperties::standardPartialMolarEntropies()` returns, for every record
whose enthalpies and Gibbs energies have the same length, a vector of that length whose
entries obey the same relation on the fields of the record (and whenever it returns,
its entries obey it). -/
theorem standardPartialMolarEntropies_val (s : Impl) (G H : ThermoVector)
    (hG : standardPartialMolarGibbsEnergies s = some G)
    (hH : standardPartialMolarEnthalpies s = some H) :
    (∃ S, standardPartialMolarEntropies s = some S ∧
      G.length = s.num_species ∧ H.length = s.num_species ∧ S.length = s.num_species ∧
      ∀ (j : Nat) g h, G[j]? = some g → H[j]? = some h →
        ∃ e, S[j]? = some e ∧ e.val = (h.val - g.val) / s.T.val) ∧
    (∀ p : PhaseChemicalProperties,
      p.standard_partial_molar_enthalpies.length =
        p.standard_partial_molar_gibbs_energies.length →
      ∃ S, p.standardPartialMolarEntropies = some S ∧
        S.length = p.standard_partial_molar_gibbs_energies.length ∧
        ∀ (j : Nat) g h, p.standard_partial_molar_gibbs_energies[j]? = some g →
          p.standard_partial_molar_enthalpies[j]? = some h →
          ∃ e, S[j]? = some e ∧ e.val = (h.val - g.val) / p.T.val) ∧
    (∀ (p : PhaseChemicalProperties) (S : ThermoVector),
      p.standardPartialMolarEntropies = some S →
      ∀ (j : Nat) g h, p.standard_partial_molar_gibbs_energies[j]? = some g →
        p.standard_partial_molar_enthalpies[j]? = some h →
        ∃ e, S[j]? = some e ∧ e.val = (h.val - g.val) / p.T.val) := by
  have hGl : G.length = s.num_species := collectThermo_length hG
  have hHl : H.length = s.num_species := collectThermo_length hH
  refine ⟨?_, ?_, ?_⟩
  · obtain ⟨d, hd, hlen, hent⟩ := zipSame_entries ThermoScalar.sub H G (by rw [hGl, hHl])
    refine ⟨ThermoVector.divScalar d s.T, ?_, hGl, hHl, ?_, ?_⟩
    · simp only [standardPartialMolarEntropies, hG, hH, Option.some_bind, ThermoVector.sub, hd,
        Option.map_some']
    · simp [ThermoVector.divScalar, hlen, hHl]
    · intro j g h hg hh
      refine ⟨ThermoScalar.div (ThermoScalar.sub h g) s.T, ?_, rfl⟩
      simp [ThermoVector.divScalar, hent j h g hh hg]
  · intro p hlen
    obtain ⟨d, hd, hdl, hent⟩ := zipSame_entries ThermoScalar.sub
      p.standard_partial_molar_enthalpies p.standard_partial_molar_gibbs_energies hlen
    refine ⟨ThermoVector.divScalar d p.T, ?_, ?_, ?_⟩
    · simp only [PhaseChemicalProperties.standardPartialMolarEntropies, ThermoVector.sub, hd,
        Option.map_some']
    · simp [ThermoVector.divScalar, hdl, hlen]
    · intro j g h hg hh
      refine ⟨ThermoScalar.div (ThermoScalar.sub h g) p.T, ?_, rfl⟩
      simp [ThermoVector.divScalar, hent j h g hh hg]
  · intro p S hS j g h hg hh
    simp only [PhaseChemicalProperties.standardPartialMolarEntropies, Option.map_eq_some'] at hS
    obtain ⟨d, hd, rfl⟩ := hS
    refine ⟨ThermoScalar.div (ThermoScalar.sub h g) p.T, ?_, rfl⟩
    simp [ThermoVector.divScalar, zipSame_entries_of_eq hd j h g hh hg]

/-- Witness of C7 on the example state, and on the record of its second phase, whose
`standardPartialMolarEntropies()` returns two entries. -/
theorem standardPartialMolarEntropies_val_witness :
    standardPartialMolarGibbsEnergies exampleState =
        some [⟨300, 1, 0⟩, ⟨300, 1, 0⟩, ⟨600, 2, 0⟩] ∧
      standardPartialMolarEnthalpies exampleState = some [⟨2, 0, 1⟩, ⟨2, 0, 1⟩, ⟨6, 0, 3⟩] ∧
      (∃ S, standardPartialMolarEntropies exampleState = some S ∧ S.length = 3 ∧
        ∃ e, S[2]? = some e ∧ e.val = (6 - 600) / 300) ∧
      examplePhaseArrays.standard_partial_molar_enthalpies.length =
        examplePhaseArrays.standard_partial_molar_gibbs_energies.length ∧
      ∃ S, examplePhaseArrays.standardPartialMolarEntropies = some S ∧ S.length = 2 ∧
        ∃ e, S[1]? = some e ∧ e.val = (6 - 600) / 300 := by
  obtain ⟨⟨S, h1, -, -, h2, h3⟩, hp, -⟩ :=
    standardPartialMolarEntropies_val exampleState _ _ exampleState_gibbs exampleState_enthalpies
  obtain ⟨S', h4, h5, h6⟩ := hp examplePhaseArrays rfl
  exact ⟨exampleState_gibbs, exampleState_enthalpies, ⟨S, h1, h2, h3 2 _ _ rfl rfl⟩, rfl,
    S', h4, h5, h6 1 _ _ rfl rfl⟩

/-- C8: in every state (so in every state left by an update), the value of every
entry of `standardPartialMolarInternalEnergies()` is `H0_j - P * V0_j`, with `H0` and
`V0` the results of the enthalpy and volume accessors and `P` the stored pressure;
`PhaseChemicalProperties::standardPartialMolarInternalEnergies()` returns, for every
record whose enthalpies and volumes have the same length, a vector of that length whose
entries obey the same relation on the fields of the record (and whenever it returns,
its entries obey it). -/
theorem standardPartialMolarInternalEnergies_val (s : Impl) (H V : ThermoVector)
    (hH : standardPartialMolarEnthalpies s = some H)
    (hV : standardPartialMolarVolumes s = some V) :
    (∃ U, standardPartialMolarInternalEnergies s = some U ∧
      H.length = s.num_species ∧ V.length = s.num_species ∧ U.length = s.num_species ∧
      ∀ (j : Nat) h v, H[j]? = some h → V[j]? = some v →
        ∃ u, U[j]? = some u ∧ u.val = h.val - s.P.val * v.val) ∧
    (∀ p : PhaseChemicalProperties,
      p.standard_partial_molar_enthalpies.length = p.standard_partial_molar_volumes.length →
      ∃ U, p.standardPartialMolarInternalEnergies = some U ∧
        U.length = p.standard_partial_molar_volumes.length ∧
        ∀ (j : Nat) h v, p.standard_partial_molar_enthalpies[j]? = some h →
          p.standard_partial_molar_volumes[j]? = some v →
          ∃ u, U[j]? = some u ∧ u.val = h.val - p.P.val * v.val) ∧
    (∀ (p : PhaseChemicalProperties) (U : ThermoVector),
      p.standardPartialMolarInternalEnergies = some U →
      ∀ (j : Nat) h v, p.standard_partial_molar_enthalpies[j]? = some h →
        p.standard_partial_molar_volumes[j]? = some v →
        ∃ u, U[j]? = some u ∧ u.val = h.val - p.P.val * v.val) := by
  have hHl : H.length = s.num_species := collectThermo_length hH
  have hVl : V.length = s.num_species := collectThermo_length hV
  refine ⟨?_, ?_, ?_⟩
  · obtain ⟨U, hU, hlen, hent⟩ := zipSame_entries ThermoScalar.sub H
      (ThermoVector.scalarMul s.P V) (by simp [ThermoVector.scalarMul, hHl, hVl])
    refine ⟨U, ?_, hHl, hVl, by rw [hlen, hHl], ?_⟩
    · simp only [standardPartialMolarInternalEnergies, hH, hV, Option.some_bind,
        ThermoVector.sub, hU]
    · intro j h v hh hv
      exact ⟨_, hent j h (ThermoScalar.mul s.P v) hh
        (by simp [ThermoVector.scalarMul, hv]), rfl⟩
  · intro p hlen
    obtain ⟨U, hU, hUl, hent⟩ := zipSame_entries ThermoScalar.sub
      p.standard_partial_molar_enthalpies
      (ThermoVector.scalarMul p.P p.standard_partial_molar_volumes)
      (by simp [ThermoVector.scalarMul, hlen])
    refine ⟨U, hU, by rw [hUl, hlen], ?_⟩
    intro j h v hh hv
    exact ⟨_, hent j h (ThermoScalar.mul p.P v) hh
      (by simp [ThermoVector.scalarMul, hv]), rfl⟩
  · intro p U hU j h v hh hv
    exact ⟨_, zipSame_entries_of_eq hU j h (ThermoScalar.mul p.P v) hh
      (by simp [ThermoVector.scalarMul, hv]), rfl⟩

/-- Witness of C8 on the example state, and on the record of its second phase, whose
`standardPartialMolarInternalEnergies()` returns two entries. -/
theorem standardPartialMolarInternalEnergies_val_witness :
    standardPartialMolarEnthalpies exampleState = some [⟨2, 0, 1⟩, ⟨2, 0, 1⟩, ⟨6, 0, 3⟩] ∧
      standardPartialMolarVolumes exampleState = some [⟨2, 0, 0⟩, ⟨4, 1, 2⟩, ⟨6, 3, 4⟩] ∧
      (∃ U, standardPartialMolarInternalEnergies exampleState = some U ∧ U.length = 3 ∧
        ∃ u, U[2]? = some u ∧ u.val = 6 - 2 * 6) ∧
      examplePhaseArrays.standard_partial_molar_enthalpies.length =
        examplePhaseArrays.standard_partial_molar_volumes.length ∧
      ∃ U, examplePhaseArrays.standardPartialMolarInternalEnergies = some U ∧ U.length = 2 ∧
        ∃ u, U[1]? = some u ∧ u.val = 6 - 2 * 6 := by
  obtain ⟨⟨U, h1, -, -, h2, h3⟩, hp, -⟩ :=
    standardPartialMolarInternalEnergies_val exampleState _ _ exampleState_enthalpies
      exampleState_volumes
  obtain ⟨U', h4, h5, h6⟩ := hp examplePhaseArrays rfl
  exact ⟨exampleState_enthalpies, exampleState_volumes, ⟨U, h1, h2, h3 2 _ _ rfl rfl⟩, rfl,
    U', h4, h5, h6 1 _ _ rfl rfl⟩

/-- C9: in every state (so in every state left by an update), the value of every
entry of `standardPartialMolarHelmholtzEnergies()` is `G0_j - P * V0_j`, with `G0` and
`V0` the results of the Gibbs energy and volume accessors and `P` the stored pressure;
`PhaseChemicalProperties::standardPartialMolarHelmholtzEnergies()` returns, for every
record whose Gibbs energies and volumes have the same length, a vector of that length
whose entries obey the same relation on the fields of the record (and whenever it
returns, its entries obey it). -/
theorem standardPartialMolarHelmholtzEnergies_val (s : Impl) (G V : ThermoVector)
    (hG : standardPartialMolarGibbsEnergies s = some G)
    (hV : standardPartialMolarVolumes s = some V) :
    (∃ A, standardPartialMolarHelmholtzEnergies s = some A ∧
      G.length = s.num_species ∧ V.length = s.num_species ∧ A.length = s.num_species ∧
      ∀ (j : Nat) g v, G[j]? = some g → V[j]? = some v →
        ∃ a, A[j]? = some a ∧ a.val = g.val - s.P.val * v.val) ∧
    (∀ p : PhaseChemicalProperties,
      p.standard_partial_molar_gibbs_energies.length =
        p.standard_partial_molar_volumes.length →
      ∃ A, p.standardPartialMolarHelmholtzEnergies = some A ∧
        A.length = p.standard_partial_molar_volumes.length ∧
        ∀ (j : Nat) g v, p.standard_partial_molar_gibbs_energies[j]? = some g →
          p.standard_partial_molar_volumes[j]? = some v →
          ∃ a, A[j]? = some a ∧ a.val = g.val - p.P.val * v.val) ∧
    (∀ (p : PhaseChemicalProperties) (A : ThermoVector),
      p.standardPartialMolarHelmholtzEnergies = some A →
      ∀ (j : Nat) g v, p.standard_partial_molar_gibbs_energies[j]? = some g →
        p.standard_partial_molar_volumes[j]? = some v →
        ∃ a, A[j]? = some a ∧ a.val = g.val - p.P.val * v.val) := by
  have hGl : G.length = s.num_species := collectThermo_length hG
  have hVl : V.length = s.num_species := collectThermo_length hV
  refine ⟨?_, ?_, ?_⟩
  · obtain ⟨A, hA, hlen, hent⟩ := zipSame_entries ThermoScalar.sub G
      (ThermoVector.scalarMul s.P V) (by simp [ThermoVector.scalarMul, hGl, hVl])
    refine ⟨A, ?_, hGl, hVl, by rw [hlen, hGl], ?_⟩
    · simp only [standardPartialMolarHelmholtzEnergies, hG, hV, Option.some_bind,
        ThermoVector.sub, hA]
    · intro j g v hg hv
      exact ⟨_, hent j g (ThermoScalar.mul s.P v) hg
        (by simp [ThermoVector.scalarMul, hv]), rfl⟩
  · intro p hlen
    obtain ⟨A, hA, hAl, hent⟩ := zipSame_entries ThermoScalar.sub
      p.standard_partial_molar_gibbs_energies
      (ThermoVector.scalarMul p.P p.standard_partial_molar_volumes)
      (by simp [ThermoVector.scalarMul, hlen])
    refine ⟨A, hA, by rw [hAl, hlen], ?_⟩
    intro j g v hg hv
    exact ⟨_, hent j g (ThermoScalar.mul p.P v) hg
      (by simp [ThermoVector.scalarMul, hv]), rfl⟩
  · intro p A hA j g v hg hv
    exact ⟨_, zipSame_entries_of_eq hA j g (ThermoScalar.mul p.P v) hg
      (by simp [ThermoVector.scalarMul, hv]), rfl⟩

/-- Witness of C9 on the example state, and on the record of its second phase, whose
`standardPartialMolarHelmholtzEnergies()` returns two entries. -/
theorem standardPartialMolarHelmholtzEnergies_val_witness :
    standardPartialMolarGibbsEnergies exampleState =
        some [⟨300, 1, 0⟩, ⟨300, 1, 0⟩, ⟨600, 2, 0⟩] ∧
      standardPartialMolarVolumes exampleState = some [⟨2, 0, 0⟩, ⟨4, 1, 2⟩, ⟨6, 3, 4⟩] ∧
      (∃ A, standardPartialMolarHelmholtzEnergies exampleState = some A ∧ A.length = 3 ∧
        ∃ a, A[2]? = some a ∧ a.val = 600 - 2 * 6) ∧
      examplePhaseArrays.standard_partial_molar_gibbs_energies.length =
        examplePhaseArrays.standard_partial_molar_volumes.length ∧
      ∃ A, examplePhaseArrays.standardPartialMolarHelmholtzEnergies = some A ∧ A.length = 2 ∧
        ∃ a, A[1]? = some a ∧ a.val = 600 - 2 * 6 := by
  obtain ⟨⟨A, h1, -, -, h2, h3⟩, hp, -⟩ :=
    standardPartialMolarHelmholtzEnergies_val exampleState _ _ exampleState_gibbs
      exampleState_volumes
  obtain ⟨A', h4, h5, h6⟩ := hp examplePhaseArrays rfl
  exact ⟨exampleState_gibbs, exampleState_volumes, ⟨A, h1, h2, h3 2 _ _ rfl rfl⟩, rfl,
    A', h4, h5, h6 1 _ _ rfl rfl⟩


/-- The ln activity constants of the states of `constantsSystem`. -/
theorem constantsSystem_lnActivityConstants (n : List ℚ) :
    lnActivityConstants ((ofSystem constantsSystem).update 300 2 n) = some [⟨n.sum, 0, 0⟩] := by
  simp [constantsSystem, lnActivityConstants, collectThermo, forPhases, update, ofSystem,
    ChemicalSystem.numPhases, ChemicalSystem.numSpecies, ChemicalSystem.numSpeciesInPhase,
    setRows, ThermoVector.zeros, List.replicate]

/-- C17, counterexample: on `constantsSystem` the result of `lnActivityConstants()` is
not a function of the thermo model results: the states reached with the amounts `[1]`
and `[2]` hold the same `tres` and give different ln activity constants. -/
theorem lnActivityConstants_not_from_tres :
    ¬ ∃ f : ThermoModelResult → Option ThermoVector, ∀ n : List ℚ,
      lnActivityConstants ((ofSystem constantsSystem).update 300 2 n) =
        f ((ofSystem constantsSystem).update 300 2 n).tres := by
  rintro ⟨f, hf⟩
  have h1 := hf [1]
  have h2 := hf [2]
  rw [constantsSystem_lnActivityConstants] at h1 h2
  have h3 : ((ofSystem constantsSystem).update 300 2 [1]).tres =
      ((ofSystem constantsSystem).update 300 2 [2]).tres := rfl
  rw [h3, ← h2] at h1
  simp at h1

/-- C17, amended: after an update, the entry of `lnActivityConstants()` at the offset of
phase `i` plus `k` is the `k`-th ln activity constant of the chemical model result
`cres[i]` of that phase. -/
theorem lnActivityConstants_from_cres (s0 : Impl) (T P : ℚ) (n : List ℚ)
    (res : ThermoVector) (i : Nat)
    (hres : lnActivityConstants (s0.update T P n) = some res)
    (hi : i < s0.num_phases) :
    ∃ size c, s0.system.numSpeciesInPhase i = some size ∧
      (s0.system.chemicalModel T P n)[i]? = some c ∧
      c.ln_activity_constants.length = size ∧
      ∀ k : Nat, k < size → res[phaseOffset s0 i + k]? = c.ln_activity_constants[k]? := by
  obtain ⟨size, v, h1, h2, h3, -, h5⟩ := collectThermo_entries hres i hi
  simp only [Option.map_eq_some'] at h2
  obtain ⟨c, hc, rfl⟩ := h2
  exact ⟨size, c, h1, hc, h3, h5⟩

/-- Witness of the amended C17 on the example state. -/
theorem lnActivityConstants_from_cres_witness :
    lnActivityConstants ((ofSystem exampleSystem).update 300 2 [5, 1, 1]) =
        some [⟨2, 0, 0⟩, ⟨2, 0, 0⟩, ⟨3, 0, 0⟩] ∧
      1 < (ofSystem exampleSystem).num_phases ∧
      ∃ size c, (ofSystem exampleSystem).system.numSpeciesInPhase 1 = some size ∧
        ((ofSystem exampleSystem).system.chemicalModel 300 2 [5, 1, 1])[1]? = some c ∧
        c.ln_activity_constants.length = size ∧
        ∀ k : Nat, k < size →
          ([⟨2, 0, 0⟩, ⟨2, 0, 0⟩, ⟨3, 0, 0⟩] : ThermoVector)[
            phaseOffset (ofSystem exampleSystem) 1 + k]? = c.ln_activity_constants[k]? := by
  have h : lnActivityConstants ((ofSystem exampleSystem).update 300 2 [5, 1, 1]) =
      some [⟨2, 0, 0⟩, ⟨2, 0, 0⟩, ⟨3, 0, 0⟩] := by
    simp [exampleSystem, exampleChemical0, exampleChemical1, lnActivityConstants,
      collectThermo, forPhases, update, ofSystem, ChemicalSystem.numPhases,
      ChemicalSystem.numSpecies, ChemicalSystem.numSpeciesInPhase, setRows,
      ThermoVector.zeros, List.replicate]
  exact ⟨h, by decide,
    lnActivityConstants_from_cres (ofSystem exampleSystem) 300 2 [5, 1, 1] _ 1 h (by decide)⟩

/-- C19: after `update(T, P, n)`, for every phase `i` whose total amount is not zero,
the value of `molarFractions()` at every species of the phase is the amount of the
species divided by the sum of the amounts of the species of that phase (not of the
whole system), and the fractions of the phase sum to one. -/
theorem molarFractions_own_phase (s0 : Impl) (T P : ℚ) (n : List ℚ)
    (res : ChemicalVector) (i : Nat)
    (hres : molarFractions (s0.update T P n) = some res)
    (hi : i < s0.num_phases) :
    ∃ size np, s0.system.numSpeciesInPhase i = some size ∧
      rows n (phaseOffset s0 i) size = some np ∧
      (np.sum ≠ 0 →
        (∀ k : Nat, k < size → ∃ nk r, n[phaseOffset s0 i + k]? = some nk ∧
          res[phaseOffset s0 i + k]? = some r ∧ r.val = nk / np.sum) ∧
        ∃ xs, rows res (phaseOffset s0 i) size = some xs ∧ (xs.map (·.val)).sum = 1) := by
  have hlen : res.length = s0.num_species :=
    collectChemical_length (s := s0.update T P n) hres
  obtain ⟨size, v, h1, h2, h3, h4, h5⟩ := collectChemical_entries hres i hi
  simp only [Option.map_eq_some'] at h2
  obtain ⟨np, hnp, rfl⟩ := h2
  refine ⟨size, np, h1, hnp, ?_⟩
  intro hsum
  obtain ⟨hb, hl, hent⟩ := rows_eq_some hnp
  have hvals : ∀ k : Nat, k < size → ∃ nk r, n[phaseOffset s0 i + k]? = some nk ∧
      np[k]? = some nk ∧ res[phaseOffset s0 i + k]? = some r ∧ r.val = nk / np.sum := by
    intro k hk
    have hk' : k < np.length := by omega
    have hnk : np[k]? = some np[k] := by simp [hk']
    obtain ⟨x, hx, hxv⟩ := molarFractions_val_of_ne_zero np hsum k _ hnk
    obtain ⟨x', hx', -, hr⟩ := h5 k hk
    rw [hx] at hx'
    cases hx'
    exact ⟨np[k], _, (hent k hk).symm.trans hnk, hnk, hr, hxv⟩
  refine ⟨fun k hk => ?_, ?_⟩
  · obtain ⟨nk, r, a1, -, a3, a4⟩ := hvals k hk
    exact ⟨nk, r, a1, a3, a4⟩
  · have hrows : (phaseOffset s0 i) + size ≤ res.length := by rw [hlen]; exact h4
    refine ⟨(res.drop (phaseOffset s0 i)).take size, by simp [rows, hrows], ?_⟩
    have : ((res.drop (phaseOffset s0 i)).take size).map (·.val) =
        np.map (fun a => a / np.sum) := by
      apply List.ext_getElem?
      intro k
      by_cases hk : k < size
      · obtain ⟨nk, r, -, a2, a3, a4⟩ := hvals k hk
        simp only [List.getElem?_map, List.getElem?_take_of_lt hk, List.getElem?_drop, a3, a2,
          Option.map_some', a4]
      · rw [List.getElem?_eq_none (by simp; omega), List.getElem?_eq_none (by simp; omega)]
    rw [this, sum_map_div_self np hsum]

/-- C20: after `update(T, P, n)`, for every phase `i` whose species amounts are all
zero, `molarFractions()` has the value zero at every species of the phase, whatever the
number of species of the phase. -/
theorem molarFractions_zero_phase (s0 : Impl) (T P : ℚ) (n : List ℚ)
    (res : ChemicalVector) (i : Nat)
    (hres : molarFractions (s0.update T P n) = some res)
    (hi : i < s0.num_phases) :
    ∃ size np, s0.system.numSpeciesInPhase i = some size ∧
      rows n (phaseOffset s0 i) size = some np ∧
      ((∀ a ∈ np, a = 0) →
        ∀ k : Nat, k < size → ∃ r, res[phaseOffset s0 i + k]? = some r ∧ r.val = 0 ∧
          r.ddT = 0 ∧ r.ddP = 0 ∧ ∀ d ∈ r.ddn, d = 0) := by
  obtain ⟨size, v, h1, h2, h3, h4, h5⟩ := collectChemical_entries hres i hi
  simp only [Option.map_eq_some'] at h2
  obtain ⟨np, hnp, rfl⟩ := h2
  refine ⟨size, np, h1, hnp, ?_⟩
  intro hzero k hk
  have hsum : np.sum = 0 := List.sum_eq_zero hzero
  obtain ⟨x, hx, -, hr⟩ := h5 k hk
  rw [molarFractions_of_sum_eq_zero np hsum] at hx
  have hx0 : x = ChemicalScalar.zero np.length :=
    List.eq_of_mem_replicate (List.getElem?_mem hx)
  subst hx0
  refine ⟨_, hr, rfl, rfl, rfl, ?_⟩
  intro d hd
  simp only [ChemicalScalar.zero, List.mem_append, List.mem_replicate] at hd
  rcases hd with (hd | hd) | hd <;> exact hd.2

/-- The molar fractions of the example state. -/
theorem exampleState_molarFractions :
    molarFractions ((ofSystem exampleSystem).update 300 2 [5, 1, 1]) =
      some [⟨1, 0, 0, [0, 0, 0]⟩, ⟨1/2, 0, 0, [0, 1/4, -1/4]⟩, ⟨1/2, 0, 0, [0, -1/4, 1/4]⟩] := by
  simp [exampleSystem, molarFractions, collectChemical, forPhases, update, ofSystem,
    ChemicalSystem.numPhases, ChemicalSystem.numSpecies, ChemicalSystem.numSpeciesInPhase,
    rows, ChemicalVector.setBlock, ChemicalVector.zeros, ChemicalScalar.zero,
    Reaktoro.molarFractions, List.enum, List.enumFrom, List.range, List.range.loop,
    List.replicate]
  norm_num

/-- The molar fractions of the example system when its second phase is empty. -/
theorem exampleSystem_molarFractions_empty_phase :
    molarFractions ((ofSystem exampleSystem).update 300 2 [5, 0, 0]) =
      some [⟨1, 0, 0, [0, 0, 0]⟩, ⟨0, 0, 0, [0, 0, 0]⟩, ⟨0, 0, 0, [0, 0, 0]⟩] := by
  simp [exampleSystem, molarFractions, collectChemical, forPhases, update, ofSystem,
    ChemicalSystem.numPhases, ChemicalSystem.numSpecies, ChemicalSystem.numSpeciesInPhase,
    rows, ChemicalVector.setBlock, ChemicalVector.zeros, ChemicalScalar.zero,
    Reaktoro.molarFractions, List.enum, List.enumFrom, List.range, List.range.loop,
    List.replicate]

/-- Witness of C19 on the second phase of the example state. -/
theorem molarFractions_own_phase_witness :
    molarFractions ((ofSystem exampleSystem).update 300 2 [5, 1, 1]) =
        some [⟨1, 0, 0, [0, 0, 0]⟩, ⟨1/2, 0, 0, [0, 1/4, -1/4]⟩,
          ⟨1/2, 0, 0, [0, -1/4, 1/4]⟩] ∧
      1 < (ofSystem exampleSystem).num_phases ∧
      ∃ size np, (ofSystem exampleSystem).system.numSpeciesInPhase 1 = some size ∧
        rows ([5, 1, 1] : List ℚ) (phaseOffset (ofSystem exampleSystem) 1) size = some np ∧
        (np.sum ≠ 0 →
          (∀ k : Nat, k < size → ∃ nk r,
            ([5, 1, 1] : List ℚ)[phaseOffset (ofSystem exampleSystem) 1 + k]? = some nk ∧
            ([⟨1, 0, 0, [0, 0, 0]⟩, ⟨1/2, 0, 0, [0, 1/4, -1/4]⟩,
              ⟨1/2, 0, 0, [0, -1/4, 1/4]⟩] : ChemicalVector)[
                phaseOffset (ofSystem exampleSystem) 1 + k]? = some r ∧
            r.val = nk / np.sum) ∧
          ∃ xs, rows ([⟨1, 0, 0, [0, 0, 0]⟩, ⟨1/2, 0, 0, [0, 1/4, -1/4]⟩,
              ⟨1/2, 0, 0, [0, -1/4, 1/4]⟩] : ChemicalVector)
              (phaseOffset (ofSystem exampleSystem) 1) size = some xs ∧
            (xs.map (·.val)).sum = 1) :=
  ⟨exampleState_molarFractions, by decide,
    molarFractions_own_phase (ofSystem exampleSystem) 300 2 [5, 1, 1] _ 1
      exampleState_molarFractions (by decide)⟩

/-- Witness of C20 on the example system with an empty second phase of two species. -/
theorem molarFractions_zero_phase_witness :
    molarFractions ((ofSystem exampleSystem).update 300 2 [5, 0, 0]) =
        some [⟨1, 0, 0, [0, 0, 0]⟩, ⟨0, 0, 0, [0, 0, 0]⟩, ⟨0, 0, 0, [0, 0, 0]⟩] ∧
      1 < (ofSystem exampleSystem).num_phases ∧
      ∃ size np, (ofSystem exampleSystem).system.numSpeciesInPhase 1 = some size ∧
        rows ([5, 0, 0] : List ℚ) (phaseOffset (ofSystem exampleSystem) 1) size = some np ∧
        ((∀ a ∈ np, a = 0) →
          ∀ k : Nat, k < size → ∃ r,
            ([⟨1, 0, 0, [0, 0, 0]⟩, ⟨0, 0, 0, [0, 0, 0]⟩, ⟨0, 0, 0, [0, 0, 0]⟩] :
              ChemicalVector)[phaseOffset (ofSystem exampleSystem) 1 + k]? = some r ∧
            r.val = 0 ∧ r.ddT = 0 ∧ r.ddP = 0 ∧ ∀ d ∈ r.ddn, d = 0) :=
  ⟨exampleSystem_molarFractions_empty_phase, by decide,
    molarFractions_zero_phase (ofSystem exampleSystem) 300 2 [5, 0, 0] _ 1
      exampleSystem_molarFractions_empty_phase (by decide)⟩

/-- C13: after `update(T, P, n)`, the entry of `phaseAmounts()` at phase `i` is the
differentiable sum of the amounts of the species of the phase: its value is the sum of
the amounts of the segment of `n` of the phase, its `T` and `P` partials are zero, and
its partial with respect to the amount of a species is one for the species of the phase
and zero for all other species. -/
theorem phaseAmounts_entry (s0 : Impl) (T P : ℚ) (n : List ℚ) (res : ChemicalVector)
    (i : Nat) (hres : phaseAmounts (s0.update T P n) = some res) (hi : i < s0.num_phases) :
    ∃ size np r, s0.system.numSpeciesInPhase i = some size ∧
      rows n (phaseOffset s0 i) size = some np ∧
      res[i]? = some r ∧ r.val = np.sum ∧ r.ddT = 0 ∧ r.ddP = 0 ∧
      r.ddn = List.replicate (phaseOffset s0 i) 0 ++ List.replicate size 1 ++
        List.replicate (s0.num_species - (phaseOffset s0 i + size)) 0 := by
  obtain ⟨-, hrows⟩ := collectPhase_row _ _ res hres
  obtain ⟨size, v, h1, h2, -, -, h5⟩ := hrows i hi
  simp only [Option.map_eq_some'] at h2
  obtain ⟨b, hb, rfl⟩ := h2
  obtain ⟨-, hr, hl, rfl⟩ := ChemicalVector.block_composition hb
  have hsum := ChemicalVector.sum_composition
    (((s0.update T P n).n.drop ((s0.update T P n).phaseOffset i)).take size)
  rw [hl] at hsum
  rw [hsum] at h5
  exact ⟨size, _, _, h1, hr, h5, rfl, rfl, rfl, rfl⟩

/-- C12: after `update(T, P, n)`, the value of `phaseMasses()` at phase `i` is the sum
over the species `j` of the phase of `n_j * M_j`, with `M_j` the molar mass at the same
global species index; the amounts and molar masses of the other phases do not enter. -/
theorem phaseMasses_entry (s0 : Impl) (T P : ℚ) (n : List ℚ) (res : ChemicalVector)
    (i : Nat) (hres : phaseMasses (s0.update T P n) = some res) (hi : i < s0.num_phases) :
    ∃ size np mmp r, s0.system.numSpeciesInPhase i = some size ∧
      rows n (phaseOffset s0 i) size = some np ∧
      rows s0.system.molarMasses (phaseOffset s0 i) size = some mmp ∧
      res[i]? = some r ∧
      r.val = (List.zipWith (fun nj Mj => nj * Mj) np mmp).sum := by
  obtain ⟨-, hrows⟩ := collectPhase_row _ _ res hres
  obtain ⟨size, v, h1, h2, -, -, h5⟩ := hrows i hi
  simp only [Option.bind_eq_some, Option.map_eq_some'] at h2
  obtain ⟨b, hb, mmp, hmm, w, hw, rfl⟩ := h2
  obtain ⟨-, hr, hl, rfl⟩ := ChemicalVector.block_composition hb
  refine ⟨size, _, mmp, _, h1, hr, hmm, h5, ?_⟩
  simp only [ChemicalVector.sum_val]
  unfold ChemicalVector.scaleRows at hw
  obtain ⟨-, rfl⟩ := zipSame_eq_some.1 hw
  rw [List.map_zipWith]
  have hv : (ChemicalVector.composition
      (((s0.update T P n).n.drop ((s0.update T P n).phaseOffset i)).take size)).map (·.val) =
      ((s0.update T P n).n.drop ((s0.update T P n).phaseOffset i)).take size := by
    simp only [ChemicalVector.composition, List.map_map]
    exact map_getD_range _
  have : List.zipWith (fun (x : ℚ) (y : ChemicalScalar) => (ChemicalScalar.scale x y).val) mmp
      (ChemicalVector.composition
        (((s0.update T P n).n.drop ((s0.update T P n).phaseOffset i)).take size)) =
      List.zipWith (fun Mj nj => nj * Mj) mmp
        ((ChemicalVector.composition
          (((s0.update T P n).n.drop ((s0.update T P n).phaseOffset i)).take size)).map
            (·.val)) := by
    rw [List.zipWith_map_right]
    simp only [ChemicalScalar.scale, mul_comm]
  rw [this, hv, List.zipWith_comm]

/-- The phase amounts of the example state. -/
theorem exampleState_phaseAmounts :
    phaseAmounts ((ofSystem exampleSystem).update 300 2 [5, 1, 1]) =
      some [⟨5, 0, 0, [1, 0, 0]⟩, ⟨2, 0, 0, [0, 1, 1]⟩] := by
  simp [exampleSystem, phaseAmounts, collectPhase, forPhases, update, ofSystem,
    ChemicalSystem.numPhases, ChemicalSystem.numSpecies, ChemicalSystem.numSpeciesInPhase,
    ChemicalVector.block, ChemicalVector.composition, setRows, ChemicalVector.setRow,
    ChemicalVector.zeros, ChemicalScalar.zero, ChemicalVector.sum, ChemicalScalar.add,
    List.range, List.range.loop, List.replicate]
  norm_num

/-- The phase masses of the example state. -/
theorem exampleState_phaseMasses :
    phaseMasses ((ofSystem exampleSystem).update 300 2 [5, 1, 1]) =
      some [⟨5, 0, 0, [1, 0, 0]⟩, ⟨5, 0, 0, [0, 2, 3]⟩] := by
  simp [exampleSystem, phaseMasses, collectPhase, forPhases, update, ofSystem,
    ChemicalSystem.numPhases, ChemicalSystem.numSpecies, ChemicalSystem.numSpeciesInPhase,
    ChemicalVector.block, ChemicalVector.composition, rows, setRows, ChemicalVector.setRow,
    ChemicalVector.zeros, ChemicalScalar.zero, ChemicalVector.sum, ChemicalScalar.add,
    ChemicalVector.scaleRows, zipSame, ChemicalScalar.scale,
    List.range, List.range.loop, List.replicate]
  norm_num

/-- Witness of C13 on the second phase of the example state. -/
theorem phaseAmounts_entry_witness :
    phaseAmounts ((ofSystem exampleSystem).update 300 2 [5, 1, 1]) =
        some [⟨5, 0, 0, [1, 0, 0]⟩, ⟨2, 0, 0, [0, 1, 1]⟩] ∧
      1 < (ofSystem exampleSystem).num_phases ∧
      ∃ size np r, (ofSystem exampleSystem).system.numSpeciesInPhase 1 = some size ∧
        rows ([5, 1, 1] : List ℚ) (phaseOffset (ofSystem exampleSystem) 1) size = some np ∧
        ([⟨5, 0, 0, [1, 0, 0]⟩, ⟨2, 0, 0, [0, 1, 1]⟩] : ChemicalVector)[1]? = some r ∧
        r.val = np.sum ∧ r.ddT = 0 ∧ r.ddP = 0 ∧
        r.ddn = List.replicate (phaseOffset (ofSystem exampleSystem) 1) 0 ++
          List.replicate size 1 ++
          List.replicate ((ofSystem exampleSystem).num_species -
            (phaseOffset (ofSystem exampleSystem) 1 + size)) 0 :=
  ⟨exampleState_phaseAmounts, by decide,
    phaseAmounts_entry (ofSystem exampleSystem) 300 2 [5, 1, 1] _ 1 exampleState_phaseAmounts
      (by decide)⟩

/-- Witness of C12 on the second phase of the example state. -/
theorem phaseMasses_entry_witness :
    phaseMasses ((ofSystem exampleSystem).update 300 2 [5, 1, 1]) =
        some [⟨5, 0, 0, [1, 0, 0]⟩, ⟨5, 0, 0, [0, 2, 3]⟩] ∧
      1 < (ofSystem exampleSystem).num_phases ∧
      ∃ size np mmp r, (ofSystem exampleSystem).system.numSpeciesInPhase 1 = some size ∧
        rows ([5, 1, 1] : List ℚ) (phaseOffset (ofSystem exampleSystem) 1) size = some np ∧
        rows (ofSystem exampleSystem).system.molarMasses
          (phaseOffset (ofSystem exampleSystem) 1) size = some mmp ∧
        ([⟨5, 0, 0, [1, 0, 0]⟩, ⟨5, 0, 0, [0, 2, 3]⟩] : ChemicalVector)[1]? = some r ∧
        r.val = (List.zipWith (fun nj Mj => nj * Mj) np mmp).sum :=
  ⟨exampleState_phaseMasses, by decide,
    phaseMasses_entry (ofSystem exampleSystem) 300 2 [5, 1, 1] _ 1 exampleState_phaseMasses
      (by decide)⟩

/-- The result of a phase-level accessor has one row per phase. -/
theorem collectPhase_length {s : Impl} {value : Nat → Nat → Nat → Option ChemicalScalar}
    {res : ChemicalVector} (h : collectPhase s value = some res) :
    res.length = s.num_phases :=
  (collectPhase_row s value res h).1

/-- C11: after `update(T, P, n)`, when the phase molar Gibbs energies, enthalpies and
(tiered) volumes are available, the phase molar entropies, internal energies and
Helmholtz energies exist and, at every phase `i`, have the values `(H_i - G_i) / T`,
`H_i - P * V_i` and `G_i - P * V_i`; the methods `molarEntropy`, `molarInternalEnergy`
and `molarHelmholtzEnergy` of `PhaseChemicalProperties` obey the same relations on the
fields of the record. -/
theorem phaseMolar_identities (s0 : Impl) (T P : ℚ) (n : List ℚ) (G H V : ChemicalVector)
    (hG : phaseMolarGibbsEnergies (s0.update T P n) = some G)
    (hH : phaseMolarEnthalpies (s0.update T P n) = some H)
    (hV : phaseMolarVolumes (s0.update T P n) = some V) :
    (∃ S U A, phaseMolarEntropies (s0.update T P n) = some S ∧
      phaseMolarInternalEnergies (s0.update T P n) = some U ∧
      phaseMolarHelmholtzEnergies (s0.update T P n) = some A ∧
      G.length = s0.num_phases ∧ H.length = s0.num_phases ∧ V.length = s0.num_phases ∧
      S.length = s0.num_phases ∧ U.length = s0.num_phases ∧ A.length = s0.num_phases ∧
      ∀ (i : Nat) g h v, G[i]? = some g → H[i]? = some h → V[i]? = some v →
        ∃ e u a, S[i]? = some e ∧ U[i]? = some u ∧ A[i]? = some a ∧
          e.val = (h.val - g.val) / T ∧ u.val = h.val - P * v.val ∧
          a.val = g.val - P * v.val) ∧
    (∀ p : PhaseChemicalProperties,
      p.molarEntropy.val =
        (p.phase_molar_enthalpy.val - p.phase_molar_gibbs_energy.val) / p.T.val ∧
      p.molarInternalEnergy.val = p.phase_molar_enthalpy.val - p.P.val * p.phase_molar_volume.val ∧
      p.molarHelmholtzEnergy.val =
        p.phase_molar_gibbs_energy.val - p.P.val * p.phase_molar_volume.val) := by
  have hGl : G.length = s0.num_phases := collectPhase_length (s := s0.update T P n) hG
  have hHl : H.length = s0.num_phases := collectPhase_length (s := s0.update T P n) hH
  have hVl : V.length = s0.num_phases := collectPhase_length (s := s0.update T P n) hV
  refine ⟨?_, fun p => ⟨rfl, rfl, rfl⟩⟩
  obtain ⟨d, hd, hdl, hde⟩ := zipSame_entries ChemicalScalar.sub H G (by rw [hGl, hHl])
  obtain ⟨U, hU, hUl, hUe⟩ := zipSame_entries ChemicalScalar.sub H
    (ChemicalVector.scalarMul (s0.update T P n).P V)
    (by simp [ChemicalVector.scalarMul, hHl, hVl])
  obtain ⟨A, hA, hAl, hAe⟩ := zipSame_entries ChemicalScalar.sub G
    (ChemicalVector.scalarMul (s0.update T P n).P V)
    (by simp [ChemicalVector.scalarMul, hGl, hVl])
  refine ⟨ChemicalVector.divScalar d (s0.update T P n).T, U, A, ?_, ?_, ?_, hGl, hHl, hVl,
    by simp [ChemicalVector.divScalar, hdl, hHl], by rw [hUl, hHl], by rw [hAl, hGl], ?_⟩
  · simp only [phaseMolarEntropies, hG, hH, Option.some_bind, ChemicalVector.sub, hd,
      Option.map_some']
  · simp only [phaseMolarInternalEnergies, hH, hV, Option.some_bind, ChemicalVector.sub, hU]
  · simp only [phaseMolarHelmholtzEnergies, hG, hV, Option.some_bind, ChemicalVector.sub, hA]
  · intro i g h v hg hh hv
    have hPv : (ChemicalVector.scalarMul (s0.update T P n).P V)[i]? =
        some (ChemicalScalar.thermoMul (s0.update T P n).P v) := by
      simp [ChemicalVector.scalarMul, hv]
    refine ⟨ChemicalScalar.divThermo (ChemicalScalar.sub h g) (s0.update T P n).T, _, _, ?_,
      hUe i h _ hh hPv, hAe i g _ hg hPv, rfl, rfl, rfl⟩
    simp [ChemicalVector.divScalar, hde i h g hh hg]

/-- The phase molar entropies have one row per phase. -/
theorem phaseMolarEntropies_length {s : Impl} {X : ChemicalVector}
    (h : phaseMolarEntropies s = some X) : X.length = s.num_phases := by
  simp only [phaseMolarEntropies, Option.bind_eq_some, Option.map_eq_some'] at h
  obtain ⟨G, -, H, hH, d, hd, rfl⟩ := h
  simp only [ChemicalVector.divScalar, List.length_map]
  rw [(zipSame_length hd).1, collectPhase_length hH]

/-- The phase molar internal energies have one row per phase. -/
theorem phaseMolarInternalEnergies_length {s : Impl} {X : ChemicalVector}
    (h : phaseMolarInternalEnergies s = some X) : X.length = s.num_phases := by
  simp only [phaseMolarInternalEnergies, Option.bind_eq_some] at h
  obtain ⟨H, hH, V, -, hd⟩ := h
  rw [(zipSame_length hd).1, collectPhase_length hH]

/-- The phase molar Helmholtz energies have one row per phase. -/
theorem phaseMolarHelmholtzEnergies_length {s : Impl} {X : ChemicalVector}
    (h : phaseMolarHelmholtzEnergies s = some X) : X.length = s.num_phases := by
  simp only [phaseMolarHelmholtzEnergies, Option.bind_eq_some] at h
  obtain ⟨G, hG, V, -, hd⟩ := h
  rw [(zipSame_length hd).1, collectPhase_length hG]

/-- The value of a phase specific property: the molar property times the amount of the
phase over its mass. -/
theorem specificOf_val {s : Impl} {A M X : ChemicalVector} {molar : Option ChemicalVector}
    (hA : phaseAmounts s = some A) (hM : phaseMasses s = some M) (hX : molar = some X)
    (hXl : X.length = s.num_phases) :
    ∃ Y, specificOf s molar = some Y ∧ Y.length = s.num_phases ∧
      ∀ (i : Nat) a m x, A[i]? = some a → M[i]? = some m → X[i]? = some x →
        ∃ y, Y[i]? = some y ∧ y.val = x.val * (a.val / m.val) := by
  have hAl : A.length = s.num_phases := collectPhase_length hA
  have hMl : M.length = s.num_phases := collectPhase_length hM
  obtain ⟨q, hq, hql, hqe⟩ := zipSame_entries ChemicalScalar.div A M (by rw [hAl, hMl])
  obtain ⟨Y, hY, hYl, hYe⟩ := zipSame_entries ChemicalScalar.mul q X (by rw [hql, hAl, hXl])
  refine ⟨Y, ?_, by rw [hYl, hql, hAl], ?_⟩
  · simp only [specificOf, hA, hM, hX, Option.some_bind, ChemicalVector.div, hq,
      ChemicalVector.mul, hY]
  · intro i a m x ha hm hx
    refine ⟨_, hYe i _ x (hqe i a m ha hm) hx, ?_⟩
    simp only [ChemicalScalar.mul, ChemicalScalar.div]
    ring

/-- C14: after `update(T, P, n)`, when the phase amounts and masses are available, each
of the eight phase specific accessors whose phase molar accessor is available has,
at every phase `i`, the value of the phase molar property at `i` multiplied by
`phaseAmounts()[i] / phaseMasses()[i]`; the `specific*` methods of
`PhaseChemicalProperties` obey the same relation on the fields of the record. -/
theorem phaseSpecific_val (s0 : Impl) (T P : ℚ) (n : List ℚ) (A M : ChemicalVector)
    (hA : phaseAmounts (s0.update T P n) = some A)
    (hM : phaseMasses (s0.update T P n) = some M) :
    (∀ X, phaseMolarGibbsEnergies (s0.update T P n) = some X →
      ∃ Y, phaseSpecificGibbsEnergies (s0.update T P n) = some Y ∧
        Y.length = s0.num_phases ∧
        ∀ (i : Nat) a m x, A[i]? = some a → M[i]? = some m → X[i]? = some x →
          ∃ y, Y[i]? = some y ∧ y.val = x.val * (a.val / m.val)) ∧
    (∀ X, phaseMolarEnthalpies (s0.update T P n) = some X →
      ∃ Y, phaseSpecificEnthalpies (s0.update T P n) = some Y ∧
        Y.length = s0.num_phases ∧
        ∀ (i : Nat) a m x, A[i]? = some a → M[i]? = some m → X[i]? = some x →
          ∃ y, Y[i]? = some y ∧ y.val = x.val * (a.val / m.val)) ∧
    (∀ X, phaseMolarVolumes (s0.update T P n) = some X →
      ∃ Y, phaseSpecificVolumes (s0.update T P n) = some Y ∧
        Y.length = s0.num_phases ∧
        ∀ (i : Nat) a m x, A[i]? = some a → M[i]? = some m → X[i]? = some x →
          ∃ y, Y[i]? = some y ∧ y.val = x.val * (a.val / m.val)) ∧
    (∀ X, phaseMolarEntropies (s0.update T P n) = some X →
      ∃ Y, phaseSpecificEntropies (s0.update T P n) = some Y ∧
        Y.length = s0.num_phases ∧
        ∀ (i : Nat) a m x, A[i]? = some a → M[i]? = some m → X[i]? = some x →
          ∃ y, Y[i]? = some y ∧ y.val = x.val * (a.val / m.val)) ∧
    (∀ X, phaseMolarInternalEnergies (s0.update T P n) = some X →
      ∃ Y, phaseSpecificInternalEnergies (s0.update T P n) = some Y ∧
        Y.length = s0.num_phases ∧
        ∀ (i : Nat) a m x, A[i]? = some a → M[i]? = some m → X[i]? = some x →
          ∃ y, Y[i]? = some y ∧ y.val = x.val * (a.val / m.val)) ∧
    (∀ X, phaseMolarHelmholtzEnergies (s0.update T P n) = some X →
      ∃ Y, phaseSpecificHelmholtzEnergies (s0.update T P n) = some Y ∧
        Y.length = s0.num_phases ∧
        ∀ (i : Nat) a m x, A[i]? = some a → M[i]? = some m → X[i]? = some x →
          ∃ y, Y[i]? = some y ∧ y.val = x.val * (a.val / m.val)) ∧
    (∀ X, phaseMolarHeatCapacitiesConstP (s0.update T P n) = some X →
      ∃ Y, phaseSpecificHeatCapacitiesConstP (s0.update T P n) = some Y ∧
        Y.length = s0.num_phases ∧
        ∀ (i : Nat) a m x, A[i]? = some a → M[i]? = some m → X[i]? = some x →
          ∃ y, Y[i]? = some y ∧ y.val = x.val * (a.val / m.val)) ∧
    (∀ X, phaseMolarHeatCapacitiesConstV (s0.update T P n) = some X →
      ∃ Y, phaseSpecificHeatCapacitiesConstV (s0.update T P n) = some Y ∧
        Y.length = s0.num_phases ∧
        ∀ (i : Nat) a m x, A[i]? = some a → M[i]? = some m → X[i]? = some x →
          ∃ y, Y[i]? = some y ∧ y.val = x.val * (a.val / m.val)) ∧
    (∀ p : PhaseChemicalProperties,
      p.specificGibbsEnergy.val = p.molarGibbsEnergy.val * (p.amount.val / p.mass.val) ∧
      p.specificEnthalpy.val = p.molarEnthalpy.val * (p.amount.val / p.mass.val) ∧
      p.specificVolume.val = p.molarVolume.val * (p.amount.val / p.mass.val) ∧
      p.specificEntropy.val = p.molarEntropy.val * (p.amount.val / p.mass.val) ∧
      p.specificInternalEnergy.val =
        p.molarInternalEnergy.val * (p.amount.val / p.mass.val) ∧
      p.specificHelmholtzEnergy.val =
        p.molarHelmholtzEnergy.val * (p.amount.val / p.mass.val) ∧
      p.specificHeatCapacityConstP.val =
        p.molarHeatCapacityConstP.val * (p.amount.val / p.mass.val) ∧
      p.specificHeatCapacityConstV.val =
        p.molarHeatCapacityConstV.val * (p.amount.val / p.mass.val)) := by
  refine ⟨fun X h => specificOf_val hA hM h (collectPhase_length h),
    fun X h => specificOf_val hA hM h (collectPhase_length h),
    fun X h => specificOf_val hA hM h (collectPhase_length h),
    fun X h => specificOf_val hA hM h (phaseMolarEntropies_length h),
    fun X h => specificOf_val hA hM h (phaseMolarInternalEnergies_length h),
    fun X h => specificOf_val hA hM h (phaseMolarHelmholtzEnergies_length h),
    fun X h => specificOf_val hA hM h (collectPhase_length h),
    fun X h => specificOf_val hA hM h (collectPhase_length h), ?_⟩
  intro p
  refine ⟨?_, ?_, ?_, ?_, ?_, ?_, ?_, ?_⟩ <;>
    simp only [PhaseChemicalProperties.specificGibbsEnergy,
      PhaseChemicalProperties.specificEnthalpy, PhaseChemicalProperties.specificVolume,
      PhaseChemicalProperties.specificEntropy, PhaseChemicalProperties.specificInternalEnergy,
      PhaseChemicalProperties.specificHelmholtzEnergy,
      PhaseChemicalProperties.specificHeatCapacityConstP,
      PhaseChemicalProperties.specificHeatCapacityConstV, PhaseChemicalProperties.amount,
      PhaseChemicalProperties.mass, ChemicalScalar.mul, ChemicalScalar.div] <;>
    ring

/-- C15: after `update(T, P, n)`, when the phase masses, amounts and molar volumes are
available, the phase densities and volumes exist and, at every phase `i`, the volume is
the amount times the molar volume, the density is the mass divided by the volume, and
`phaseDensities()[i] * phaseVolumes()[i] = phaseMasses()[i]` when the volume is not zero. -/
theorem phaseDensity_closure (s0 : Impl) (T P : ℚ) (n : List ℚ) (M A V : ChemicalVector)
    (hM : phaseMasses (s0.update T P n) = some M)
    (hA : phaseAmounts (s0.update T P n) = some A)
    (hV : phaseMolarVolumes (s0.update T P n) = some V) :
    ∃ D Vol, phaseDensities (s0.update T P n) = some D ∧
      phaseVolumes (s0.update T P n) = some Vol ∧
      D.length = s0.num_phases ∧ Vol.length = s0.num_phases ∧
      ∀ (i : Nat) m a v, M[i]? = some m → A[i]? = some a → V[i]? = some v →
        ∃ d vol, D[i]? = some d ∧ Vol[i]? = some vol ∧
          vol.val = a.val * v.val ∧ d.val = m.val / vol.val ∧
          (vol.val ≠ 0 → d.val * vol.val = m.val) := by
  have hMl : M.length = s0.num_phases := collectPhase_length (s := s0.update T P n) hM
  have hAl : A.length = s0.num_phases := collectPhase_length (s := s0.update T P n) hA
  have hVl : V.length = s0.num_phases := collectPhase_length (s := s0.update T P n) hV
  obtain ⟨Vol, hVol, hVoll, hVole⟩ := zipSame_entries ChemicalScalar.mul A V (by rw [hAl, hVl])
  obtain ⟨D, hD, hDl, hDe⟩ := zipSame_entries ChemicalScalar.div M Vol (by rw [hVoll, hAl, hMl])
  refine ⟨D, Vol, ?_, ?_, by rw [hDl, hMl], by rw [hVoll, hAl], ?_⟩
  · simp only [phaseDensities, hM, hA, hV, Option.some_bind, ChemicalVector.mul, hVol,
      ChemicalVector.div, hD]
  · simp only [phaseVolumes, hA, hV, Option.some_bind, ChemicalVector.mul, hVol]
  · intro i m a v hm ha hv
    have h1 := hVole i a v ha hv
    refine ⟨_, _, hDe i m _ hm h1, h1, rfl, rfl, ?_⟩
    intro hne
    exact div_mul_cancel₀ _ hne

/-- C16: after `update(T, P, n)`, when the phase amounts and molar volumes are
available, `volume()` and `phaseVolumes()` exist, the value of `volume()` is the sum
over all phases of the values of `phaseVolumes()`, and the value of `phaseVolumes()` at
every phase `i` is `phaseAmounts()[i] * phaseMolarVolumes()[i]`. -/
theorem volume_sum_of_phaseVolumes (s0 : Impl) (T P : ℚ) (n : List ℚ) (A V : ChemicalVector)
    (hA : phaseAmounts (s0.update T P n) = some A)
    (hV : phaseMolarVolumes (s0.update T P n) = some V) :
    ∃ Vol vol, phaseVolumes (s0.update T P n) = some Vol ∧
      volume (s0.update T P n) = some vol ∧
      Vol.length = s0.num_phases ∧
      vol.val = (Vol.map (·.val)).sum ∧
      ∀ (i : Nat) a v, A[i]? = some a → V[i]? = some v →
        ∃ x, Vol[i]? = some x ∧ x.val = a.val * v.val := by
  have hAl : A.length = s0.num_phases := collectPhase_length (s := s0.update T P n) hA
  have hVl : V.length = s0.num_phases := collectPhase_length (s := s0.update T P n) hV
  obtain ⟨Vol, hVol, hVoll, hVole⟩ := zipSame_entries ChemicalScalar.mul A V (by rw [hAl, hVl])
  refine ⟨Vol, ChemicalVector.sum (s0.update T P n).num_species Vol, ?_, ?_,
    by rw [hVoll, hAl], ChemicalVector.sum_val _ Vol, ?_⟩
  · simp only [phaseVolumes, hA, hV, Option.some_bind, ChemicalVector.mul, hVol]
  · simp only [volume, hA, hV, Option.some_bind, ChemicalVector.mul, hVol, Option.map_some']
  · intro i a v ha hv
    exact ⟨_, hVole i a v ha hv, rfl⟩

/-- The phase molar enthalpies of the example state. -/
theorem exampleState_phaseMolarEnthalpies :
    phaseMolarEnthalpies exampleState =
      some [⟨2, 0, 1, [0, 0, 0]⟩, ⟨4, 0, 2, [0, -1, 1]⟩] := by
  simp [exampleState, exampleSystem, exampleThermoModel,
    phaseMolarEnthalpies, collectPhase, forPhases, update, ofSystem,
    ChemicalSystem.numPhases, ChemicalSystem.numSpecies, ChemicalSystem.numSpeciesInPhase,
    fractionWeightedSum, rows, setRows, ChemicalVector.setRow, ChemicalVector.zeros,
    ChemicalScalar.zero, Reaktoro.molarFractions, ChemicalVector.mulThermo, zipSame,
    ChemicalVector.sum, ChemicalScalar.add, ChemicalScalar.mulThermo, List.enum,
    List.enumFrom, List.range, List.range.loop, List.replicate]
  norm_num

/-- Witness of C11 on the second phase of the example state. -/
theorem phaseMolar_identities_witness :
    phaseMolarGibbsEnergies ((ofSystem exampleSystem).update 300 2 [5, 1, 1]) =
        some [⟨300, 1, 0, [0, 0, 0]⟩, ⟨450, 3/2, 0, [0, -75, 75]⟩] ∧
      phaseMolarEnthalpies ((ofSystem exampleSystem).update 300 2 [5, 1, 1]) =
        some [⟨2, 0, 1, [0, 0, 0]⟩, ⟨4, 0, 2, [0, -1, 1]⟩] ∧
      phaseMolarVolumes ((ofSystem exampleSystem).update 300 2 [5, 1, 1]) =
        some [⟨7, 1, 2, [7, 0, 0]⟩, ⟨5, 2, 3, [0, -1/2, 1/2]⟩] ∧
      ∃ S U A, phaseMolarEntropies ((ofSystem exampleSystem).update 300 2 [5, 1, 1]) = some S ∧
        phaseMolarInternalEnergies ((ofSystem exampleSystem).update 300 2 [5, 1, 1]) = some U ∧
        phaseMolarHelmholtzEnergies ((ofSystem exampleSystem).update 300 2 [5, 1, 1]) = some A ∧
        ∃ e u a, S[1]? = some e ∧ U[1]? = some u ∧ A[1]? = some a ∧
          e.val = (4 - 450) / 300 ∧ u.val = 4 - 2 * 5 ∧ a.val = 450 - 2 * 5 := by
  obtain ⟨⟨S, U, A, h1, h2, h3, -, -, -, -, -, -, h4⟩, -⟩ :=
    phaseMolar_identities (ofSystem exampleSystem) 300 2 [5, 1, 1] _ _ _
      exampleState_phaseMolarGibbsEnergies exampleState_phaseMolarEnthalpies
      exampleState_phaseMolarVolumes
  exact ⟨exampleState_phaseMolarGibbsEnergies, exampleState_phaseMolarEnthalpies,
    exampleState_phaseMolarVolumes, S, U, A, h1, h2, h3, h4 1 _ _ _ rfl rfl rfl⟩

/-- Witness of C14 on the second phase of the example state. -/
theorem phaseSpecific_val_witness :
    phaseAmounts ((ofSystem exampleSystem).update 300 2 [5, 1, 1]) =
        some [⟨5, 0, 0, [1, 0, 0]⟩, ⟨2, 0, 0, [0, 1, 1]⟩] ∧
      phaseMasses ((ofSystem exampleSystem).update 300 2 [5, 1, 1]) =
        some [⟨5, 0, 0, [1, 0, 0]⟩, ⟨5, 0, 0, [0, 2, 3]⟩] ∧
      ∃ Y, phaseSpecificGibbsEnergies ((ofSystem exampleSystem).update 300 2 [5, 1, 1]) =
          some Y ∧
        ∃ y, Y[1]? = some y ∧ y.val = 450 * (2 / 5) := by
  obtain ⟨Y, h1, -, h2⟩ :=
    (phaseSpecific_val (ofSystem exampleSystem) 300 2 [5, 1, 1] _ _
      exampleState_phaseAmounts exampleState_phaseMasses).1 _
      exampleState_phaseMolarGibbsEnergies
  exact ⟨exampleState_phaseAmounts, exampleState_phaseMasses, Y, h1, h2 1 _ _ _ rfl rfl rfl⟩

/-- Witness of C15 on the second phase of the example state. -/
theorem phaseDensity_closure_witness :
    phaseMasses ((ofSystem exampleSystem).update 300 2 [5, 1, 1]) =
        some [⟨5, 0, 0, [1, 0, 0]⟩, ⟨5, 0, 0, [0, 2, 3]⟩] ∧
      phaseAmounts ((ofSystem exampleSystem).update 300 2 [5, 1, 1]) =
        some [⟨5, 0, 0, [1, 0, 0]⟩, ⟨2, 0, 0, [0, 1, 1]⟩] ∧
      phaseMolarVolumes ((ofSystem exampleSystem).update 300 2 [5, 1, 1]) =
        some [⟨7, 1, 2, [7, 0, 0]⟩, ⟨5, 2, 3, [0, -1/2, 1/2]⟩] ∧
      ∃ D Vol, phaseDensities ((ofSystem exampleSystem).update 300 2 [5, 1, 1]) = some D ∧
        phaseVolumes ((ofSystem exampleSystem).update 300 2 [5, 1, 1]) = some Vol ∧
        ∃ d vol, D[1]? = some d ∧ Vol[1]? = some vol ∧ vol.val = 2 * 5 ∧
          d.val = 5 / vol.val ∧ (vol.val ≠ 0 → d.val * vol.val = 5) := by
  obtain ⟨D, Vol, h1, h2, -, -, h3⟩ :=
    phaseDensity_closure (ofSystem exampleSystem) 300 2 [5, 1, 1] _ _ _
      exampleState_phaseMasses exampleState_phaseAmounts exampleState_phaseMolarVolumes
  exact ⟨exampleState_phaseMasses, exampleState_phaseAmounts, exampleState_phaseMolarVolumes,
    D, Vol, h1, h2, h3 1 _ _ _ rfl rfl rfl⟩

/-- Witness of C16 on the example state. -/
theorem volume_sum_of_phaseVolumes_witness :
    phaseAmounts ((ofSystem exampleSystem).update 300 2 [5, 1, 1]) =
        some [⟨5, 0, 0, [1, 0, 0]⟩, ⟨2, 0, 0, [0, 1, 1]⟩] ∧
      phaseMolarVolumes ((ofSystem exampleSystem).update 300 2 [5, 1, 1]) =
        some [⟨7, 1, 2, [7, 0, 0]⟩, ⟨5, 2, 3, [0, -1/2, 1/2]⟩] ∧
      ∃ Vol vol, phaseVolumes ((ofSystem exampleSystem).update 300 2 [5, 1, 1]) = some Vol ∧
        volume ((ofSystem exampleSystem).update 300 2 [5, 1, 1]) = some vol ∧
        Vol.length = 2 ∧ vol.val = (Vol.map (·.val)).sum ∧
        ∃ x, Vol[0]? = some x ∧ x.val = 5 * 7 := by
  obtain ⟨Vol, vol, h1, h2, h3, h4, h5⟩ :=
    volume_sum_of_phaseVolumes (ofSystem exampleSystem) 300 2 [5, 1, 1] _ _
      exampleState_phaseAmounts exampleState_phaseMolarVolumes
  exact ⟨exampleState_phaseAmounts, exampleState_phaseMolarVolumes, Vol, vol, h1, h2, h3, h4,
    h5 0 _ _ rfl rfl⟩

/-- C21: after `update(T, P, n)` the accessors return the stored arguments,
`temperature() = T`, `pressure() = P`, `composition() = n`, and the stored model
results are `thermoModel(T, P)` and `chemicalModel(T, P, n)`; after `update(T, P)`,
`temperature() = T`, `pressure() = P` and the stored thermo model results are
`thermoModel(T, P)`. -/
theorem update_stores_arguments (s : Impl) (T P : ℚ) (n : List ℚ) :
    temperature (s.update T P n) = T ∧
    pressure (s.update T P n) = P ∧
    composition (s.update T P n) = n ∧
    (s.update T P n).tres = s.system.thermoModel T P ∧
    (s.update T P n).cres = s.system.chemicalModel T P n ∧
    temperature (s.updateTP T P) = T ∧
    pressure (s.updateTP T P) = P ∧
    (s.updateTP T P).tres = s.system.thermoModel T P :=
  ⟨rfl, rfl, rfl, rfl, rfl, rfl, rfl, rfl⟩

/-- C22: `update` is idempotent: applying `update(T, P, n)` twice in a row leaves the
state that one application leaves, so every function of the state, in particular every
derived-property accessor, returns the same result after the second call as after the
first; likewise for `update(T, P)`. -/
theorem update_idempotent (s : Impl) (T P : ℚ) (n : List ℚ) :
    (s.update T P n).update T P n = s.update T P n ∧
    (s.updateTP T P).updateTP T P = s.updateTP T P ∧
    (∀ (α : Type) (accessor : Impl → α),
      accessor ((s.update T P n).update T P n) = accessor (s.update T P n)) ∧
    (∀ (α : Type) (accessor : Impl → α),
      accessor ((s.updateTP T P).updateTP T P) = accessor (s.updateTP T P)) :=
  ⟨rfl, rfl, fun _ _ => rfl, fun _ _ => rfl⟩

/-- The loop reads the state only through the chemical system. -/
theorem forPhases_congr {α : Type} (s s' : Impl) (h : s.system = s'.system)
    (body : Nat → Nat → Nat → α → Option α) :
    ∀ (k i offset : Nat) (res : α),
      forPhases s body k i offset res = forPhases s' body k i offset res := by
  intro k
  induction k with
  | zero => intro i offset res; rfl
  | succ k ih =>
    intro i offset res
    simp only [forPhases, h, ih]

/-- C30: `update(T, P)` changes only the stored temperature, pressure and thermo model
results; the stored composition and chemical model results stay as they were, so after
`update(T1, P1, n1)` followed by `update(T2, P2)`, `composition()` is still `n1` and
`lnActivities()` and `lnActivityCoefficients()` are those computed at `(T1, P1, n1)`. -/
theorem updateTP_frame (s : Impl) (T1 P1 : ℚ) (n1 : List ℚ) (T2 P2 : ℚ) :
    ((s.updateTP T2 P2).n = s.n ∧ (s.updateTP T2 P2).cres = s.cres ∧
      (s.updateTP T2 P2).system = s.system ∧
      (s.updateTP T2 P2).num_species = s.num_species ∧
      (s.updateTP T2 P2).num_phases = s.num_phases) ∧
    composition ((s.update T1 P1 n1).updateTP T2 P2) = n1 ∧
    ((s.update T1 P1 n1).updateTP T2 P2).cres = s.system.chemicalModel T1 P1 n1 ∧
    lnActivities ((s.update T1 P1 n1).updateTP T2 P2) = lnActivities (s.update T1 P1 n1) ∧
    lnActivityCoefficients ((s.update T1 P1 n1).updateTP T2 P2) =
      lnActivityCoefficients (s.update T1 P1 n1) := by
  refine ⟨⟨rfl, rfl, rfl, rfl, rfl⟩, rfl, rfl, ?_, ?_⟩
  · exact forPhases_congr ((s.update T1 P1 n1).updateTP T2 P2) (s.update T1 P1 n1) rfl _ _ _ _ _
  · exact forPhases_congr ((s.update T1 P1 n1).updateTP T2 P2) (s.update T1 P1 n1) rfl _ _ _ _ _

/-- C24: in a default-constructed state (`num_species = 0`, `num_phases = 0`, no update
called) every species-level and phase-level vector accessor returns the empty vector,
whatever the stored model results hold (no model result is read), and `volume()`
returns a scalar of value zero. -/
theorem default_accessors_empty (R : ℚ) (tres : ThermoModelResult)
    (cres : ChemicalModelResult) :
    Impl.default.num_species = 0 ∧ Impl.default.num_phases = 0 ∧
    molarFractions { Impl.default with tres := tres, cres := cres } = some [] ∧
    lnActivityCoefficients { Impl.default with tres := tres, cres := cres } = some [] ∧
    lnActivityConstants { Impl.default with tres := tres, cres := cres } = some [] ∧
    lnActivities { Impl.default with tres := tres, cres := cres } = some [] ∧
    chemicalPotentials R { Impl.default with tres := tres, cres := cres } = some [] ∧
    standardPartialMolarGibbsEnergies { Impl.default with tres := tres, cres := cres }
      = some [] ∧
    standardPartialMolarEnthalpies { Impl.default with tres := tres, cres := cres }
      = some [] ∧
    standardPartialMolarVolumes { Impl.default with tres := tres, cres := cres } = some [] ∧
    standardPartialMolarEntropies { Impl.default with tres := tres, cres := cres }
      = some [] ∧
    standardPartialMolarInternalEnergies { Impl.default with tres := tres, cres := cres }
      = some [] ∧
    standardPartialMolarHelmholtzEnergies { Impl.default with tres := tres, cres := cres }
      = some [] ∧
    standardPartialMolarHeatCapacitiesConstP { Impl.default with tres := tres, cres := cres }
      = some [] ∧
    standardPartialMolarHeatCapacitiesConstV { Impl.default with tres := tres, cres := cres }
      = some [] ∧
    phaseMolarGibbsEnergies { Impl.default with tres := tres, cres := cres } = some [] ∧
    phaseMolarEnthalpies { Impl.default with tres := tres, cres := cres } = some [] ∧
    phaseMolarVolumes { Impl.default with tres := tres, cres := cres } = some [] ∧
    phaseMolarEntropies { Impl.default with tres := tres, cres := cres } = some [] ∧
    phaseMolarInternalEnergies { Impl.default with tres := tres, cres := cres } = some [] ∧
    phaseMolarHelmholtzEnergies { Impl.default with tres := tres, cres := cres } = some [] ∧
    phaseMolarHeatCapacitiesConstP { Impl.default with tres := tres, cres := cres }
      = some [] ∧
    phaseMolarHeatCapacitiesConstV { Impl.default with tres := tres, cres := cres }
      = some [] ∧
    phaseSpecificGibbsEnergies { Impl.default with tres := tres, cres := cres } = some [] ∧
    phaseSpecificEnthalpies { Impl.default with tres := tres, cres := cres } = some [] ∧
    phaseSpecificVolumes { Impl.default with tres := tres, cres := cres } = some [] ∧
    phaseSpecificEntropies { Impl.default with tres := tres, cres := cres } = some [] ∧
    phaseSpecificInternalEnergies { Impl.default with tres := tres, cres := cres }
      = some [] ∧
    phaseSpecificHelmholtzEnergies { Impl.default with tres := tres, cres := cres }
      = some [] ∧
    phaseSpecificHeatCapacitiesConstP { Impl.default with tres := tres, cres := cres }
      = some [] ∧
    phaseSpecificHeatCapacitiesConstV { Impl.default with tres := tres, cres := cres }
      = some [] ∧
    phaseDensities { Impl.default with tres := tres, cres := cres } = some [] ∧
    phaseMasses { Impl.default with tres := tres, cres := cres } = some [] ∧
    phaseAmounts { Impl.default with tres := tres, cres := cres } = some [] ∧
    phaseVolumes { Impl.default with tres := tres, cres := cres } = some [] ∧
    (∃ v, volume { Impl.default with tres := tres, cres := cres } = some v ∧ v.val = 0 ∧
      v.ddT = 0 ∧ v.ddP = 0 ∧ v.ddn = []) :=
  ⟨rfl, rfl, rfl, rfl, rfl, rfl, rfl, rfl, rfl, rfl, rfl, rfl, rfl, rfl, rfl, rfl, rfl, rfl, rfl,
    rfl, rfl, rfl, rfl, rfl, rfl, rfl, rfl, rfl, rfl, rfl, rfl, rfl, rfl, rfl, rfl,
    ⟨_, rfl, rfl, rfl, rfl, rfl⟩⟩

/-- A loop whose first iteration fails, fails. -/
theorem forPhases_first_none {α : Type} (s : Impl) (body : Nat → Nat → Nat → α → Option α)
    (k size : Nat) (res : α) (hsize : s.system.numSpeciesInPhase 0 = some size)
    (hbody : body 0 0 size res = none) :
    forPhases s body (k + 1) 0 0 res = none := by
  simp only [forPhases, hsize, Option.some_bind, hbody, Option.none_bind]

/-- C23, counterexample: on the example system, which has two phases, the accessors
queried before any update do not yield values. -/
theorem accessors_before_update_fail :
    standardPartialMolarGibbsEnergies (ofSystem exampleSystem) = none ∧
    lnActivities (ofSystem exampleSystem) = none ∧
    phaseMolarVolumes (ofSystem exampleSystem) = none :=
  ⟨rfl, rfl, rfl⟩

/-- C23, amended: for a state constructed from a chemical system on which no update
has been called, `standardPartialMolarGibbsEnergies()`, `lnActivities()` and
`phaseMolarVolumes()` yield empty vectors when the system has no phases; when the
system has at least one phase they index the model results, which are still empty, and
yield no value. -/
theorem accessors_before_update (sys : ChemicalSystem) :
    (sys.phases = [] →
      standardPartialMolarGibbsEnergies (ofSystem sys) = some [] ∧
      lnActivities (ofSystem sys) = some [] ∧
      phaseMolarVolumes (ofSystem sys) = some []) ∧
    (sys.phases ≠ [] →
      standardPartialMolarGibbsEnergies (ofSystem sys) = none ∧
      lnActivities (ofSystem sys) = none ∧
      phaseMolarVolumes (ofSystem sys) = none) := by
  constructor
  · intro h
    simp [standardPartialMolarGibbsEnergies, lnActivities, phaseMolarVolumes, collectThermo,
      collectChemical, collectPhase, ofSystem, ChemicalSystem.numPhases,
      ChemicalSystem.numSpecies, h, forPhases, ThermoVector.zeros, ChemicalVector.zeros]
  · intro h
    obtain ⟨a, rest, hp⟩ := List.exists_cons_of_ne_nil h
    have hk : (ofSystem sys).num_phases = rest.length + 1 := by
      simp [ofSystem, ChemicalSystem.numPhases, hp]
    have hsize : (ofSystem sys).system.numSpeciesInPhase 0 = some a := by
      simp [ofSystem, ChemicalSystem.numSpeciesInPhase, hp]
    refine ⟨?_, ?_, ?_⟩
    · unfold standardPartialMolarGibbsEnergies collectThermo
      rw [hk]
      exact forPhases_first_none _ _ _ a _ hsize rfl
    · unfold lnActivities collectChemical
      rw [hk]
      exact forPhases_first_none _ _ _ a _ hsize rfl
    · unfold phaseMolarVolumes collectPhase
      rw [hk]
      exact forPhases_first_none _ _ _ a _ hsize rfl

/-- Witness of the amended C23: the empty system and the example system. -/
theorem accessors_before_update_witness :
    (ChemicalSystem.empty.phases = [] ∧
      standardPartialMolarGibbsEnergies (ofSystem ChemicalSystem.empty) = some [] ∧
      lnActivities (ofSystem ChemicalSystem.empty) = some [] ∧
      phaseMolarVolumes (ofSystem ChemicalSystem.empty) = some []) ∧
    (exampleSystem.phases ≠ [] ∧
      standardPartialMolarGibbsEnergies (ofSystem exampleSystem) = none ∧
      lnActivities (ofSystem exampleSystem) = none ∧
      phaseMolarVolumes (ofSystem exampleSystem) = none) :=
  ⟨⟨rfl, (accessors_before_update ChemicalSystem.empty).1 rfl⟩,
    ⟨by decide, (accessors_before_update exampleSystem).2 (by decide)⟩⟩

/-- C29: after `update(T, P, n)` the stored temperature is the variable `T` itself
(`dT/dT = 1`, `dT/dP = 0`), and the derivatives of every entry of
`chemicalPotentials()` are the product-rule derivatives of `G0 + R*T*lna`: the
T-partial is `dG0_j/dT + R*lna_j + R*T*dlna_j/dT`, the P-partial is
`dG0_j/dP + R*T*dlna_j/dP`, and the partial with respect to each amount `n_k` is
`R*T*dlna_j/dn_k`. -/
theorem chemicalPotentials_derivatives (R : ℚ) (s0 : Impl) (T P : ℚ) (n : List ℚ)
    (G : ThermoVector) (lna : ChemicalVector)
    (hG : standardPartialMolarGibbsEnergies (s0.update T P n) = some G)
    (hlna : lnActivities (s0.update T P n) = some lna) :
    (s0.update T P n).T.val = T ∧ (s0.update T P n).T.ddT = 1 ∧
    (s0.update T P n).T.ddP = 0 ∧
    ∃ mu, chemicalPotentials R (s0.update T P n) = some mu ∧
      mu.length = s0.num_species ∧
      ∀ (j : Nat) g a, G[j]? = some g → lna[j]? = some a →
        ∃ m, mu[j]? = some m ∧
          m.ddT = g.ddT + R * a.val + R * T * a.ddT ∧
          m.ddP = g.ddP + R * T * a.ddP ∧
          m.ddn.length = a.ddn.length ∧
          ∀ (k : Nat) d, a.ddn[k]? = some d → m.ddn[k]? = some (R * T * d) := by
  have hGl : G.length = s0.num_species := collectThermo_length (s := s0.update T P n) hG
  have hll : lna.length = s0.num_species := collectChemical_length (s := s0.update T P n) hlna
  refine ⟨rfl, rfl, rfl, ?_⟩
  obtain ⟨mu, hmu, hlen, hent⟩ := zipSame_entries ChemicalScalar.thermoAdd G
    (ChemicalVector.scalarMul (ThermoScalar.scale R (s0.update T P n).T) lna)
    (by simp [ChemicalVector.scalarMul, hGl, hll])
  refine ⟨mu, ?_, by rw [hlen, hGl], ?_⟩
  · simp only [chemicalPotentials, hG, hlna, Option.some_bind]
    exact hmu
  · intro j g a hg ha
    refine ⟨_, hent j g _ hg (by simp [ChemicalVector.scalarMul, ha]; rfl), ?_, ?_, ?_, ?_⟩
    · simp [ChemicalScalar.thermoAdd, ChemicalScalar.thermoMul, ThermoScalar.scale, update,
        Temperature]
      ring
    · simp [ChemicalScalar.thermoAdd, ChemicalScalar.thermoMul, ThermoScalar.scale, update,
        Temperature]
    · simp [ChemicalScalar.thermoAdd, ChemicalScalar.thermoMul]
    · intro k d hd
      simp [ChemicalScalar.thermoAdd, ChemicalScalar.thermoMul, ThermoScalar.scale, update,
        Temperature, hd]

/-- Witness of C29 on the example state with `R = 8`, at the third species. -/
theorem chemicalPotentials_derivatives_witness :
    standardPartialMolarGibbsEnergies ((ofSystem exampleSystem).update 300 2 [5, 1, 1]) =
        some [⟨300, 1, 0⟩, ⟨300, 1, 0⟩, ⟨600, 2, 0⟩] ∧
      lnActivities ((ofSystem exampleSystem).update 300 2 [5, 1, 1]) =
        some [⟨300, 1, 0, [2, 0, 0]⟩, ⟨2, 0, 1, [0, 1, 2]⟩, ⟨302, 1, 1, [0, 3, 4]⟩] ∧
      ∃ mu, chemicalPotentials 8 ((ofSystem exampleSystem).update 300 2 [5, 1, 1]) = some mu ∧
        ∃ m, mu[2]? = some m ∧
          m.ddT = 2 + 8 * 302 + 8 * 300 * 1 ∧
          m.ddP = 0 + 8 * 300 * 1 ∧
          m.ddn.length = 3 ∧
          m.ddn[1]? = some (8 * 300 * 3) := by
  obtain ⟨-, -, -, mu, h1, -, h3⟩ :=
    chemicalPotentials_derivatives 8 (ofSystem exampleSystem) 300 2 [5, 1, 1] _ _
      exampleState_gibbs exampleState_lnActivities
  obtain ⟨m, hm, hT, hP, hl, hn⟩ := h3 2 _ _ rfl rfl
  exact ⟨exampleState_gibbs, exampleState_lnActivities, mu, h1, m, hm, hT, hP, hl,
    hn 1 3 rfl⟩

/-- C32: after `update(T, P, n)`, when the phase amounts, masses and molar volumes are
available, the phase specific volumes and densities exist and, at every phase `i`
whose amount, mass and molar volume are not zero, the value of
`phaseSpecificVolumes()[i]` times the value of `phaseDensities()[i]` is `1`; the
differentiable product has zero `T` and `P` partials and zero partials with respect
to the amounts, as the constant `1` has. -/
theorem specificVolume_density_reciprocal (s0 : Impl) (T P : ℚ) (n : List ℚ)
    (A M V : ChemicalVector)
    (hA : phaseAmounts (s0.update T P n) = some A)
    (hM : phaseMasses (s0.update T P n) = some M)
    (hV : phaseMolarVolumes (s0.update T P n) = some V) :
    ∃ SV D, phaseSpecificVolumes (s0.update T P n) = some SV ∧
      phaseDensities (s0.update T P n) = some D ∧
      SV.length = s0.num_phases ∧ D.length = s0.num_phases ∧
      ∀ (i : Nat) a m v, A[i]? = some a → M[i]? = some m → V[i]? = some v →
        a.val ≠ 0 → m.val ≠ 0 → v.val ≠ 0 →
        ∃ sv d, SV[i]? = some sv ∧ D[i]? = some d ∧ sv.val * d.val = 1 ∧
          d.val = 1 / sv.val ∧
          (ChemicalScalar.mul sv d).ddT = 0 ∧ (ChemicalScalar.mul sv d).ddP = 0 ∧
          ∀ (k : Nat) x, (ChemicalScalar.mul sv d).ddn[k]? = some x → x = 0 := by
  have hMl : M.length = s0.num_phases := collectPhase_length (s := s0.update T P n) hM
  have hAl : A.length = s0.num_phases := collectPhase_length (s := s0.update T P n) hA
  have hVl : V.length = s0.num_phases := collectPhase_length (s := s0.update T P n) hV
  obtain ⟨q, hq, hql, hqe⟩ := zipSame_entries ChemicalScalar.div A M (by rw [hAl, hMl])
  obtain ⟨SV, hSV, hSVl, hSVe⟩ := zipSame_entries ChemicalScalar.mul q V (by rw [hql, hAl, hVl])
  obtain ⟨Vol, hVol, hVoll, hVole⟩ := zipSame_entries ChemicalScalar.mul A V (by rw [hAl, hVl])
  obtain ⟨D, hD, hDl, hDe⟩ := zipSame_entries ChemicalScalar.div M Vol (by rw [hVoll, hAl, hMl])
  refine ⟨SV, D, ?_, ?_, by rw [hSVl, hql, hAl], by rw [hDl, hMl], ?_⟩
  · simp only [phaseSpecificVolumes, specificOf, hA, hM, hV, Option.some_bind,
      ChemicalVector.div, hq, ChemicalVector.mul, hSV]
  · simp only [phaseDensities, hM, hA, hV, Option.some_bind, ChemicalVector.mul, hVol,
      ChemicalVector.div, hD]
  · intro i a m v ha hm hv hane hmne hvne
    refine ⟨_, _, hSVe i _ v (hqe i a m ha hm) hv, hDe i m _ hm (hVole i a v ha hv),
      ?_, ?_, ?_, ?_, ?_⟩
    · simp only [ChemicalScalar.mul, ChemicalScalar.div]
      field_simp
    · simp only [ChemicalScalar.mul, ChemicalScalar.div]
      field_simp
    · simp only [ChemicalScalar.mul, ChemicalScalar.div]
      field_simp
      ring
    · simp only [ChemicalScalar.mul, ChemicalScalar.div]
      field_simp
      ring
    · intro k x hx
      simp only [ChemicalScalar.mul, ChemicalScalar.div, List.getElem?_zipWith] at hx
      cases hak : a.ddn[k]? with
      | none => simp [hak] at hx
      | some da =>
        cases hmk : m.ddn[k]? with
        | none => simp [hak, hmk] at hx
        | some dm =>
          cases hvk : v.ddn[k]? with
          | none => simp [hak, hmk, hvk] at hx
          | some dv =>
            simp only [hak, hmk, hvk, Option.some.injEq] at hx
            rw [← hx]
            field_simp
            ring

/-- Witness of C32 on the second phase of the example state. -/
theorem specificVolume_density_reciprocal_witness :
    phaseAmounts ((ofSystem exampleSystem).update 300 2 [5, 1, 1]) =
        some [⟨5, 0, 0, [1, 0, 0]⟩, ⟨2, 0, 0, [0, 1, 1]⟩] ∧
      phaseMasses ((ofSystem exampleSystem).update 300 2 [5, 1, 1]) =
        some [⟨5, 0, 0, [1, 0, 0]⟩, ⟨5, 0, 0, [0, 2, 3]⟩] ∧
      phaseMolarVolumes ((ofSystem exampleSystem).update 300 2 [5, 1, 1]) =
        some [⟨7, 1, 2, [7, 0, 0]⟩, ⟨5, 2, 3, [0, -1/2, 1/2]⟩] ∧
      ∃ SV D, phaseSpecificVolumes ((ofSystem exampleSystem).update 300 2 [5, 1, 1]) =
          some SV ∧
        phaseDensities ((ofSystem exampleSystem).update 300 2 [5, 1, 1]) = some D ∧
        ∃ sv d, SV[1]? = some sv ∧ D[1]? = some d ∧ sv.val * d.val = 1 := by
  obtain ⟨SV, D, h1, h2, -, -, h3⟩ :=
    specificVolume_density_reciprocal (ofSystem exampleSystem) 300 2 [5, 1, 1] _ _ _
      exampleState_phaseAmounts exampleState_phaseMasses exampleState_phaseMolarVolumes
  obtain ⟨sv, d, h4, h5, h6, -⟩ := h3 1 ⟨2, 0, 0, [0, 1, 1]⟩ ⟨5, 0, 0, [0, 2, 3]⟩
    ⟨5, 2, 3, [0, -1/2, 1/2]⟩ rfl rfl rfl (by norm_num) (by norm_num) (by norm_num)
  exact ⟨exampleState_phaseAmounts, exampleState_phaseMasses, exampleState_phaseMolarVolumes,
    SV, D, h1, h2, sv, d, h4, h5, h6⟩

/-- C33: in every state, for every phase `i`, a `PhaseChemicalProperties` record that
holds the temperature and pressure of the state and, as its phase amount, mass, molar
volume, molar Gibbs energy and molar enthalpy, the rows at `i` of `phaseAmounts()`,
`phaseMasses()`, `phaseMolarVolumes()`, `phaseMolarGibbsEnergies()` and
`phaseMolarEnthalpies()`, has a `volume()`, `density()`, `molarEntropy()`,
`molarInternalEnergy()`, `molarHelmholtzEnergy()` and `specificVolume()` that are the
rows at `i` of `phaseVolumes()`, `phaseDensities()`, `phaseMolarEntropies()`,
`phaseMolarInternalEnergies()`, `phaseMolarHelmholtzEnergies()` and
`phaseSpecificVolumes()`: the same values and the same partials. -/
theorem phaseRecord_agrees (s : Impl) (p : PhaseChemicalProperties) (i : Nat)
    (A M V G H : ChemicalVector)
    (hA : phaseAmounts s = some A) (hM : phaseMasses s = some M)
    (hV : phaseMolarVolumes s = some V) (hG : phaseMolarGibbsEnergies s = some G)
    (hH : phaseMolarEnthalpies s = some H)
    (hT : p.T = s.T) (hP : p.P = s.P)
    (hpa : A[i]? = some p.phase_amount) (hpm : M[i]? = some p.phase_mass)
    (hpv : V[i]? = some p.phase_molar_volume)
    (hpg : G[i]? = some p.phase_molar_gibbs_energy)
    (hph : H[i]? = some p.phase_molar_enthalpy) :
    (∃ Vol, phaseVolumes s = some Vol ∧ Vol[i]? = some p.volume) ∧
    (∃ D, phaseDensities s = some D ∧ D[i]? = some p.density) ∧
    (∃ S, phaseMolarEntropies s = some S ∧ S[i]? = some p.molarEntropy) ∧
    (∃ U, phaseMolarInternalEnergies s = some U ∧ U[i]? = some p.molarInternalEnergy) ∧
    (∃ F, phaseMolarHelmholtzEnergies s = some F ∧ F[i]? = some p.molarHelmholtzEnergy) ∧
    (∃ SV, phaseSpecificVolumes s = some SV ∧ SV[i]? = some p.specificVolume) := by
  have hAl : A.length = s.num_phases := collectPhase_length hA
  have hMl : M.length = s.num_phases := collectPhase_length hM
  have hVl : V.length = s.num_phases := collectPhase_length hV
  have hGl : G.length = s.num_phases := collectPhase_length hG
  have hHl : H.length = s.num_phases := collectPhase_length hH
  obtain ⟨Vol, hVol, hVoll, hVole⟩ := zipSame_entries ChemicalScalar.mul A V (by rw [hAl, hVl])
  obtain ⟨D, hD, -, hDe⟩ := zipSame_entries ChemicalScalar.div M Vol (by rw [hVoll, hAl, hMl])
  obtain ⟨HG, hHG, -, hHGe⟩ := zipSame_entries ChemicalScalar.sub H G (by rw [hHl, hGl])
  obtain ⟨U, hU, -, hUe⟩ := zipSame_entries ChemicalScalar.sub H
    (ChemicalVector.scalarMul s.P V) (by simp [ChemicalVector.scalarMul, hHl, hVl])
  obtain ⟨F, hF, -, hFe⟩ := zipSame_entries ChemicalScalar.sub G
    (ChemicalVector.scalarMul s.P V) (by simp [ChemicalVector.scalarMul, hGl, hVl])
  obtain ⟨q, hq, hql, hqe⟩ := zipSame_entries ChemicalScalar.div A M (by rw [hAl, hMl])
  obtain ⟨SV, hSV, -, hSVe⟩ := zipSame_entries ChemicalScalar.mul q V (by rw [hql, hAl, hVl])
  have hPV : (ChemicalVector.scalarMul s.P V)[i]? =
      some (ChemicalScalar.thermoMul s.P p.phase_molar_volume) := by
    simp [ChemicalVector.scalarMul, hpv]
  refine ⟨⟨Vol, ?_, hVole i _ _ hpa hpv⟩, ⟨D, ?_, hDe i _ _ hpm (hVole i _ _ hpa hpv)⟩,
    ⟨ChemicalVector.divScalar HG s.T, ?_, ?_⟩, ⟨U, ?_, ?_⟩, ⟨F, ?_, ?_⟩,
    ⟨SV, ?_, hSVe i _ _ (hqe i _ _ hpa hpm) hpv⟩⟩
  · simp only [phaseVolumes, hA, hV, Option.some_bind, ChemicalVector.mul, hVol]
  · simp only [phaseDensities, hM, hA, hV, Option.some_bind, ChemicalVector.mul, hVol,
      ChemicalVector.div, hD]
  · simp only [phaseMolarEntropies, hG, hH, Option.some_bind, ChemicalVector.sub, hHG,
      Option.map_some']
  · simp only [ChemicalVector.divScalar, List.getElem?_map, hHGe i _ _ hph hpg,
      Option.map_some', PhaseChemicalProperties.molarEntropy, hT]
  · simp only [phaseMolarInternalEnergies, hH, hV, Option.some_bind, ChemicalVector.sub, hU]
  · rw [hUe i _ _ hph hPV, PhaseChemicalProperties.molarInternalEnergy, hP]
  · simp only [phaseMolarHelmholtzEnergies, hG, hV, Option.some_bind, ChemicalVector.sub, hF]
  · rw [hFe i _ _ hpg hPV, PhaseChemicalProperties.molarHelmholtzEnergy, hP]
  · simp only [phaseSpecificVolumes, specificOf, hA, hM, hV, Option.some_bind,
      ChemicalVector.div, hq, ChemicalVector.mul, hSV]

/-- Witness of C33 on the record of the second phase of the example state. -/
theorem phaseRecord_agrees_witness :
    examplePhaseRecord.T = ((ofSystem exampleSystem).update 300 2 [5, 1, 1]).T ∧
    examplePhaseRecord.P = ((ofSystem exampleSystem).update 300 2 [5, 1, 1]).P ∧
    (∃ Vol, phaseVolumes ((ofSystem exampleSystem).update 300 2 [5, 1, 1]) = some Vol ∧
      Vol[1]? = some examplePhaseRecord.volume) ∧
    (∃ D, phaseDensities ((ofSystem exampleSystem).update 300 2 [5, 1, 1]) = some D ∧
      D[1]? = some examplePhaseRecord.density) ∧
    (∃ S, phaseMolarEntropies ((ofSystem exampleSystem).update 300 2 [5, 1, 1]) = some S ∧
      S[1]? = some examplePhaseRecord.molarEntropy) ∧
    (∃ U, phaseMolarInternalEnergies ((ofSystem exampleSystem).update 300 2 [5, 1, 1]) =
        some U ∧ U[1]? = some examplePhaseRecord.molarInternalEnergy) ∧
    (∃ F, phaseMolarHelmholtzEnergies ((ofSystem exampleSystem).update 300 2 [5, 1, 1]) =
        some F ∧ F[1]? = some examplePhaseRecord.molarHelmholtzEnergy) ∧
    (∃ SV, phaseSpecificVolumes ((ofSystem exampleSystem).update 300 2 [5, 1, 1]) =
        some SV ∧ SV[1]? = some examplePhaseRecord.specificVolume) :=
  ⟨rfl, rfl,
    phaseRecord_agrees ((ofSystem exampleSystem).update 300 2 [5, 1, 1]) examplePhaseRecord 1
      _ _ _ _ _ exampleState_phaseAmounts exampleState_phaseMasses
      exampleState_phaseMolarVolumes exampleState_phaseMolarGibbsEnergies
      exampleState_phaseMolarEnthalpies rfl rfl rfl rfl rfl rfl rfl⟩

/-- The running offset after the last phase is the sum of the sizes of the phases. -/
theorem phaseOffset_length (s : Impl) :
    phaseOffset s s.system.phases.length = s.system.phases.sum := by
  simp [phaseOffset]

/-- The segment of a phase ends within the species of the system. -/
theorem phaseOffset_add_le (s : Impl) {i size : Nat}
    (h : s.system.numSpeciesInPhase i = some size) :
    i < s.system.phases.length ∧ phaseOffset s i + size ≤ s.system.phases.sum := by
  have hi : i < s.system.phases.length := by
    unfold ChemicalSystem.numSpeciesInPhase at h
    exact (List.getElem?_eq_some.1 h).1
  refine ⟨hi, ?_⟩
  rw [← phaseOffset_succ s i size h, ← phaseOffset_length s]
  exact phaseOffset_mono s hi

/-- Every species index below the sum of the sizes lies in the segment of a phase. -/
theorem segment_exists : ∀ (l : List Nat) (j : Nat), j < l.sum →
    ∃ i, i < l.length ∧ (l.take i).sum ≤ j ∧ j < (l.take (i + 1)).sum := by
  intro l
  induction l with
  | nil => intro j hj; simp at hj
  | cons a t ih =>
    intro j hj
    by_cases hja : j < a
    · exact ⟨0, by simp, by simp, by simpa using hja⟩
    · simp only [List.sum_cons] at hj
      obtain ⟨i, hi, h1, h2⟩ := ih (j - a) (by omega)
      refine ⟨i + 1, by simpa using hi, ?_, ?_⟩
      · simp only [List.take_succ_cons, List.sum_cons]
        omega
      · simp only [List.take_succ_cons, List.sum_cons] at h2 ⊢
        omega

/-- The segments of the phases are pairwise disjoint and cover the species: every
species index lies in the segment of exactly one phase. -/
theorem segment_unique (s : Impl) (hp : s.partitioned) (j : Nat) (hj : j < s.num_species) :
    ∃! i, i < s.num_phases ∧ phaseOffset s i ≤ j ∧ j < phaseOffset s (i + 1) := by
  obtain ⟨hph, hsp, -⟩ := hp
  rw [hsp] at hj
  obtain ⟨i, hi, h1, h2⟩ := segment_exists s.system.phases j hj
  refine ⟨i, ⟨by rw [hph]; exact hi, h1, h2⟩, ?_⟩
  rintro i' ⟨-, h1', h2'⟩
  by_contra hne
  rcases Nat.lt_or_gt_of_ne hne with hlt | hgt
  · have hm : (s.system.phases.take (i' + 1)).sum ≤ (s.system.phases.take i).sum :=
      phaseOffset_mono s (show i' + 1 ≤ i by omega)
    have h2'' : j < (s.system.phases.take (i' + 1)).sum := h2'
    omega
  · have hm : (s.system.phases.take (i + 1)).sum ≤ (s.system.phases.take i').sum :=
      phaseOffset_mono s (show i + 1 ≤ i' by omega)
    have h1'' : (s.system.phases.take i').sum ≤ j := h1'
    omega

/-- The loop returns a result when every phase it runs over exists and its body
succeeds on every result that satisfies an invariant that the body keeps. -/
theorem forPhases_some {α : Type} (s : Impl) (body : Nat → Nat → Nat → α → Option α)
    (Inv : α → Prop)
    (hbody : ∀ i size res, s.system.numSpeciesInPhase i = some size → Inv res →
      ∃ res', body i (phaseOffset s i) size res = some res' ∧ Inv res') :
    ∀ (k i0 : Nat) (res : α), i0 + k ≤ s.system.phases.length → Inv res →
      ∃ res', forPhases s body k i0 (phaseOffset s i0) res = some res' ∧ Inv res' := by
  intro k
  induction k with
  | zero => intro i0 res _ hinv; exact ⟨res, rfl, hinv⟩
  | succ k ih =>
    intro i0 res hle hinv
    have hi : i0 < s.system.phases.length := by omega
    have hsize : s.system.numSpeciesInPhase i0 = some (s.system.phases[i0]) := by
      unfold ChemicalSystem.numSpeciesInPhase
      exact List.getElem?_eq_getElem hi
    obtain ⟨res1, hres1, hinv1⟩ := hbody i0 _ res hsize hinv
    obtain ⟨res2, hres2, hinv2⟩ := ih (i0 + 1) res1 (by omega) hinv1
    refine ⟨res2, ?_, hinv2⟩
    simp only [forPhases, hsize, Option.some_bind, hres1]
    rw [← phaseOffset_succ s i0 _ hsize]
    exact hres2

/-- A phase-level accessor returns a result when the value of every phase exists and
has one `ddn` column per species of the phase. -/
theorem collectPhase_some (s : Impl) (hp : s.partitioned)
    (value : Nat → Nat → Nat → Option ChemicalScalar)
    (hvalue : ∀ i size, s.system.numSpeciesInPhase i = some size →
      ∃ v, value i (phaseOffset s i) size = some v ∧ v.ddn.length = size) :
    ∃ res, collectPhase s value = some res := by
  obtain ⟨hph, hsp, -⟩ := hp
  have h := forPhases_some s
    (fun i offset size res =>
      (value i offset size).bind fun v => ChemicalVector.setRow res i offset size v)
    (fun res => res.length = s.num_phases ∧ ∀ x ∈ res, x.ddn.length = s.num_species)
    (by
      intro i size res hsize hinv
      obtain ⟨v, hv, hvl⟩ := hvalue i size hsize
      obtain ⟨hi, hle⟩ := phaseOffset_add_le s hsize
      have hir : i < res.length := by rw [hinv.1, hph]; exact hi
      have hold : res[i]? = some res[i] := List.getElem?_eq_getElem hir
      have holdl : (res[i]).ddn.length = s.num_species :=
        hinv.2 _ (List.getElem_mem hir)
      obtain ⟨d, hd, hdl⟩ : ∃ d, setRows (res[i]).ddn (phaseOffset s i) size v.ddn = some d ∧
          d.length = s.num_species := by
        refine ⟨(res[i]).ddn.take (phaseOffset s i) ++ v.ddn ++
            (res[i]).ddn.drop (phaseOffset s i + size), ?_, ?_⟩
        · unfold setRows
          rw [if_pos ⟨by rw [holdl, hsp]; exact hle, hvl⟩]
        · simp only [List.length_append, List.length_take, List.length_drop, holdl, hvl]
          rw [hsp]
          omega
      refine ⟨res.set i ⟨v.val, v.ddT, v.ddP, d⟩, ?_, by simp [hinv.1], ?_⟩
      · simp only [hv, Option.some_bind, ChemicalVector.setRow, hold, hd, Option.map_some']
      · intro x hx
        rcases List.mem_or_eq_of_mem_set hx with hmem | rfl
        · exact hinv.2 x hmem
        · exact hdl)
    s.num_phases 0 (ChemicalVector.zeros s.num_phases s.num_species)
    (by rw [hph]; omega)
    ⟨by simp [ChemicalVector.zeros], by
      intro x hx
      rw [List.eq_of_mem_replicate hx]
      simp [ChemicalScalar.zero]⟩
  obtain ⟨res, hres, -⟩ := h
  rw [phaseOffset_zero] at hres
  exact ⟨res, hres⟩

/-- The sum of rows of equal width has that width. -/
theorem sum_ddn_length (m : Nat) (v : ChemicalVector) (hv : ∀ x ∈ v, x.ddn.length = m) :
    (ChemicalVector.sum m v).ddn.length = m := by
  rw [ChemicalVector.sum_eq m v hv]
  simp

/-- The diagonal block of the composition of a phase exists and is the composition
of the segment of the phase. -/
theorem block_composition_some (n : List ℚ) (o sz : Nat) (h : o + sz ≤ n.length) :
    ∃ np, ChemicalVector.block (ChemicalVector.composition n) o o sz sz = some np ∧
      np = ChemicalVector.composition ((n.drop o).take sz) ∧
      ((n.drop o).take sz).length = sz := by
  have hsome : ∃ np, ChemicalVector.block (ChemicalVector.composition n) o o sz sz =
      some np := by
    unfold ChemicalVector.block
    rw [if_pos]
    · exact ⟨_, rfl⟩
    · refine ⟨by simpa [ChemicalVector.composition] using h, ?_⟩
      intro x hx
      have hx' := List.mem_of_mem_drop (List.mem_of_mem_take hx)
      simp only [ChemicalVector.composition, List.mem_map] at hx'
      obtain ⟨i, -, rfl⟩ := hx'
      simpa using h
  obtain ⟨np, hnp⟩ := hsome
  obtain ⟨-, -, hl, hc⟩ := ChemicalVector.block_composition hnp
  exact ⟨np, hnp, hc, hl⟩

/-- The rows of a composition have one `ddn` column per amount. -/
theorem composition_ddn_length (l : List ℚ) :
    ∀ x ∈ ChemicalVector.composition l, x.ddn.length = l.length := by
  intro x hx
  simp only [ChemicalVector.composition, List.mem_map] at hx
  obtain ⟨i, -, rfl⟩ := hx
  simp

/-- Under the partition invariant and with one amount per species, `phaseAmounts()`
returns a result. -/
theorem phaseAmounts_some (s : Impl) (hp : s.partitioned) (hn : s.n.length = s.num_species) :
    ∃ A, phaseAmounts s = some A := by
  refine collectPhase_some s hp _ ?_
  intro i size hsize
  obtain ⟨-, hle⟩ := phaseOffset_add_le s hsize
  obtain ⟨np, hnp, hc, hl⟩ := block_composition_some s.n (phaseOffset s i) size
    (by rw [hn, hp.2.1]; exact hle)
  refine ⟨ChemicalVector.sum size np, by simp only [hnp, Option.map_some'], ?_⟩
  apply sum_ddn_length
  rw [hc]
  intro x hx
  rw [composition_ddn_length _ x hx, hl]

/-- Under the partition invariant and with one amount per species, `phaseMasses()`
returns a result. -/
theorem phaseMasses_some (s : Impl) (hp : s.partitioned) (hn : s.n.length = s.num_species) :
    ∃ M, phaseMasses s = some M := by
  refine collectPhase_some s hp _ ?_
  intro i size hsize
  obtain ⟨-, hle⟩ := phaseOffset_add_le s hsize
  obtain ⟨np, hnp, hc, hl⟩ := block_composition_some s.n (phaseOffset s i) size
    (by rw [hn, hp.2.1]; exact hle)
  have hmm : rows s.system.molarMasses (phaseOffset s i) size =
      some ((s.system.molarMasses.drop (phaseOffset s i)).take size) := by
    unfold rows
    rw [if_pos (by rw [hp.2.2, hp.2.1]; exact hle)]
  have hmml : ((s.system.molarMasses.drop (phaseOffset s i)).take size).length = size := by
    simp only [List.length_take, List.length_drop, hp.2.2, hp.2.1]
    omega
  have hnpl : np.length = size := by
    rw [hc]
    simp [ChemicalVector.composition, hl]
  obtain ⟨w, hw, -, -⟩ := zipSame_entries ChemicalScalar.scale
    ((s.system.molarMasses.drop (phaseOffset s i)).take size) np (by rw [hmml, hnpl])
  refine ⟨ChemicalVector.sum size w, by simp only [hnp, hmm, Option.some_bind,
    ChemicalVector.scaleRows, hw, Option.map_some'], ?_⟩
  apply sum_ddn_length
  intro x hx
  obtain ⟨-, rfl⟩ := zipSame_eq_some.1 hw
  obtain ⟨k, hk⟩ := List.mem_iff_getElem?.1 hx
  rw [List.getElem?_zipWith] at hk
  cases hm : ((s.system.molarMasses.drop (phaseOffset s i)).take size)[k]? with
  | none => simp [hm] at hk
  | some c =>
    cases hr : np[k]? with
    | none => simp [hm, hr] at hk
    | some r =>
      simp only [hm, hr, Option.some.injEq] at hk
      subst hk
      have hrm : r ∈ np := List.getElem?_mem hr
      rw [hc] at hrm
      simp only [ChemicalScalar.scale, List.length_map]
      rw [composition_ddn_length _ r hrm, hl]

/-- The value of `phaseAmounts()` at a phase: the sum of the amounts of its segment. -/
theorem phaseAmounts_val (s : Impl) (A : ChemicalVector) (h : phaseAmounts s = some A)
    (i size : Nat) (hsize : s.system.numSpeciesInPhase i = some size)
    (hi : i < s.num_phases) :
    ∃ r, A[i]? = some r ∧ r.val = ((s.n.drop (phaseOffset s i)).take size).sum := by
  obtain ⟨-, hrows⟩ := collectPhase_row _ _ A h
  obtain ⟨size', v, h1, h2, -, -, h5⟩ := hrows i hi
  rw [hsize] at h1
  cases h1
  simp only [Option.map_eq_some'] at h2
  obtain ⟨b, hb, rfl⟩ := h2
  obtain ⟨-, -, hl, rfl⟩ := ChemicalVector.block_composition hb
  have hsum := ChemicalVector.sum_composition ((s.n.drop (phaseOffset s i)).take size)
  rw [hl] at hsum
  rw [hsum] at h5
  exact ⟨_, h5, rfl⟩

/-- The value of `phaseMasses()` at a phase: the sum over its segment of the amount
times the molar mass. -/
theorem phaseMasses_val (s : Impl) (M : ChemicalVector) (h : phaseMasses s = some M)
    (i size : Nat) (hsize : s.system.numSpeciesInPhase i = some size)
    (hi : i < s.num_phases) :
    ∃ r, M[i]? = some r ∧
      r.val = (((List.zipWith (· * ·) s.n s.system.molarMasses).drop (phaseOffset s i)).take
        size).sum := by
  obtain ⟨-, hrows⟩ := collectPhase_row _ _ M h
  obtain ⟨size', v, h1, h2, -, -, h5⟩ := hrows i hi
  rw [hsize] at h1
  cases h1
  simp only [Option.bind_eq_some, Option.map_eq_some'] at h2
  obtain ⟨b, hb, mmp, hmm, w, hw, rfl⟩ := h2
  obtain ⟨-, -, hl, rfl⟩ := ChemicalVector.block_composition hb
  refine ⟨_, h5, ?_⟩
  simp only [ChemicalVector.sum_val]
  unfold ChemicalVector.scaleRows at hw
  obtain ⟨-, rfl⟩ := zipSame_eq_some.1 hw
  have hmmp : mmp = (s.system.molarMasses.drop (phaseOffset s i)).take size := by
    unfold rows at hmm
    split at hmm
    · simpa using hmm.symm
    · simp at hmm
  subst hmmp
  rw [List.map_zipWith, List.drop_zipWith, List.take_zipWith]
  have hv : (ChemicalVector.composition ((s.n.drop (phaseOffset s i)).take size)).map
      (·.val) = (s.n.drop (phaseOffset s i)).take size := by
    simp only [ChemicalVector.composition, List.map_map]
    exact map_getD_range _
  have : List.zipWith (fun (x : ℚ) (y : ChemicalScalar) => (ChemicalScalar.scale x y).val)
      ((s.system.molarMasses.drop (phaseOffset s i)).take size)
      (ChemicalVector.composition ((s.n.drop (phaseOffset s i)).take size)) =
      List.zipWith (fun Mj nj => nj * Mj)
        ((s.system.molarMasses.drop (phaseOffset s i)).take size)
        ((ChemicalVector.composition ((s.n.drop (phaseOffset s i)).take size)).map
          (·.val)) := by
    rw [List.zipWith_map_right]
    simp only [ChemicalScalar.scale, mul_comm]
  rw [this, hv, List.zipWith_comm]

/-- Per-phase values that are the sums of the segments of a list of per-species
weights add up to the sum of the weights of all the segments. -/
theorem sum_segments (phases : List Nat) (w vals : List ℚ)
    (hlen : vals.length = phases.length)
    (hval : ∀ i size, phases[i]? = some size →
      vals[i]? = some (((w.drop (phases.take i).sum).take size).sum)) :
    vals.sum = (w.take phases.sum).sum := by
  have key : ∀ k, k ≤ phases.length →
      (vals.take k).sum = (w.take (phases.take k).sum).sum := by
    intro k
    induction k with
    | zero => intro _; simp
    | succ k ih =>
      intro hk
      have hk' : k < phases.length := by omega
      have hp : phases[k]? = some phases[k] := List.getElem?_eq_getElem hk'
      rw [List.take_succ, hval k _ hp, List.sum_take_succ _ _ hk', List.take_add]
      simp only [Option.toList, List.sum_append, List.sum_cons, List.sum_nil, add_zero]
      rw [ih (by omega)]
  have h1 := key phases.length le_rfl
  rwa [← hlen, List.take_length, hlen, List.take_length] at h1

/-- C34: under the partition invariant and with one amount per species,
`phaseAmounts()` and `phaseMasses()` return results, the sum over all phases of the
values of `phaseAmounts()` is the sum over all species of `n_j`, the sum over all
phases of the values of `phaseMasses()` is the sum over all species of `n_j * M_j`,
and every species index lies in the segment of exactly one phase. -/
theorem phase_totals_partition (s : Impl) (hp : s.partitioned)
    (hn : s.n.length = s.num_species) :
    ∃ A M, phaseAmounts s = some A ∧ phaseMasses s = some M ∧
      (A.map (·.val)).sum = s.n.sum ∧
      (M.map (·.val)).sum = (List.zipWith (fun nj Mj => nj * Mj) s.n s.system.molarMasses).sum ∧
      ∀ j, j < s.num_species →
        ∃! i, i < s.num_phases ∧ phaseOffset s i ≤ j ∧ j < phaseOffset s (i + 1) := by
  obtain ⟨A, hA⟩ := phaseAmounts_some s hp hn
  obtain ⟨M, hM⟩ := phaseMasses_some s hp hn
  refine ⟨A, M, hA, hM, ?_, ?_, fun j hj => segment_unique s hp j hj⟩
  · rw [sum_segments s.system.phases s.n (A.map (·.val))
      (by rw [List.length_map, collectPhase_length hA, hp.1])]
    · rw [List.take_of_length_le (by rw [hn, hp.2.1])]
    · intro i size hsize
      have hi : i < s.num_phases := by
        rw [hp.1]
        exact (List.getElem?_eq_some.1 hsize).1
      obtain ⟨r, hr, hrv⟩ := phaseAmounts_val s A hA i size hsize hi
      rw [List.getElem?_map, hr, Option.map_some', hrv]
      rfl
  · rw [sum_segments s.system.phases (List.zipWith (fun nj Mj => nj * Mj) s.n
      s.system.molarMasses) (M.map (·.val))
      (by rw [List.length_map, collectPhase_length hM, hp.1])]
    · rw [List.take_of_length_le (by simp [hn, hp.2.1, hp.2.2])]
    · intro i size hsize
      have hi : i < s.num_phases := by
        rw [hp.1]
        exact (List.getElem?_eq_some.1 hsize).1
      obtain ⟨r, hr, hrv⟩ := phaseMasses_val s M hM i size hsize hi
      rw [List.getElem?_map, hr, Option.map_some', hrv]
      rfl

/-- Witness of C34 on the example state: the amounts `5 + 2` and the masses `5 + 5`. -/
theorem phase_totals_partition_witness :
    ((ofSystem exampleSystem).update 300 2 [5, 1, 1]).partitioned ∧
    ((ofSystem exampleSystem).update 300 2 [5, 1, 1]).n.length =
      ((ofSystem exampleSystem).update 300 2 [5, 1, 1]).num_species ∧
    ∃ A M, phaseAmounts ((ofSystem exampleSystem).update 300 2 [5, 1, 1]) = some A ∧
      phaseMasses ((ofSystem exampleSystem).update 300 2 [5, 1, 1]) = some M ∧
      (A.map (·.val)).sum = ([5, 1, 1] : List ℚ).sum ∧
      (M.map (·.val)).sum =
        (List.zipWith (fun nj Mj => nj * Mj) ([5, 1, 1] : List ℚ) [1, 2, 3]).sum :=
  ⟨⟨rfl, rfl, rfl⟩, rfl,
    match phase_totals_partition ((ofSystem exampleSystem).update 300 2 [5, 1, 1])
      ⟨rfl, rfl, rfl⟩ rfl with
    | ⟨A, M, h1, h2, h3, h4, _⟩ => ⟨A, M, h1, h2, h3, h4⟩⟩

/-- A species-level accessor of `ThermoVector` type returns a result when the array of
every phase exists and has one entry per species of the phase. -/
theorem collectThermo_some (s : Impl) (hp : s.partitioned)
    (field : Nat → Option ThermoVector)
    (hfield : ∀ i size, s.system.numSpeciesInPhase i = some size →
      ∃ v, field i = some v ∧ v.length = size) :
    ∃ res, collectThermo s field = some res := by
  obtain ⟨hph, hsp, -⟩ := hp
  have h := forPhases_some s
    (fun i offset size res => (field i).bind fun v => setRows res offset size v)
    (fun res => res.length = s.num_species)
    (by
      intro i size res hsize hinv
      obtain ⟨v, hv, hvl⟩ := hfield i size hsize
      obtain ⟨-, hle⟩ := phaseOffset_add_le s hsize
      have hset : setRows res (phaseOffset s i) size v =
          some (res.take (phaseOffset s i) ++ v ++ res.drop (phaseOffset s i + size)) := by
        unfold setRows
        rw [if_pos ⟨by rw [hinv, hsp]; exact hle, hvl⟩]
      refine ⟨res.take (phaseOffset s i) ++ v ++ res.drop (phaseOffset s i + size), ?_, ?_⟩
      · simp only [hv, Option.some_bind, hset]
      · show (res.take (phaseOffset s i) ++ v ++ res.drop (phaseOffset s i + size)).length =
          s.num_species
        rw [setRows_length hset, hinv])
    s.num_phases 0 (ThermoVector.zeros s.num_species)
    (by rw [hph]; omega) (by simp [ThermoVector.zeros])
  obtain ⟨res, hres, -⟩ := h
  rw [phaseOffset_zero] at hres
  exact ⟨res, hres⟩

/-- A species-level accessor of `ChemicalVector` type returns a result when the array
of every phase exists and is square with one row per species of the phase. -/
theorem collectChemical_some (s : Impl) (hp : s.partitioned)
    (field : Nat → Nat → Nat → Option ChemicalVector)
    (hfield : ∀ i size, s.system.numSpeciesInPhase i = some size →
      ∃ v, field i (phaseOffset s i) size = some v ∧ v.shaped size size) :
    ∃ res, collectChemical s field = some res := by
  obtain ⟨hph, hsp, -⟩ := hp
  have h := forPhases_some s
    (fun i offset size res =>
      (field i offset size).bind fun v =>
        ChemicalVector.setBlock res offset offset size size v)
    (fun res => res.shaped s.num_species s.num_species)
    (by
      intro i size res hsize hinv
      obtain ⟨v, hv, hvl, hvr⟩ := hfield i size hsize
      obtain ⟨-, hle⟩ := phaseOffset_add_le s hsize
      rw [← hsp] at hle
      have hcond : phaseOffset s i + size ≤ res.length ∧ v.length = size ∧
          (∀ old ∈ (res.drop (phaseOffset s i)).take size,
            phaseOffset s i + size ≤ old.ddn.length) ∧
          (∀ x ∈ v, x.ddn.length = size) := by
        refine ⟨by rw [hinv.1]; exact hle, hvl, ?_, hvr⟩
        intro old hold
        rw [hinv.2 old (List.mem_of_mem_drop (List.mem_of_mem_take hold))]
        exact hle
      have hset : ChemicalVector.setBlock res (phaseOffset s i) (phaseOffset s i) size size v =
          some (res.take (phaseOffset s i) ++
            List.zipWith (fun old x => (⟨x.val, x.ddT, x.ddP,
                old.ddn.take (phaseOffset s i) ++ x.ddn ++
                  old.ddn.drop (phaseOffset s i + size)⟩ : ChemicalScalar))
              ((res.drop (phaseOffset s i)).take size) v ++
            res.drop (phaseOffset s i + size)) := by
        unfold ChemicalVector.setBlock
        rw [if_pos hcond]
      refine ⟨_, by simp only [hv, Option.some_bind]; exact hset, ?_, ?_⟩
      · show List.length _ = s.num_species
        rw [ChemicalVector.setBlock_length hset, hinv.1]
      · intro x hx
        rcases List.mem_append.1 hx with hx1 | hx3
        · rcases List.mem_append.1 hx1 with hx1 | hx2
          · exact hinv.2 x (List.mem_of_mem_take hx1)
          · obtain ⟨k, hk⟩ := List.mem_iff_getElem?.1 hx2
            rw [List.getElem?_zipWith] at hk
            cases ho : ((res.drop (phaseOffset s i)).take size)[k]? with
            | none => simp [ho] at hk
            | some old =>
              cases hx' : v[k]? with
              | none => simp [ho, hx'] at hk
              | some y =>
                simp only [ho, hx', Option.some.injEq] at hk
                subst hk
                have h1 := hinv.2 old
                  (List.mem_of_mem_drop (List.mem_of_mem_take (List.getElem?_mem ho)))
                have h2 := hvr y (List.getElem?_mem hx')
                simp only [List.length_append, List.length_take, List.length_drop, h1, h2]
                omega
        · exact hinv.2 x (List.mem_of_mem_drop hx3))
    s.num_phases 0 (ChemicalVector.zeros s.num_species s.num_species)
    (by rw [hph]; omega)
    ⟨by simp [ChemicalVector.zeros], by
      intro x hx
      rw [List.eq_of_mem_replicate hx]
      simp [ChemicalScalar.zero]⟩
  obtain ⟨res, hres, -⟩ := h
  rw [phaseOffset_zero] at hres
  exact ⟨res, hres⟩

/-- The molar fractions of a segment have one `ddn` column per amount of the segment. -/
theorem molarFractions_shaped (np : List ℚ) :
    (Reaktoro.molarFractions np).shaped np.length np.length := by
  refine ⟨molarFractions_length np, ?_⟩
  intro x hx
  unfold Reaktoro.molarFractions at hx
  simp only at hx
  split at hx
  · rw [List.eq_of_mem_replicate hx]
    simp [ChemicalScalar.zero]
  · simp only [List.mem_map] at hx
    obtain ⟨p, -, rfl⟩ := hx
    simp

/-- The segment of the amounts of a phase exists and has the size of the phase. -/
theorem rows_n_some (s : Impl) (hp : s.partitioned) (hn : s.n.length = s.num_species)
    {i size : Nat} (hsize : s.system.numSpeciesInPhase i = some size) :
    ∃ np, rows s.n (phaseOffset s i) size = some np ∧ np.length = size := by
  obtain ⟨-, hle⟩ := phaseOffset_add_le s hsize
  have hb : phaseOffset s i + size ≤ s.n.length := by rw [hn, hp.2.1]; exact hle
  refine ⟨(s.n.drop (phaseOffset s i)).take size, ?_, ?_⟩
  · unfold rows
    rw [if_pos hb]
  · simp only [List.length_take, List.length_drop]
    omega

/-- The record of a phase exists in a list of one record per phase. -/
theorem record_some {α : Type} (s : Impl) (hp : s.partitioned) (l : List α)
    (hl : l.length = s.num_phases) {i size : Nat}
    (hsize : s.system.numSpeciesInPhase i = some size) : ∃ t, l[i]? = some t := by
  obtain ⟨hi, -⟩ := phaseOffset_add_le s hsize
  have hil : i < l.length := by rw [hl, hp.1]; exact hi
  exact ⟨l[i], List.getElem?_eq_getElem hil⟩

/-- The fraction-weighted sum of a phase exists and has one `ddn` column per species
of the phase. -/
theorem fractionWeightedSum_some (s : Impl) (hp : s.partitioned) (hw : s.wellShaped)
    (field : PhaseThermoModelResult → ThermoVector)
    (hfield : ∀ (i size : Nat) t, s.system.numSpeciesInPhase i = some size →
      s.tres[i]? = some t → (field t).length = size)
    {i size : Nat} (hsize : s.system.numSpeciesInPhase i = some size) :
    ∃ v, fractionWeightedSum s field i (phaseOffset s i) size = some v ∧
      v.ddn.length = size := by
  obtain ⟨np, hnp, hnpl⟩ := rows_n_some s hp hw.1 hsize
  obtain ⟨t, ht⟩ := record_some s hp s.tres hw.2.1 hsize
  have hx := molarFractions_shaped np
  obtain ⟨w, hwz, -, -⟩ := zipSame_entries ChemicalScalar.mulThermo
    (Reaktoro.molarFractions np) (field t) (by rw [hx.1, hnpl, hfield i size t hsize ht])
  refine ⟨ChemicalVector.sum size w, ?_, ?_⟩
  · simp only [fractionWeightedSum, hnp, Option.some_bind, ht, ChemicalVector.mulThermo, hwz,
      Option.map_some']
  · apply sum_ddn_length
    intro x hxw
    obtain ⟨-, rfl⟩ := zipSame_eq_some.1 hwz
    obtain ⟨k, hk⟩ := List.mem_iff_getElem?.1 hxw
    rw [List.getElem?_zipWith] at hk
    cases ha : (Reaktoro.molarFractions np)[k]? with
    | none => simp [ha] at hk
    | some a =>
      cases hb : (field t)[k]? with
      | none => simp [ha, hb] at hk
      | some b =>
        simp only [ha, hb, Option.some.injEq] at hk
        subst hk
        simp only [ChemicalScalar.mulThermo, List.length_map]
        rw [hx.2 a (List.getElem?_mem ha), hnpl]

/-- A phase molar accessor built on the fraction-weighted sum returns a result. -/
theorem collectPhase_fractionWeightedSum_some (s : Impl) (hp : s.partitioned)
    (hw : s.wellShaped) (field : PhaseThermoModelResult → ThermoVector)
    (hfield : ∀ (i size : Nat) t, s.system.numSpeciesInPhase i = some size →
      s.tres[i]? = some t → (field t).length = size) :
    ∃ res, collectPhase s (fractionWeightedSum s field) = some res :=
  collectPhase_some s hp _ fun _ _ hsize => fractionWeightedSum_some s hp hw field hfield hsize

/-- Under the partition invariant and with well-shaped inputs `phaseMolarVolumes()`
returns a result, in the override branch and in the fallback branch. -/
theorem phaseMolarVolumes_some (s : Impl) (hp : s.partitioned) (hw : s.wellShaped) :
    ∃ V, phaseMolarVolumes s = some V := by
  refine collectPhase_some s hp _ ?_
  intro i size hsize
  obtain ⟨c, hc⟩ := record_some s hp s.cres hw.2.2.1 hsize
  by_cases hpos : c.molar_volume.val > 0
  · exact ⟨c.molar_volume, by simp only [hc, Option.some_bind, if_pos hpos],
      (hw.2.2.2.2 i size c hsize hc).2.2.2⟩
  · obtain ⟨v, hv, hvl⟩ := fractionWeightedSum_some s hp hw
      (·.standard_partial_molar_volumes)
      (fun i size t h1 h2 => (hw.2.2.2.1 i size t h1 h2).2.2.1) hsize
    exact ⟨v, by simp only [hc, Option.some_bind, if_neg hpos, hv], hvl⟩

/-- C31: under the partition invariant and with well-shaped inputs, every phase index
of the loops has a size, the running offset of every phase satisfies
`offset + size <= num_species`, the segments `[offset_i, offset_i + size_i)` are
pairwise disjoint and cover `0 .. num_species - 1` (every species index lies in the
segment of exactly one phase), the segment of `n` and the records `tres[i]` and
`cres[i]` of every phase exist, and every accessor returns a result: none reaches an
out-of-range branch. -/
theorem accessors_in_range (R : ℚ) (s : Impl) (hp : s.partitioned) (hw : s.wellShaped) :
    (∀ i, i < s.num_phases → ∃ size, s.system.numSpeciesInPhase i = some size ∧
      phaseOffset s i + size ≤ s.num_species ∧
      phaseOffset s (i + 1) = phaseOffset s i + size ∧
      (∃ np, rows s.n (phaseOffset s i) size = some np ∧ np.length = size) ∧
      (∃ t, s.tres[i]? = some t) ∧ (∃ c, s.cres[i]? = some c)) ∧
    (∀ i size, s.system.numSpeciesInPhase i = some size → i < s.num_phases) ∧
    (∀ j, j < s.num_species →
      ∃! i, i < s.num_phases ∧ phaseOffset s i ≤ j ∧ j < phaseOffset s (i + 1)) ∧
    (molarFractions s).isSome ∧ (lnActivityCoefficients s).isSome ∧
    (lnActivityConstants s).isSome ∧ (lnActivities s).isSome ∧
    (chemicalPotentials R s).isSome ∧
    (standardPartialMolarGibbsEnergies s).isSome ∧
    (standardPartialMolarEnthalpies s).isSome ∧
    (standardPartialMolarVolumes s).isSome ∧
    (standardPartialMolarEntropies s).isSome ∧
    (standardPartialMolarInternalEnergies s).isSome ∧
    (standardPartialMolarHelmholtzEnergies s).isSome ∧
    (standardPartialMolarHeatCapacitiesConstP s).isSome ∧
    (standardPartialMolarHeatCapacitiesConstV s).isSome ∧
    (phaseMolarGibbsEnergies s).isSome ∧ (phaseMolarEnthalpies s).isSome ∧
    (phaseMolarVolumes s).isSome ∧ (phaseMolarEntropies s).isSome ∧
    (phaseMolarInternalEnergies s).isSome ∧ (phaseMolarHelmholtzEnergies s).isSome ∧
    (phaseMolarHeatCapacitiesConstP s).isSome ∧ (phaseMolarHeatCapacitiesConstV s).isSome ∧
    (phaseSpecificGibbsEnergies s).isSome ∧ (phaseSpecificEnthalpies s).isSome ∧
    (phaseSpecificVolumes s).isSome ∧ (phaseSpecificEntropies s).isSome ∧
    (phaseSpecificInternalEnergies s).isSome ∧ (phaseSpecificHelmholtzEnergies s).isSome ∧
    (phaseSpecificHeatCapacitiesConstP s).isSome ∧
    (phaseSpecificHeatCapacitiesConstV s).isSome ∧
    (phaseDensities s).isSome ∧ (phaseMasses s).isSome ∧ (phaseAmounts s).isSome ∧
    (phaseVolumes s).isSome ∧ (volume s).isSome := by
  obtain ⟨hn, htl, hcl, ht, hc⟩ := hw
  have hw : s.wellShaped := ⟨hn, htl, hcl, ht, hc⟩
  have hsizeOf : ∀ i, i < s.num_phases →
      s.system.numSpeciesInPhase i = some (s.system.phases.getD i 0) := by
    intro i hi
    rw [hp.1] at hi
    unfold ChemicalSystem.numSpeciesInPhase
    rw [List.getD_eq_getElem?_getD, List.getElem?_eq_getElem hi, Option.getD_some]
  have thermo : ∀ X : PhaseThermoModelResult → ThermoVector,
      (∀ (i size : Nat) t, s.system.numSpeciesInPhase i = some size → s.tres[i]? = some t →
        (X t).length = size) →
      ∃ res, collectThermo s (fun i => (s.tres[i]?).map X) = some res := by
    intro X hX
    refine collectThermo_some s hp _ ?_
    intro i size hsize
    obtain ⟨t, ht'⟩ := record_some s hp s.tres htl hsize
    exact ⟨X t, by simp only [ht', Option.map_some'], hX i size t hsize ht'⟩
  have chem : ∀ X : PhaseChemicalModelResult → ChemicalVector,
      (∀ (i size : Nat) c, s.system.numSpeciesInPhase i = some size → s.cres[i]? = some c →
        (X c).shaped size size) →
      ∃ res, collectChemical s (fun i _ _ => (s.cres[i]?).map X) = some res := by
    intro X hX
    refine collectChemical_some s hp _ ?_
    intro i size hsize
    obtain ⟨c, hc'⟩ := record_some s hp s.cres hcl hsize
    exact ⟨X c, by simp only [hc', Option.map_some'], hX i size c hsize hc'⟩
  obtain ⟨x, hx⟩ : ∃ x, molarFractions s = some x := by
    refine collectChemical_some s hp _ ?_
    intro i size hsize
    obtain ⟨np, hnp, hnpl⟩ := rows_n_some s hp hn hsize
    refine ⟨Reaktoro.molarFractions np, by simp only [hnp, Option.map_some'], ?_⟩
    have := molarFractions_shaped np
    rwa [hnpl] at this
  obtain ⟨lng, hlng⟩ : ∃ r, lnActivityCoefficients s = some r :=
    chem (·.ln_activity_coefficients) fun i size c h1 h2 => (hc i size c h1 h2).1
  obtain ⟨lna, hlna⟩ : ∃ r, lnActivities s = some r :=
    chem (·.ln_activities) fun i size c h1 h2 => (hc i size c h1 h2).2.2.1
  obtain ⟨lnc, hlnc⟩ : ∃ r, lnActivityConstants s = some r := by
    refine collectThermo_some s hp _ ?_
    intro i size hsize
    obtain ⟨c, hc'⟩ := record_some s hp s.cres hcl hsize
    exact ⟨c.ln_activity_constants, by simp only [hc', Option.map_some'],
      (hc i size c hsize hc').2.1⟩
  obtain ⟨G, hG⟩ : ∃ r, standardPartialMolarGibbsEnergies s = some r :=
    thermo (·.standard_partial_molar_gibbs_energies) fun i size t h1 h2 => (ht i size t h1 h2).1
  obtain ⟨H, hH⟩ : ∃ r, standardPartialMolarEnthalpies s = some r :=
    thermo (·.standard_partial_molar_enthalpies) fun i size t h1 h2 => (ht i size t h1 h2).2.1
  obtain ⟨V, hV⟩ : ∃ r, standardPartialMolarVolumes s = some r :=
    thermo (·.standard_partial_molar_volumes) fun i size t h1 h2 => (ht i size t h1 h2).2.2.1
  obtain ⟨Cp, hCp⟩ : ∃ r, standardPartialMolarHeatCapacitiesConstP s = some r :=
    thermo (·.standard_partial_molar_heat_capacities_cp)
      fun i size t h1 h2 => (ht i size t h1 h2).2.2.2.1
  obtain ⟨Cv, hCv⟩ : ∃ r, standardPartialMolarHeatCapacitiesConstV s = some r :=
    thermo (·.standard_partial_molar_heat_capacities_cv)
      fun i size t h1 h2 => (ht i size t h1 h2).2.2.2.2
  have hGl := collectThermo_length hG
  have hHl := collectThermo_length hH
  have hVl := collectThermo_length hV
  have hlnal := collectChemical_length hlna
  obtain ⟨mu, hmu⟩ : ∃ r, chemicalPotentials R s = some r := by
    obtain ⟨mu, hmu, -, -⟩ := zipSame_entries ChemicalScalar.thermoAdd G
      (ChemicalVector.scalarMul (ThermoScalar.scale R s.T) lna)
      (by simp [ChemicalVector.scalarMul, hGl, hlnal])
    exact ⟨mu, by simp only [chemicalPotentials, hG, hlna, Option.some_bind]; exact hmu⟩
  obtain ⟨S, hS⟩ : ∃ r, standardPartialMolarEntropies s = some r := by
    obtain ⟨d, hd, -, -⟩ := zipSame_entries ThermoScalar.sub H G (by rw [hHl, hGl])
    exact ⟨ThermoVector.divScalar d s.T, by
      simp only [standardPartialMolarEntropies, hG, hH, Option.some_bind, ThermoVector.sub, hd,
        Option.map_some']⟩
  obtain ⟨U, hU⟩ : ∃ r, standardPartialMolarInternalEnergies s = some r := by
    obtain ⟨d, hd, -, -⟩ := zipSame_entries ThermoScalar.sub H (ThermoVector.scalarMul s.P V)
      (by simp [ThermoVector.scalarMul, hHl, hVl])
    exact ⟨d, by
      simp only [standardPartialMolarInternalEnergies, hH, hV, Option.some_bind,
        ThermoVector.sub, hd]⟩
  obtain ⟨F, hF⟩ : ∃ r, standardPartialMolarHelmholtzEnergies s = some r := by
    obtain ⟨d, hd, -, -⟩ := zipSame_entries ThermoScalar.sub G (ThermoVector.scalarMul s.P V)
      (by simp [ThermoVector.scalarMul, hGl, hVl])
    exact ⟨d, by
      simp only [standardPartialMolarHelmholtzEnergies, hG, hV, Option.some_bind,
        ThermoVector.sub, hd]⟩
  obtain ⟨pG, hpG⟩ : ∃ r, phaseMolarGibbsEnergies s = some r :=
    collectPhase_fractionWeightedSum_some s hp hw _
      fun i size t h1 h2 => (ht i size t h1 h2).1
  obtain ⟨pH, hpH⟩ : ∃ r, phaseMolarEnthalpies s = some r :=
    collectPhase_fractionWeightedSum_some s hp hw _
      fun i size t h1 h2 => (ht i size t h1 h2).2.1
  obtain ⟨pV, hpV⟩ := phaseMolarVolumes_some s hp hw
  obtain ⟨pCp, hpCp⟩ : ∃ r, phaseMolarHeatCapacitiesConstP s = some r :=
    collectPhase_fractionWeightedSum_some s hp hw _
      fun i size t h1 h2 => (ht i size t h1 h2).2.2.2.1
  obtain ⟨pCv, hpCv⟩ : ∃ r, phaseMolarHeatCapacitiesConstV s = some r :=
    collectPhase_fractionWeightedSum_some s hp hw _
      fun i size t h1 h2 => (ht i size t h1 h2).2.2.2.2
  have hpGl := collectPhase_length hpG
  have hpHl := collectPhase_length hpH
  have hpVl := collectPhase_length hpV
  obtain ⟨pS, hpS⟩ : ∃ r, phaseMolarEntropies s = some r := by
    obtain ⟨d, hd, -, -⟩ := zipSame_entries ChemicalScalar.sub pH pG (by rw [hpHl, hpGl])
    exact ⟨ChemicalVector.divScalar d s.T, by
      simp only [phaseMolarEntropies, hpG, hpH, Option.some_bind, ChemicalVector.sub, hd,
        Option.map_some']⟩
  obtain ⟨pU, hpU⟩ : ∃ r, phaseMolarInternalEnergies s = some r := by
    obtain ⟨d, hd, -, -⟩ := zipSame_entries ChemicalScalar.sub pH
      (ChemicalVector.scalarMul s.P pV) (by simp [ChemicalVector.scalarMul, hpHl, hpVl])
    exact ⟨d, by
      simp only [phaseMolarInternalEnergies, hpH, hpV, Option.some_bind, ChemicalVector.sub,
        hd]⟩
  obtain ⟨pF, hpF⟩ : ∃ r, phaseMolarHelmholtzEnergies s = some r := by
    obtain ⟨d, hd, -, -⟩ := zipSame_entries ChemicalScalar.sub pG
      (ChemicalVector.scalarMul s.P pV) (by simp [ChemicalVector.scalarMul, hpGl, hpVl])
    exact ⟨d, by
      simp only [phaseMolarHelmholtzEnergies, hpG, hpV, Option.some_bind, ChemicalVector.sub,
        hd]⟩
  obtain ⟨A, hA⟩ := phaseAmounts_some s hp hn
  obtain ⟨M, hM⟩ := phaseMasses_some s hp hn
  have hAl := collectPhase_length hA
  have hMl := collectPhase_length hM
  have spec : ∀ (molar : Option ChemicalVector) (X : ChemicalVector), molar = some X →
      X.length = s.num_phases → (specificOf s molar).isSome := by
    intro molar X hX hXl
    obtain ⟨Y, hY, -⟩ := specificOf_val hA hM hX hXl
    exact Option.isSome_iff_exists.2 ⟨Y, hY⟩
  obtain ⟨Vol, hVol, hVoll, -⟩ := zipSame_entries ChemicalScalar.mul A pV (by rw [hAl, hpVl])
  obtain ⟨D, hD, -, -⟩ := zipSame_entries ChemicalScalar.div M Vol (by rw [hVoll, hAl, hMl])
  have some_of : ∀ {α : Type} {o : Option α} {r : α}, o = some r → o.isSome := by
    intro α o r h
    exact Option.isSome_iff_exists.2 ⟨r, h⟩
  refine ⟨?_, fun i size hsize => by rw [hp.1]; exact (phaseOffset_add_le s hsize).1,
    fun j hj => segment_unique s hp j hj,
    some_of hx, some_of hlng, some_of hlnc, some_of hlna, some_of hmu, some_of hG, some_of hH,
    some_of hV, some_of hS, some_of hU, some_of hF, some_of hCp, some_of hCv,
    some_of hpG, some_of hpH, some_of hpV, some_of hpS, some_of hpU, some_of hpF, some_of hpCp,
    some_of hpCv,
    spec _ pG hpG hpGl, spec _ pH hpH hpHl, spec _ pV hpV hpVl,
    spec _ pS hpS (phaseMolarEntropies_length hpS),
    spec _ pU hpU (phaseMolarInternalEnergies_length hpU),
    spec _ pF hpF (phaseMolarHelmholtzEnergies_length hpF),
    spec _ pCp hpCp (collectPhase_length hpCp), spec _ pCv hpCv (collectPhase_length hpCv),
    ?_, some_of hM, some_of hA, ?_, ?_⟩
  · intro i hi
    have hsize := hsizeOf i hi
    obtain ⟨-, hle⟩ := phaseOffset_add_le s hsize
    exact ⟨_, hsize, by rw [hp.2.1]; exact hle, phaseOffset_succ s i _ hsize,
      rows_n_some s hp hn hsize, record_some s hp s.tres htl hsize,
      record_some s hp s.cres hcl hsize⟩
  · exact some_of (r := D) (by
      simp only [phaseDensities, hM, hA, hpV, Option.some_bind, ChemicalVector.mul, hVol,
        ChemicalVector.div, hD])
  · exact some_of (r := Vol) (by
      simp only [phaseVolumes, hA, hpV, Option.some_bind, ChemicalVector.mul, hVol])
  · exact some_of (r := ChemicalVector.sum s.num_species Vol) (by
      simp only [volume, hA, hpV, Option.some_bind, ChemicalVector.mul, hVol,
        Option.map_some'])

/-- The inputs of the example state are well shaped. -/
theorem exampleState_wellShaped :
    ((ofSystem exampleSystem).update 300 2 [5, 1, 1]).wellShaped := by
  refine ⟨rfl, rfl, rfl, ?_, ?_⟩
  · intro i size t hsize ht
    match i, hsize, ht with
    | 0, hsize, ht =>
      cases hsize
      cases ht
      exact ⟨rfl, rfl, rfl, rfl, rfl⟩
    | 1, hsize, ht =>
      cases hsize
      cases ht
      exact ⟨rfl, rfl, rfl, rfl, rfl⟩
    | k + 2, hsize, _ => cases hsize
  · intro i size c hsize hc
    match i, hsize, hc with
    | 0, hsize, hc =>
      cases hsize
      cases hc
      refine ⟨⟨rfl, ?_⟩, rfl, ⟨rfl, ?_⟩, rfl⟩
      · intro x hx
        have hx1 : x ∈ [(⟨1, 0, 0, [0]⟩ : ChemicalScalar)] := hx
        rw [List.mem_singleton] at hx1
        subst hx1
        rfl
      · intro x hx
        have hx1 : x ∈ [(⟨300, 1, 0, [2]⟩ : ChemicalScalar)] := hx
        rw [List.mem_singleton] at hx1
        subst hx1
        rfl
    | 1, hsize, hc =>
      cases hsize
      cases hc
      refine ⟨⟨rfl, ?_⟩, rfl, ⟨rfl, ?_⟩, rfl⟩
      · intro x hx
        have hx1 : x ∈ [(⟨1, 0, 0, [0, 1]⟩ : ChemicalScalar), ⟨2, 0, 0, [1, 0]⟩] := hx
        rcases List.mem_cons.1 hx1 with h | h
        · subst h
          rfl
        · rw [List.mem_singleton] at h
          subst h
          rfl
      · intro x hx
        have hx1 : x ∈ [(⟨2, 0, 1, [1, 2]⟩ : ChemicalScalar), ⟨300 + 2, 1, 1, [3, 4]⟩] := hx
        rcases List.mem_cons.1 hx1 with h | h
        · subst h
          rfl
        · rw [List.mem_singleton] at h
          subst h
          rfl
    | k + 2, hsize, _ => cases hsize

/-- Witness of C31 on the example state, with `R = 8`. -/
theorem accessors_in_range_witness :
    ((ofSystem exampleSystem).update 300 2 [5, 1, 1]).partitioned ∧
    ((ofSystem exampleSystem).update 300 2 [5, 1, 1]).wellShaped ∧
    (∃! i, i < ((ofSystem exampleSystem).update 300 2 [5, 1, 1]).num_phases ∧
      phaseOffset ((ofSystem exampleSystem).update 300 2 [5, 1, 1]) i ≤ 2 ∧
      2 < phaseOffset ((ofSystem exampleSystem).update 300 2 [5, 1, 1]) (i + 1)) ∧
    (molarFractions ((ofSystem exampleSystem).update 300 2 [5, 1, 1])).isSome ∧
    (phaseMolarVolumes ((ofSystem exampleSystem).update 300 2 [5, 1, 1])).isSome ∧
    (phaseMasses ((ofSystem exampleSystem).update 300 2 [5, 1, 1])).isSome ∧
    (phaseAmounts ((ofSystem exampleSystem).update 300 2 [5, 1, 1])).isSome ∧
    (volume ((ofSystem exampleSystem).update 300 2 [5, 1, 1])).isSome :=
  have h := accessors_in_range 8 ((ofSystem exampleSystem).update 300 2 [5, 1, 1])
    ⟨rfl, rfl, rfl⟩ exampleState_wellShaped
  ⟨⟨rfl, rfl, rfl⟩, exampleState_wellShaped, h.2.2.1 2 (by decide), h.2.2.2.1,
    h.2.2.2.2.2.2.2.2.2.2.2.2.2.2.2.2.2.2.1,
    h.2.2.2.2.2.2.2.2.2.2.2.2.2.2.2.2.2.2.2.2.2.2.2.2.2.2.2.2.2.2.2.2.2.1,
    h.2.2.2.2.2.2.2.2.2.2.2.2.2.2.2.2.2.2.2.2.2.2.2.2.2.2.2.2.2.2.2.2.2.2.1,
    h.2.2.2.2.2.2.2.2.2.2.2.2.2.2.2.2.2.2.2.2.2.2.2.2.2.2.2.2.2.2.2.2.2.2.2.2⟩

end Impl

end ChemicalProperties

/-! # Properties of the formation-reaction resolver -/

/-- A traversal that succeeds still succeeds when the step function succeeds more often. -/
theorem traverseReactants_ok_mono {α ε : Type} {f g : String × ℚ → Except ε α} :
    ∀ (l : List (String × ℚ)) (xs : List α),
      (∀ rc ∈ l, ∀ x, f rc = .ok x → g rc = .ok x) →
      traverseReactants f l = .ok xs → traverseReactants g l = .ok xs := by
  intro l
  induction l with
  | nil => intro xs _ h; simpa [traverseReactants] using h
  | cons rc rest ih =>
    intro xs hfg h
    cases hf : f rc with
    | error e => simp [traverseReactants, hf] at h
    | ok x =>
      cases hr : traverseReactants f rest with
      | error e => simp [traverseReactants, hf, hr] at h
      | ok ys =>
        simp only [traverseReactants, hf, hr, Except.ok.injEq] at h
        have h1 := hfg rc (List.mem_cons_self _ _) x hf
        have h2 := ih ys (fun rc' hrc' => hfg rc' (List.mem_cons_of_mem _ hrc')) hr
        simp only [traverseReactants, h1, h2, h]

/-- A successful traversal pairs every reactant with the result of the step function. -/
theorem traverseReactants_forall₂ {α ε : Type} {f : String × ℚ → Except ε α} :
    ∀ (l : List (String × ℚ)) (xs : List α),
      traverseReactants f l = .ok xs → List.Forall₂ (fun rc x => f rc = .ok x) l xs := by
  intro l
  induction l with
  | nil =>
    intro xs h
    simp only [traverseReactants, Except.ok.injEq] at h
    subst h
    exact List.Forall₂.nil
  | cons rc rest ih =>
    intro xs h
    cases hf : f rc with
    | error e => simp [traverseReactants, hf] at h
    | ok x =>
      cases hr : traverseReactants f rest with
      | error e => simp [traverseReactants, hf, hr] at h
      | ok ys =>
        simp only [traverseReactants, hf, hr, Except.ok.injEq] at h
        subst h
        exact List.Forall₂.cons hf (ih ys hr)

/-- What a successful resolution is made of. -/
theorem resolve_succ_ok {R ln10 : ℚ} {db : List Species} {fuel : Nat} {visited : List String}
    {rxn : FormationReaction} {m : StandardThermoModel}
    (h : resolve R ln10 db (fuel + 1) visited rxn = .ok m) :
    ∃ rm ms, rxn.reactionThermoModel R ln10 = some rm ∧
      traverseReactants (fun rc =>
          (match findSpecies db rc.1 with
          | none => .error .unknownSpecies
          | some sp =>
            match sp.data with
            | .literal props => .ok (rc.2, fun _ _ => props)
            | .reaction r =>
              if rc.1 ∈ visited then .error .cyclicReaction
              else
                match resolve R ln10 db fuel (rc.1 :: visited) r with
                | .error e => .error e
                | .ok m => .ok (rc.2, m) :
            Except ConfigurationError (ℚ × StandardThermoModel))) rxn.reactants = .ok ms ∧
      m = combineReactants ms rm rxn.product_standard_volume := by
  rw [resolve] at h
  cases hrm : rxn.reactionThermoModel R ln10 with
  | none => simp [hrm] at h
  | some rm =>
    simp only [hrm] at h
    split at h
    · simp at h
    · rename_i ms hms
      simp only [Except.ok.injEq] at h
      exact ⟨rm, ms, rfl, hms, h.symm⟩

/-- A resolution that succeeds still succeeds, with the same model, with more fuel and
fewer visited species. -/
theorem resolve_mono (R ln10 : ℚ) (db : List Species) :
    ∀ (fuel fuel' : Nat) (visited visited' : List String) (rxn : FormationReaction)
      (m : StandardThermoModel),
      fuel ≤ fuel' → (∀ x ∈ visited', x ∈ visited) →
      resolve R ln10 db fuel visited rxn = .ok m →
      resolve R ln10 db fuel' visited' rxn = .ok m := by
  intro fuel
  induction fuel with
  | zero => intro fuel' v v' rxn m _ _ h; simp [resolve] at h
  | succ k ih =>
    intro fuel' v v' rxn m hle hsub h
    obtain ⟨k', rfl⟩ : ∃ k', fuel' = k' + 1 := ⟨fuel' - 1, by omega⟩
    obtain ⟨rm, ms, hrm, hms, rfl⟩ := resolve_succ_ok h
    rw [resolve]
    simp only [hrm]
    rw [traverseReactants_ok_mono _ ms ?_ hms]
    intro rc _ x hx
    cases hsp : findSpecies db rc.1 with
    | none => simp [hsp] at hx
    | some sp =>
      simp only [hsp] at hx ⊢
      cases hd : sp.data with
      | literal props => simpa [hd] using hx
      | reaction r =>
        simp only [hd] at hx ⊢
        by_cases hv : rc.1 ∈ v
        · simp [hv] at hx
        · have hv' : rc.1 ∉ v' := fun hc => hv (hsub _ hc)
          simp only [hv, hv', if_false] at hx ⊢
          cases hr : resolve R ln10 db k (rc.1 :: v) r with
          | error e => simp [hr] at hx
          | ok m' =>
            simp only [hr] at hx
            rw [ih k' (rc.1 :: v) (rc.1 :: v') r m' (by omega) ?_ hr]
            · exact hx
            · intro y hy
              rcases List.mem_cons.1 hy with rfl | hy
              · exact List.mem_cons_self _ _
              · exact List.mem_cons_of_mem _ (hsub _ hy)

/-- A traversal fails only with the error of one of its steps. -/
theorem traverseReactants_error {α ε : Type} {f : String × ℚ → Except ε α} {e : ε} :
    ∀ (l : List (String × ℚ)), traverseReactants f l = .error e →
      ∃ rc ∈ l, f rc = .error e := by
  intro l
  induction l with
  | nil => intro h; simp [traverseReactants] at h
  | cons rc rest ih =>
    intro h
    cases hf : f rc with
    | error e' =>
      simp only [traverseReactants, hf, Except.error.injEq] at h
      exact ⟨rc, List.mem_cons_self _ _, by rw [hf, h]⟩
    | ok x =>
      cases hr : traverseReactants f rest with
      | error e' =>
        simp only [traverseReactants, hf, hr, Except.error.injEq] at h
        obtain ⟨rc', hmem, hrc'⟩ := ih (by rw [hr, h])
        exact ⟨rc', List.mem_cons_of_mem _ hmem, hrc'⟩
      | ok ys => simp [traverseReactants, hf, hr] at h

/-- A species that is found in the arena has its name in the arena. -/
theorem findSpecies_name_mem {db : List Species} {name : String} {sp : Species}
    (h : findSpecies db name = some sp) : name ∈ db.map (·.name) := by
  unfold findSpecies at h
  have h1 := List.find?_some h
  have h2 := List.mem_of_find?_eq_some h
  simp only [beq_iff_eq] at h1
  exact List.mem_map.2 ⟨sp, h2, h1⟩

/-- The recursion never runs out of fuel while the visited species are distinct species
of the arena and the fuel left covers the species not yet visited. -/
theorem resolve_fuel (R ln10 : ℚ) (db : List Species) :
    ∀ (fuel : Nat) (visited : List String) (rxn : FormationReaction),
      visited.Nodup → (∀ x ∈ visited, x ∈ db.map (·.name)) →
      db.length + 1 ≤ visited.length + fuel →
      resolve R ln10 db fuel visited rxn ≠ .error .depthExceeded := by
  intro fuel
  induction fuel with
  | zero =>
    intro visited rxn hnd hsub hlen
    have hle : visited.length ≤ (db.map (·.name)).length :=
      (List.Nodup.subperm hnd hsub).length_le
    simp only [List.length_map] at hle
    omega
  | succ k ih =>
    intro visited rxn hnd hsub hlen h
    rw [resolve] at h
    cases hrm : rxn.reactionThermoModel R ln10 with
    | none => simp [hrm] at h
    | some rm =>
      simp only [hrm] at h
      split at h
      · rename_i e htr
        simp only [Except.error.injEq] at h
        subst h
        obtain ⟨rc, -, hstep⟩ := traverseReactants_error _ htr
        cases hsp : findSpecies db rc.1 with
        | none => simp [hsp] at hstep
        | some sp =>
          simp only [hsp] at hstep
          cases hd : sp.data with
          | literal props => simp [hd] at hstep
          | reaction r =>
            simp only [hd] at hstep
            by_cases hv : rc.1 ∈ visited
            · simp [hv] at hstep
            · simp only [hv, if_false] at hstep
              cases hr : resolve R ln10 db k (rc.1 :: visited) r with
              | ok m => simp [hr] at hstep
              | error e =>
                simp only [hr, Except.error.injEq] at hstep
                subst hstep
                refine ih (rc.1 :: visited) r (List.nodup_cons.2 ⟨hv, hnd⟩) ?_ ?_ hr
                · intro x hx
                  rcases List.mem_cons.1 hx with rfl | hx
                  · exact findSpecies_name_mem hsp
                  · exact hsub x hx
                · simp only [List.length_cons]
                  omega
      · simp at h

/-- Resolving the standard thermo model of a formation reaction never runs out of fuel. -/
theorem standardThermoModel_fuel (R ln10 : ℚ) (db : List Species) (rxn : FormationReaction) :
    rxn.standardThermoModel R ln10 db ≠ .error .depthExceeded :=
  resolve_fuel R ln10 db (db.length + 1) [] rxn List.nodup_nil (by simp) (by simp)

/-- C4: when the standard thermo model of a formation reaction with reactants
`(r_1, c_1), ..., (r_m, c_m)` is resolved, every reactant `r_i` is a species of the
arena whose own standard thermo model resolves, and at every `(T, P)` the resolved
model has `G0 = Σ c_i * G0(r_i) + dG0` and `H0 = Σ c_i * H0(r_i) + dH0`, with `dG0` and
`dH0` from the reaction thermo model; the coefficients may be negative. In the chain
`A + 2B = C`, `B + 3C = D`, `C - 2D = E` of the test this gives
`G0(D) = G0(B) + 3*G0(C) + dG0_D` and `G0(E) = G0(C) - 2*G0(D) + dG0_E`, and the same
sums for the enthalpies. -/
theorem standardThermoModel_stoichiometric_sum (R ln10 : ℚ) (db : List Species)
    (rxn : FormationReaction) (m : StandardThermoModel)
    (h : rxn.standardThermoModel R ln10 db = .ok m) :
    (∃ (rm : ReactionThermoModel) (ms : List (ℚ × StandardThermoModel)),
      rxn.reactionThermoModel R ln10 = some rm ∧
      List.Forall₂ (fun rc cm => cm.1 = rc.2 ∧ ∃ sp, findSpecies db rc.1 = some sp ∧
        sp.standardThermoModel R ln10 db = .ok cm.2) rxn.reactants ms ∧
      ∀ T P,
        (m T P).G0 = (ms.map fun cm => cm.1 * (cm.2 T P).G0).sum + (rm T P).dG0 ∧
        (m T P).H0 = (ms.map fun cm => cm.1 * (cm.2 T P).H0).sum + (rm T P).dH0) ∧
    (∃ mB mC mD mE,
      speciesB.standardThermoModel R ln10 (testSpecies R ln10) = .ok mB ∧
      speciesC.reaction.standardThermoModel R ln10 (testSpecies R ln10) = .ok mC ∧
      (speciesD R ln10).reaction.standardThermoModel R ln10 (testSpecies R ln10) = .ok mD ∧
      (speciesE R ln10).reaction.standardThermoModel R ln10 (testSpecies R ln10) = .ok mE ∧
      ∀ T P,
        (mB T P).G0 = 0 ∧
        (mD T P).G0 = (mB T P).G0 + 3 * (mC T P).G0 + -R * T * ln10 * 2.345 ∧
        (mE T P).G0 = (mC T P).G0 - 2 * (mD T P).G0 + -R * T * ln10 * 3.456 ∧
        (mD T P).H0 = (mB T P).H0 + 3 * (mC T P).H0 + 234.5 ∧
        (mE T P).H0 = (mC T P).H0 - 2 * (mD T P).H0 + 345.6) := by
  constructor
  · obtain ⟨rm, ms, hrm, hms, rfl⟩ := resolve_succ_ok h
    refine ⟨rm, ms, hrm, ?_, fun T P => ⟨rfl, rfl⟩⟩
    refine (traverseReactants_forall₂ _ _ hms).imp ?_
    intro rc cm hstep
    cases hsp : findSpecies db rc.1 with
    | none => simp [hsp] at hstep
    | some sp =>
      simp only [hsp] at hstep
      cases hd : sp.data with
      | literal props =>
        simp only [hd, Except.ok.injEq] at hstep
        subst hstep
        exact ⟨rfl, sp, rfl, by simp [Species.standardThermoModel, hd]⟩
      | reaction r =>
        simp only [hd, List.not_mem_nil, if_false] at hstep
        cases hr : resolve R ln10 db db.length [rc.1] r with
        | error e => simp [hr] at hstep
        | ok m' =>
          simp only [hr, Except.ok.injEq] at hstep
          subst hstep
          refine ⟨rfl, sp, rfl, ?_⟩
          simp only [Species.standardThermoModel, hd, FormationReaction.standardThermoModel]
          exact resolve_mono R ln10 db _ _ _ _ r m' (by omega) (by simp) hr
  · refine ⟨_, _, _, _, rfl, rfl, rfl, rfl, ?_⟩
    intro T P
    simp [combineReactants]
    ring_nf

/-- Witness of C4 on species `E` of the test, with `R = 8` and `ln10 = 2`. -/
theorem standardThermoModel_stoichiometric_sum_witness :
    ∃ m, (speciesE 8 2).reaction.standardThermoModel 8 2 (testSpecies 8 2) = .ok m ∧
      ∃ (rm : ReactionThermoModel) (ms : List (ℚ × StandardThermoModel)),
        (speciesE 8 2).reaction.reactionThermoModel 8 2 = some rm ∧
        List.Forall₂ (fun rc cm => cm.1 = rc.2 ∧ ∃ sp,
          findSpecies (testSpecies 8 2) rc.1 = some sp ∧
          sp.standardThermoModel 8 2 (testSpecies 8 2) = .ok cm.2)
          (speciesE 8 2).reaction.reactants ms ∧
        ∀ T P,
          (m T P).G0 = (ms.map fun cm => cm.1 * (cm.2 T P).G0).sum + (rm T P).dG0 ∧
          (m T P).H0 = (ms.map fun cm => cm.1 * (cm.2 T P).H0).sum + (rm T P).dH0 :=
  ⟨_, rfl, (standardThermoModel_stoichiometric_sum 8 2 (testSpecies 8 2)
    (speciesE 8 2).reaction _ rfl).1⟩

/-- C5: a formation reaction configured with `withEquilibriumConstant(lgK)` and no
custom reaction thermo model has a reaction thermo model, whose corrections at every
`(T, P)` are `dG0 = -R*T*ln(10)*lgK` and `dH0 = 0`; for the reaction `A + 2B = C` over
species `A` and `B` with zero standard Gibbs energy and enthalpy, the resolved model
has `G0(C) = -R*T*ln(10)*lgK_C` and `H0(C) = 0`. -/
theorem withEquilibriumConstant_default_model (R ln10 lgK : ℚ) (rxn : FormationReaction)
    (hcustom : rxn.reaction_model = none) :
    (∃ rm : ReactionThermoModel,
      (rxn.withEquilibriumConstant lgK).reactionThermoModel R ln10 = some rm ∧
      ∀ T P, (rm T P).dG0 = -R * T * ln10 * lgK ∧ (rm T P).dH0 = 0) ∧
    (∃ m : StandardThermoModel,
      ((((FormationReaction.empty.withProduct "C").withReactants [("A", 1), ("B", 2)]
        ).withEquilibriumConstant lgK).standardThermoModel R ln10 [speciesA, speciesB]
          = .ok m) ∧
      ∀ T P, (m T P).G0 = -R * T * ln10 * lgK ∧ (m T P).H0 = 0) := by
  constructor
  · refine ⟨fun T _ => ⟨-R * T * ln10 * lgK, 0, 0, 0⟩, ?_, fun T P => ⟨rfl, rfl⟩⟩
    simp [FormationReaction.reactionThermoModel, FormationReaction.withEquilibriumConstant,
      hcustom]
  · refine ⟨_, rfl, ?_⟩
    intro T P
    simp [combineReactants]

/-- Witness of C5 on the empty reaction with `lgK = 1.234`. -/
theorem withEquilibriumConstant_default_model_witness :
    FormationReaction.empty.reaction_model = none ∧
      ∃ rm : ReactionThermoModel,
        (FormationReaction.empty.withEquilibriumConstant 1.234).reactionThermoModel 8 2
          = some rm ∧
        ∀ T P, (rm T P).dG0 = -8 * T * 2 * 1.234 ∧ (rm T P).dH0 = 0 :=
  ⟨rfl, (withEquilibriumConstant_default_model 8 2 1.234 FormationReaction.empty rfl).1⟩

/-- C6: a species that owns literal standard data and no formation reaction has a
`reaction()` whose product is the empty string, whose reactants are empty and whose
reaction thermo model is absent, and `reaction().standardThermoModel()` fails with a
configuration error instead of returning a model; so it is for the species `A` and `B`
of the test. -/
theorem reaction_of_literal_species (R ln10 : ℚ) (db : List Species) (name : String)
    (props : StandardThermoProps) :
    (Species.mk name (.literal props)).reaction.product = "" ∧
    (Species.mk name (.literal props)).reaction.reactants = [] ∧
    (Species.mk name (.literal props)).reaction.reactionThermoModel R ln10 = none ∧
    (Species.mk name (.literal props)).reaction.standardThermoModel R ln10 db
      = .error .noReaction ∧
    speciesA.reaction.standardThermoModel R ln10 db = .error .noReaction ∧
    speciesB.reaction.standardThermoModel R ln10 db = .error .noReaction :=
  ⟨rfl, rfl, rfl, rfl, rfl, rfl⟩

/-- A species that is found in the arena is a member of it and has the name looked up. -/
theorem findSpecies_mem {db : List Species} {name : String} {sp : Species}
    (h : findSpecies db name = some sp) : sp ∈ db ∧ sp.name = name := by
  unfold findSpecies at h
  have h1 := List.find?_some h
  simp only [beq_iff_eq] at h1
  exact ⟨List.mem_of_find?_eq_some h, h1⟩

/-- In a successful traversal the step function succeeds on every reactant. -/
theorem traverseReactants_ok_mem {α ε : Type} {f : String × ℚ → Except ε α} :
    ∀ (l : List (String × ℚ)) (xs : List α), traverseReactants f l = .ok xs →
      ∀ rc ∈ l, ∃ x, f rc = .ok x := by
  intro l
  induction l with
  | nil => intro xs _ rc hrc; simp at hrc
  | cons rc0 rest ih =>
    intro xs h rc hrc
    cases hf : f rc0 with
    | error e => simp [traverseReactants, hf] at h
    | ok x =>
      cases hr : traverseReactants f rest with
      | error e => simp [traverseReactants, hf, hr] at h
      | ok ys =>
        rcases List.mem_cons.1 hrc with rfl | hmem
        · exact ⟨x, hf⟩
        · exact ih ys hr rc hmem

/-- A chain of reactants that ends at the species `name` continues with any chain that
starts at the reaction of that species. -/
theorem ReactantPath.append {db : List Species} {name : String} {sp : Species}
    {r2 : FormationReaction} {p2 : List String}
    (hsp : findSpecies db name = some sp) (hd : sp.data = .reaction r2)
    (h2 : ReactantPath db r2 p2) :
    ∀ (q : List String) (r : FormationReaction), ReactantPath db r (q ++ [name]) →
      ReactantPath db r (q ++ [name] ++ p2) := by
  intro q
  induction q with
  | nil =>
    intro r h
    obtain ⟨c, sp', r', hmem, hsp', hd', -⟩ := h
    rw [hsp] at hsp'
    cases hsp'
    rw [hd] at hd'
    cases hd'
    exact ⟨c, sp, r2, hmem, hsp, hd, h2⟩
  | cons p rest ih =>
    intro r h
    obtain ⟨c, sp', r', hmem, hsp', hd', hrest⟩ := h
    exact ⟨c, sp', r', hmem, hsp', hd', ih r' hrest⟩

/-- When a resolution succeeds, no chain of reactants from the reaction repeats a
species or meets a visited species. -/
theorem resolve_ok_path (R ln10 : ℚ) (db : List Species) :
    ∀ (fuel : Nat) (visited : List String) (rxn : FormationReaction)
      (m : StandardThermoModel), resolve R ln10 db fuel visited rxn = .ok m →
      ∀ path, ReactantPath db rxn path → path.Nodup ∧ ∀ x ∈ path, x ∉ visited := by
  intro fuel
  induction fuel with
  | zero => intro v rxn m h; simp [resolve] at h
  | succ k ih =>
    intro v rxn m h path hpath
    obtain ⟨rm, ms, -, hms, -⟩ := resolve_succ_ok h
    cases path with
    | nil => exact ⟨List.nodup_nil, by simp⟩
    | cons p rest =>
      obtain ⟨c, sp, r, hmem, hsp, hd, hrest⟩ := hpath
      obtain ⟨x, hx⟩ := traverseReactants_ok_mem _ _ hms (p, c) hmem
      simp only [hsp, hd] at hx
      by_cases hv : p ∈ v
      · simp [hv] at hx
      · simp only [hv, if_false] at hx
        cases hr : resolve R ln10 db k (p :: v) r with
        | error e => simp [hr] at hx
        | ok m' =>
          obtain ⟨hnd, hnv⟩ := ih (p :: v) r m' hr rest hrest
          refine ⟨List.nodup_cons.2 ⟨fun hp => hnv p hp (List.mem_cons_self _ _), hnd⟩, ?_⟩
          intro y hy
          rcases List.mem_cons.1 hy with rfl | hy
          · exact hv
          · exact fun hc => hnv y hy (List.mem_cons_of_mem _ hc)

/-- In an arena of well-formed reactions, the resolution of a well-formed reaction
fails only on a cycle or on the depth bound. -/
theorem resolve_wellFormed_error (R ln10 : ℚ) (db : List Species)
    (hdb : ∀ sp ∈ db, ∀ r, sp.data = .reaction r → r.wellFormed R ln10 db) :
    ∀ (fuel : Nat) (visited : List String) (rxn : FormationReaction) (e : ConfigurationError),
      rxn.wellFormed R ln10 db → resolve R ln10 db fuel visited rxn = .error e →
      e = .depthExceeded ∨ e = .cyclicReaction := by
  intro fuel
  induction fuel with
  | zero =>
    intro v rxn e _ h
    simp only [resolve, Except.error.injEq] at h
    exact Or.inl h.symm
  | succ k ih =>
    intro v rxn e hwf h
    rw [resolve] at h
    cases hrm : rxn.reactionThermoModel R ln10 with
    | none => simp [FormationReaction.wellFormed, hrm] at hwf
    | some rm =>
      simp only [hrm] at h
      split at h
      · rename_i e' htr
        simp only [Except.error.injEq] at h
        subst h
        obtain ⟨rc, hmem, hstep⟩ := traverseReactants_error _ htr
        cases hsp : findSpecies db rc.1 with
        | none =>
          have := hwf.2 rc hmem
          simp [hsp] at this
        | some sp =>
          simp only [hsp] at hstep
          cases hd : sp.data with
          | literal props => simp [hd] at hstep
          | reaction r =>
            simp only [hd] at hstep
            by_cases hv : rc.1 ∈ v
            · simp only [hv, if_true, Except.error.injEq] at hstep
              exact Or.inr hstep.symm
            · simp only [hv, if_false] at hstep
              cases hr : resolve R ln10 db k (rc.1 :: v) r with
              | ok m => simp [hr] at hstep
              | error e' =>
                simp only [hr, Except.error.injEq] at hstep
                subst hstep
                exact ih (rc.1 :: v) r _ (hdb sp (findSpecies_mem hsp).1 r hd) hr
      · simp at h

/-- When every reactant that has a formation reaction ranks strictly below the species
it forms, and below every visited species, the resolution meets no cycle. -/
theorem resolve_ranked (R ln10 : ℚ) (db : List Species) (rank : String → Nat)
    (hrank : ∀ sp ∈ db, ∀ r, sp.data = .reaction r → ∀ rc ∈ r.reactants, ∀ sp1 r1,
      findSpecies db rc.1 = some sp1 → sp1.data = .reaction r1 → rank rc.1 < rank sp.name) :
    ∀ (fuel : Nat) (visited : List String) (rxn : FormationReaction),
      (∀ v ∈ visited, ∀ rc ∈ rxn.reactants, ∀ sp1 r1,
        findSpecies db rc.1 = some sp1 → sp1.data = .reaction r1 → rank rc.1 < rank v) →
      resolve R ln10 db fuel visited rxn ≠ .error .cyclicReaction := by
  intro fuel
  induction fuel with
  | zero => intro v rxn _ h; simp [resolve] at h
  | succ k ih =>
    intro v rxn hinv h
    rw [resolve] at h
    cases hrm : rxn.reactionThermoModel R ln10 with
    | none => simp [hrm] at h
    | some rm =>
      simp only [hrm] at h
      split at h
      · rename_i e' htr
        simp only [Except.error.injEq] at h
        subst h
        obtain ⟨rc, hmem, hstep⟩ := traverseReactants_error _ htr
        cases hsp : findSpecies db rc.1 with
        | none => simp [hsp] at hstep
        | some sp =>
          simp only [hsp] at hstep
          cases hd : sp.data with
          | literal props => simp [hd] at hstep
          | reaction r =>
            simp only [hd] at hstep
            by_cases hv : rc.1 ∈ v
            · exact absurd (hinv rc.1 hv rc hmem sp r hsp hd) (lt_irrefl _)
            · simp only [hv, if_false] at hstep
              cases hr : resolve R ln10 db k (rc.1 :: v) r with
              | ok m => simp [hr] at hstep
              | error e' =>
                simp only [hr, Except.error.injEq] at hstep
                subst hstep
                refine ih (rc.1 :: v) r ?_ hr
                intro y hy rc1 hrc1 sp1 r1 hsp1 hd1
                have hlt : rank rc1.1 < rank rc.1 := by
                  have := hrank sp (findSpecies_mem hsp).1 r hd rc1 hrc1 sp1 r1 hsp1 hd1
                  rwa [(findSpecies_mem hsp).2] at this
                rcases List.mem_cons.1 hy with rfl | hy
                · exact hlt
                · exact lt_trans hlt (hinv y hy rc hmem sp r hsp hd)
      · simp at h

/-- C26: the resolver is a total function whose depth bound is never the reason of a
failure, on every arena and reaction. When the reaction and the reactions of the arena
are well formed and the reactant graph is acyclic (a rank decreases strictly from every
species to its reactants that have a formation reaction), it returns a model. When the
reaction is that of a species `name` of the arena and a chain of reactants leads from it
back to `name`, it fails with a configuration error that is not the depth bound, and
that is the cycle error when the reactions are well formed. The same failure holds
when any species reached from the reaction along a chain of reactants is its own direct
or indirect reactant, and, most generally, whenever some chain of reactants from the
reaction names a species twice. -/
theorem resolver_terminates (R ln10 : ℚ) (db : List Species) (rxn : FormationReaction) :
    rxn.standardThermoModel R ln10 db ≠ .error .depthExceeded ∧
    (∀ rank : String → Nat,
      rxn.wellFormed R ln10 db →
      (∀ sp ∈ db, ∀ r, sp.data = .reaction r → r.wellFormed R ln10 db) →
      (∀ sp ∈ db, ∀ r, sp.data = .reaction r → ∀ rc ∈ r.reactants, ∀ sp1 r1,
        findSpecies db rc.1 = some sp1 → sp1.data = .reaction r1 →
        rank rc.1 < rank sp.name) →
      ∃ m, rxn.standardThermoModel R ln10 db = .ok m) ∧
    (∀ (name : String) (sp : Species) (path : List String),
      findSpecies db name = some sp → sp.data = .reaction rxn →
      ReactantPath db rxn path → path.getLast? = some name →
      ∃ e, rxn.standardThermoModel R ln10 db = .error e ∧ e ≠ .depthExceeded ∧
        (rxn.wellFormed R ln10 db →
          (∀ sp ∈ db, ∀ r, sp.data = .reaction r → r.wellFormed R ln10 db) →
          e = .cyclicReaction)) ∧
    (∀ (name : String) (sp : Species) (r : FormationReaction) (p q : List String),
      ReactantPath db rxn p → p.getLast? = some name →
      findSpecies db name = some sp → sp.data = .reaction r →
      ReactantPath db r q → q.getLast? = some name →
      ∃ e, rxn.standardThermoModel R ln10 db = .error e ∧ e ≠ .depthExceeded ∧
        (rxn.wellFormed R ln10 db →
          (∀ sp ∈ db, ∀ r, sp.data = .reaction r → r.wellFormed R ln10 db) →
          e = .cyclicReaction)) ∧
    (∀ path : List String, ReactantPath db rxn path → ¬ path.Nodup →
      ∃ e, rxn.standardThermoModel R ln10 db = .error e ∧ e ≠ .depthExceeded ∧
        (rxn.wellFormed R ln10 db →
          (∀ sp ∈ db, ∀ r, sp.data = .reaction r → r.wellFormed R ln10 db) →
          e = .cyclicReaction)) := by
  have hfuel : rxn.standardThermoModel R ln10 db ≠ .error .depthExceeded :=
    resolve_fuel R ln10 db (db.length + 1) [] rxn List.nodup_nil (by simp) (by simp)
  have hfail : ∀ path : List String, ReactantPath db rxn path → ¬ path.Nodup →
      ∃ e, rxn.standardThermoModel R ln10 db = .error e ∧ e ≠ .depthExceeded ∧
        (rxn.wellFormed R ln10 db →
          (∀ sp ∈ db, ∀ r, sp.data = .reaction r → r.wellFormed R ln10 db) →
          e = .cyclicReaction) := by
    intro path hpath hdup
    cases hres : rxn.standardThermoModel R ln10 db with
    | ok m => exact absurd (resolve_ok_path R ln10 db _ _ _ _ hres _ hpath).1 hdup
    | error e =>
      refine ⟨e, rfl, fun he => hfuel (he ▸ hres), ?_⟩
      intro hwf hdb
      rcases resolve_wellFormed_error R ln10 db hdb _ _ _ _ hwf hres with rfl | rfl
      · exact absurd hres hfuel
      · rfl
  refine ⟨hfuel, ?_, ?_, ?_, hfail⟩
  · intro rank hwf hdb hrank
    cases hres : rxn.standardThermoModel R ln10 db with
    | ok m => exact ⟨m, rfl⟩
    | error e =>
      exfalso
      rcases resolve_wellFormed_error R ln10 db hdb _ _ _ _ hwf hres with rfl | rfl
      · exact hfuel hres
      · exact resolve_ranked R ln10 db rank hrank _ [] rxn (by simp) hres
  · intro name sp path hsp hd hpath hlast
    cases hres : rxn.standardThermoModel R ln10 db with
    | ok m =>
      exfalso
      obtain ⟨q, rfl⟩ : ∃ q, path = q ++ [name] := by
        rcases List.getLast?_eq_some_iff.1 hlast with ⟨q, hq⟩
        exact ⟨q, hq⟩
      have hcat := ReactantPath.append hsp hd hpath q rxn hpath
      have hnd := (resolve_ok_path R ln10 db _ _ _ _ hres _ hcat).1
      have hmem : name ∈ q ++ [name] := List.mem_append_right _ (List.mem_singleton_self _)
      exact List.disjoint_left.1 (List.nodup_append.1 hnd).2.2 hmem hmem
    | error e =>
      refine ⟨e, rfl, fun he => hfuel (he ▸ hres), ?_⟩
      intro hwf hdb
      rcases resolve_wellFormed_error R ln10 db hdb _ _ _ _ hwf hres with rfl | rfl
      · exact absurd hres hfuel
      · rfl
  · intro name sp r p q hp hplast hsp hd hq hqlast
    obtain ⟨p1, rfl⟩ : ∃ p1, p = p1 ++ [name] := by
      rcases List.getLast?_eq_some_iff.1 hplast with ⟨p1, hp1⟩
      exact ⟨p1, hp1⟩
    obtain ⟨q1, rfl⟩ : ∃ q1, q = q1 ++ [name] := by
      rcases List.getLast?_eq_some_iff.1 hqlast with ⟨q1, hq1⟩
      exact ⟨q1, hq1⟩
    refine hfail _ (ReactantPath.append hsp hd hq p1 rxn hp) ?_
    intro hnd
    exact List.disjoint_left.1 (List.nodup_append.1 hnd).2.2
      (List.mem_append_right _ (List.mem_singleton_self _))
      (List.mem_append_right _ (List.mem_singleton_self _))

/-- The reactions of the arena of the test are well formed. -/
theorem testSpecies_wellFormed (R ln10 : ℚ) :
    ∀ sp ∈ testSpecies R ln10, ∀ r, sp.data = .reaction r →
      r.wellFormed R ln10 (testSpecies R ln10) := by
  intro sp hsp r hd
  simp only [testSpecies, List.mem_cons, List.mem_singleton, List.not_mem_nil, or_false] at hsp
  rcases hsp with rfl | rfl | rfl | rfl | rfl
  · cases hd
  · cases hd
  · cases hd
    refine ⟨rfl, ?_⟩
    intro rc hrc
    have hrc1 : rc ∈ [("A", (1 : ℚ)), ("B", 2)] := hrc
    simp only [List.mem_cons, List.mem_singleton, List.not_mem_nil, or_false] at hrc1
    rcases hrc1 with rfl | rfl <;> rfl
  · cases hd
    refine ⟨rfl, ?_⟩
    intro rc hrc
    have hrc1 : rc ∈ [("B", (1 : ℚ)), ("C", 3)] := hrc
    simp only [List.mem_cons, List.mem_singleton, List.not_mem_nil, or_false] at hrc1
    rcases hrc1 with rfl | rfl <;> rfl
  · cases hd
    refine ⟨rfl, ?_⟩
    intro rc hrc
    have hrc1 : rc ∈ [("C", (1 : ℚ)), ("D", -2)] := hrc
    simp only [List.mem_cons, List.mem_singleton, List.not_mem_nil, or_false] at hrc1
    rcases hrc1 with rfl | rfl <;> rfl

/-- In the arena of the test every reactant ranks strictly below the species it forms. -/
theorem testSpecies_ranked (R ln10 : ℚ) :
    ∀ sp ∈ testSpecies R ln10, ∀ r, sp.data = .reaction r → ∀ rc ∈ r.reactants,
      ∀ sp1 r1, findSpecies (testSpecies R ln10) rc.1 = some sp1 → sp1.data = .reaction r1 →
      testRank rc.1 < testRank sp.name := by
  intro sp hsp r hd rc hrc sp1 r1 _ _
  simp only [testSpecies, List.mem_cons, List.mem_singleton, List.not_mem_nil, or_false] at hsp
  rcases hsp with rfl | rfl | rfl | rfl | rfl
  · cases hd
  · cases hd
  · cases hd
    have hrc1 : rc ∈ [("A", (1 : ℚ)), ("B", 2)] := hrc
    simp only [List.mem_cons, List.mem_singleton, List.not_mem_nil, or_false] at hrc1
    rcases hrc1 with rfl | rfl <;> decide
  · cases hd
    have hrc1 : rc ∈ [("B", (1 : ℚ)), ("C", 3)] := hrc
    simp only [List.mem_cons, List.mem_singleton, List.not_mem_nil, or_false] at hrc1
    rcases hrc1 with rfl | rfl
    · exact (by decide : testRank "B" < testRank "D")
    · exact (by decide : testRank "C" < testRank "D")
  · cases hd
    have hrc1 : rc ∈ [("C", (1 : ℚ)), ("D", -2)] := hrc
    simp only [List.mem_cons, List.mem_singleton, List.not_mem_nil, or_false] at hrc1
    rcases hrc1 with rfl | rfl
    · exact (by decide : testRank "C" < testRank "E")
    · exact (by decide : testRank "D" < testRank "E")

/-- The reactions of the cyclic arena are well formed. -/
theorem cyclicSpecies_wellFormed (R ln10 : ℚ) :
    ∀ sp ∈ cyclicSpecies, ∀ r, sp.data = .reaction r → r.wellFormed R ln10 cyclicSpecies := by
  intro sp hsp r hd
  simp only [cyclicSpecies, List.mem_cons, List.mem_singleton, List.not_mem_nil, or_false]
    at hsp
  rcases hsp with rfl | rfl
  · cases hd
    refine ⟨rfl, ?_⟩
    intro rc hrc
    have hrc1 : rc ∈ [("Y", (1 : ℚ))] := hrc
    simp only [List.mem_singleton] at hrc1
    subst hrc1
    rfl
  · cases hd
    refine ⟨rfl, ?_⟩
    intro rc hrc
    have hrc1 : rc ∈ [("X", (2 : ℚ))] := hrc
    simp only [List.mem_singleton] at hrc1
    subst hrc1
    rfl

/-- The reactions of the arena whose cycle lies below the resolved species are well
formed. -/
theorem lassoSpecies_wellFormed (R ln10 : ℚ) :
    ∀ sp ∈ lassoSpecies, ∀ r, sp.data = .reaction r → r.wellFormed R ln10 lassoSpecies := by
  intro sp hsp r hd
  simp only [lassoSpecies, List.mem_cons, List.mem_singleton, List.not_mem_nil, or_false]
    at hsp
  rcases hsp with rfl | rfl | rfl
  · cases hd
    refine ⟨rfl, ?_⟩
    intro rc hrc
    have hrc1 : rc ∈ [("P", (1 : ℚ))] := hrc
    simp only [List.mem_singleton] at hrc1
    subst hrc1
    rfl
  · cases hd
    refine ⟨rfl, ?_⟩
    intro rc hrc
    have hrc1 : rc ∈ [("Q", (1 : ℚ))] := hrc
    simp only [List.mem_singleton] at hrc1
    subst hrc1
    rfl
  · cases hd
    refine ⟨rfl, ?_⟩
    intro rc hrc
    have hrc1 : rc ∈ [("P", (3 : ℚ))] := hrc
    simp only [List.mem_singleton] at hrc1
    subst hrc1
    rfl

/-- Witness of C26: species `E` of the test, three levels deep, resolves; species `X` of
the cyclic arena, which is a reactant of its reactant `Y`, fails with the cycle error;
and so does species `R`, which is on no cycle but whose reactant `P` is a reactant of
its own reactant `Q`. -/
theorem resolver_terminates_witness :
    ((speciesE 8 2).reaction.wellFormed 8 2 (testSpecies 8 2) ∧
      ∃ m, (speciesE 8 2).reaction.standardThermoModel 8 2 (testSpecies 8 2) = .ok m) ∧
    (findSpecies cyclicSpecies "X" = some speciesX ∧
      speciesX.data = .reaction speciesX.reaction ∧
      ReactantPath cyclicSpecies speciesX.reaction ["Y", "X"] ∧
      ["Y", "X"].getLast? = some "X" ∧
      ∃ e, speciesX.reaction.standardThermoModel 8 2 cyclicSpecies = .error e ∧
        e ≠ .depthExceeded ∧ e = .cyclicReaction) ∧
    (ReactantPath lassoSpecies speciesR.reaction ["P"] ∧
      findSpecies lassoSpecies "P" = some speciesP ∧
      speciesP.data = .reaction speciesP.reaction ∧
      ReactantPath lassoSpecies speciesP.reaction ["Q", "P"] ∧
      ∃ e, speciesR.reaction.standardThermoModel 8 2 lassoSpecies = .error e ∧
        e ≠ .depthExceeded ∧ e = .cyclicReaction) :=
  have hE : (speciesE 8 2).reaction.wellFormed 8 2 (testSpecies 8 2) :=
    testSpecies_wellFormed 8 2 (speciesE 8 2) (by simp [testSpecies]) _ rfl
  have hX : speciesX.reaction.wellFormed 8 2 cyclicSpecies :=
    cyclicSpecies_wellFormed 8 2 speciesX (by simp [cyclicSpecies]) _ rfl
  have hpath : ReactantPath cyclicSpecies speciesX.reaction ["Y", "X"] :=
    ⟨1, speciesY, speciesY.reaction, List.mem_singleton_self _, rfl, rfl,
      2, speciesX, speciesX.reaction, List.mem_singleton_self _, rfl, rfl, trivial⟩
  have hR : speciesR.reaction.wellFormed 8 2 lassoSpecies :=
    lassoSpecies_wellFormed 8 2 speciesR (by simp [lassoSpecies]) _ rfl
  have hRP : ReactantPath lassoSpecies speciesR.reaction ["P"] :=
    ⟨1, speciesP, speciesP.reaction, List.mem_singleton_self _, rfl, rfl, trivial⟩
  have hPQ : ReactantPath lassoSpecies speciesP.reaction ["Q", "P"] :=
    ⟨1, speciesQ, speciesQ.reaction, List.mem_singleton_self _, rfl, rfl,
      3, speciesP, speciesP.reaction, List.mem_singleton_self _, rfl, rfl, trivial⟩
  ⟨⟨hE, (resolver_terminates 8 2 (testSpecies 8 2) (speciesE 8 2).reaction).2.1 testRank hE
      (testSpecies_wellFormed 8 2) (testSpecies_ranked 8 2)⟩,
    ⟨rfl, rfl, hpath, rfl,
      match (resolver_terminates 8 2 cyclicSpecies speciesX.reaction).2.2.1 "X" speciesX
          ["Y", "X"] rfl rfl hpath rfl with
      | ⟨e, he, hne, hc⟩ => ⟨e, he, hne, hc hX (cyclicSpecies_wellFormed 8 2)⟩⟩,
    hRP, rfl, rfl, hPQ,
    match (resolver_terminates 8 2 lassoSpecies speciesR.reaction).2.2.2.1 "P" speciesP
        speciesP.reaction ["P"] ["Q", "P"] hRP rfl rfl rfl hPQ rfl with
    | ⟨e, he, hne, hc⟩ => ⟨e, he, hne, hc hR (lassoSpecies_wellFormed 8 2)⟩⟩

/-- C25: for a formation reaction built with `withProduct(p)` and `withReactants(list)`,
in either order and whatever else is configured afterwards, `product()` is `p` and
`reactants()` is `list`, with the same pairs in the same order; `stoichiometry(name)` is
the coefficient of the first reactant called `name`, so the coefficient stored for it
when the names are distinct, and zero when no reactant has that name. The reactions of
the species `C`, `D` and `E` of the test return their products, reactants and
coefficients, among them `-2` for `D` in `C - 2D = E`. -/
theorem builders_roundtrip (r : FormationReaction) (p : String) (list : List (String × ℚ)) :
    ((r.withProduct p).withReactants list).product = p ∧
    ((r.withProduct p).withReactants list).reactants = list ∧
    ((r.withReactants list).withProduct p).product = p ∧
    ((r.withReactants list).withProduct p).reactants = list ∧
    (∀ V0 lgK, ((((r.withProduct p).withReactants list).withProductStandardVolume V0
        ).withEquilibriumConstant lgK).product = p ∧
      ((((r.withProduct p).withReactants list).withProductStandardVolume V0
        ).withEquilibriumConstant lgK).reactants = list) ∧
    (∀ V0 model, ((((r.withProduct p).withReactants list).withProductStandardVolume V0
        ).withReactionThermoModel model).product = p ∧
      ((((r.withProduct p).withReactants list).withProductStandardVolume V0
        ).withReactionThermoModel model).reactants = list) ∧
    (∀ pre post name c, list = pre ++ (name, c) :: post → (∀ rc ∈ pre, rc.1 ≠ name) →
      ((r.withProduct p).withReactants list).stoichiometry name = c) ∧
    (∀ name c, (name, c) ∈ list → (list.map Prod.fst).Nodup →
      ((r.withProduct p).withReactants list).stoichiometry name = c) ∧
    (∀ name, (∀ rc ∈ list, rc.1 ≠ name) →
      ((r.withProduct p).withReactants list).stoichiometry name = 0) ∧
    (speciesC.reaction.product = "C" ∧
      speciesC.reaction.reactants = [("A", 1), ("B", 2)] ∧
      speciesC.reaction.stoichiometry "A" = 1 ∧ speciesC.reaction.stoichiometry "B" = 2) ∧
    (∀ R ln10, (speciesD R ln10).reaction.product = "D" ∧
      (speciesD R ln10).reaction.reactants = [("B", 1), ("C", 3)] ∧
      (speciesD R ln10).reaction.stoichiometry "B" = 1 ∧
      (speciesD R ln10).reaction.stoichiometry "C" = 3) ∧
    (∀ R ln10, (speciesE R ln10).reaction.product = "E" ∧
      (speciesE R ln10).reaction.reactants = [("C", 1), ("D", -2)] ∧
      (speciesE R ln10).reaction.stoichiometry "C" = 1 ∧
      (speciesE R ln10).reaction.stoichiometry "D" = -2) := by
  have hfirst : ∀ pre post name c, list = pre ++ (name, c) :: post →
      (∀ rc ∈ pre, rc.1 ≠ name) →
      ((r.withProduct p).withReactants list).stoichiometry name = c := by
    intro pre post name c hlist hpre
    subst hlist
    have hfind : (pre ++ (name, c) :: post).find? (fun rc => rc.1 == name) = some (name, c) := by
      rw [List.find?_append, List.find?_eq_none.2 (fun rc hrc => by simpa using hpre rc hrc)]
      simp
    simp only [FormationReaction.stoichiometry, FormationReaction.withReactants, hfind]
  refine ⟨rfl, rfl, rfl, rfl, fun _ _ => ⟨rfl, rfl⟩, fun _ _ => ⟨rfl, rfl⟩, hfirst, ?_, ?_,
    ⟨rfl, rfl, rfl, rfl⟩, fun _ _ => ⟨rfl, rfl, rfl, rfl⟩, fun _ _ => ⟨rfl, rfl, rfl, rfl⟩⟩
  · intro name c hmem hnd
    obtain ⟨pre, post, hlist⟩ := List.append_of_mem hmem
    refine hfirst pre post name c hlist ?_
    intro rc hrc hname
    rw [hlist, List.map_append, List.map_cons] at hnd
    have hdisj := (List.nodup_append.1 hnd).2.2
    exact List.disjoint_left.1 hdisj (List.mem_map_of_mem Prod.fst hrc)
      (by rw [hname]; exact List.mem_cons_self _ _)
  · intro name hnone
    have hfind : list.find? (fun rc => rc.1 == name) = none :=
      List.find?_eq_none.2 (fun rc hrc => by simpa using hnone rc hrc)
    simp only [FormationReaction.stoichiometry, FormationReaction.withReactants, hfind]

/-- Witness of C25: the reactants of `C - 2D = E`, with the negative coefficient of `D`. -/
theorem builders_roundtrip_witness :
    ([("C", (1 : ℚ)), ("D", -2)] = [("C", (1 : ℚ))] ++ ("D", -2) :: [] ∧
      (∀ rc ∈ [("C", (1 : ℚ))], rc.1 ≠ "D") ∧
      ((FormationReaction.empty.withProduct "E").withReactants
        [("C", 1), ("D", -2)]).stoichiometry "D" = -2) ∧
    ((∀ rc ∈ [("C", (1 : ℚ)), ("D", -2)], rc.1 ≠ "A") ∧
      ((FormationReaction.empty.withProduct "E").withReactants
        [("C", 1), ("D", -2)]).stoichiometry "A" = 0) :=
  have h1 : ∀ rc ∈ [("C", (1 : ℚ))], rc.1 ≠ "D" := by
    intro rc hrc
    simp only [List.mem_singleton] at hrc
    subst hrc
    decide
  have h2 : ∀ rc ∈ [("C", (1 : ℚ)), ("D", -2)], rc.1 ≠ "A" := by
    intro rc hrc
    simp only [List.mem_cons, List.mem_singleton, List.not_mem_nil, or_false] at hrc
    rcases hrc with rfl | rfl <;> decide
  ⟨⟨rfl, h1, (builders_roundtrip FormationReaction.empty "E" [("C", 1), ("D", -2)]).2.2.2.2.2.2.1
      [("C", 1)] [] "D" (-2) rfl h1⟩,
    h2, (builders_roundtrip FormationReaction.empty "E" [("C", 1), ("D", -2)]).2.2.2.2.2.2.2.2.1
      "A" h2⟩

/-! # Properties of the DEW activity model -/

/-- The loop of `activityModelDEW` writes, at every index it runs over, the correction
term of the species when its name is a key of the table, and leaves the zero there
otherwise; the other entries are not touched. -/
theorem dewCorrections_entries (log : ℚ → ℚ) (mixture : AqueousMixture) (T P : ℚ) :
    ∀ (k i : Nat) (acc : List ℚ), i + k ≤ mixture.species.length → i + k ≤ acc.length →
      (∀ j, i ≤ j → j < acc.length → acc[j]? = some 0) →
      ∃ res, dewCorrections log mixture T P k i acc = some res ∧ res.length = acc.length ∧
        (∀ j, j < i → res[j]? = acc[j]?) ∧
        ∀ j name, i ≤ j → j < i + k → mixture.species[j]? = some name →
          res[j]? = some (((dew_parameters.lookup name).map
            (dewCorrectionTerm log T P)).getD 0) := by
  intro k
  induction k with
  | zero =>
    intro i acc _ _ _
    exact ⟨acc, rfl, rfl, fun _ _ => rfl, fun j name h1 h2 => by omega⟩
  | succ k ih =>
    intro i acc hs hacc hzero
    have hi : i < mixture.species.length := by omega
    have hname : mixture.species[i]? = some (mixture.species[i]) :=
      List.getElem?_eq_getElem hi
    cases hlook : dew_parameters.lookup mixture.species[i] with
    | none =>
      obtain ⟨res, hres, hlen, hlow, hent⟩ := ih (i + 1) acc (by omega) (by omega)
        (fun j hj hjl => hzero j (by omega) hjl)
      refine ⟨res, ?_, hlen, fun j hj => hlow j (by omega), ?_⟩
      · simp only [dewCorrections, hname, Option.some_bind, hlook]
        exact hres
      · intro j name h1 h2 hn
        rcases Nat.eq_or_lt_of_le h1 with rfl | hlt
        · rw [hname] at hn
          cases hn
          rw [hlow i (by omega), hzero i le_rfl (by omega), hlook]
          rfl
        · exact hent j name (by omega) (by omega) hn
    | some params =>
      obtain ⟨res, hres, hlen, hlow, hent⟩ := ih (i + 1)
        (acc.set i (dewCorrectionTerm log T P params))
        (by omega) (by simp only [List.length_set]; omega)
        (fun j hj hjl => by
          rw [List.getElem?_set_ne (by omega)]
          exact hzero j (by omega) (by simpa using hjl))
      refine ⟨res, ?_, by simpa using hlen, ?_, ?_⟩
      · simp only [dewCorrections, hname, Option.some_bind, hlook]
        exact hres
      · intro j hj
        rw [hlow j (by omega), List.getElem?_set_ne (by omega)]
      · intro j name h1 h2 hn
        rcases Nat.eq_or_lt_of_le h1 with rfl | hlt
        · rw [hname] at hn
          cases hn
          rw [hlow i (by omega), List.getElem?_set_self (by omega), hlook]
          rfl
        · exact hent j name (by omega) (by omega) hn

/-- C28: when the mixture has a species for every entry of `x` and its HKF result has
the length of `x`, the DEW activity model returns props whose state of matter is
`Liquid` and whose `ln_g[i]` is `lnGammaHKF[i] + d_i`, where `lnGammaHKF` is the HKF
result of the mixture at `(T, P, x)` and `d_i` is
`eta * (a1/T + a2/T^2 + a3*log(T) + a4*T + c1*P + c2*P^2)` with the parameters of the
species when its name is a key of the parameter table, and `0` otherwise; `d_i` is a
function of `T`, `P` and the name alone. The keys of the table are `Na+` and `Cl-`. -/
theorem activityModelDEW_ln_g (log : ℚ → ℚ) (mixture : AqueousMixture) (props : ActivityProps)
    (T P : ℚ) (x : List ℚ)
    (hspecies : x.length ≤ mixture.species.length)
    (hHKF : (mixture.lnActivityCoefficients T P x).length = x.length) :
    ∃ out, activityModelDEW log mixture props T P x = some out ∧
      out.som = StateOfMatter.Liquid ∧ out.ln_g.length = x.length ∧
      (∀ (i : Nat) name g, i < x.length → mixture.species[i]? = some name →
        (mixture.lnActivityCoefficients T P x)[i]? = some g →
        (∀ params, dew_parameters.lookup name = some params →
          out.ln_g[i]? = some (g + eta * (params.a1 / T + params.a2 / T ^ 2 +
            params.a3 * log T + params.a4 * T + params.c1 * P + params.c2 * P ^ 2))) ∧
        (dew_parameters.lookup name = none → out.ln_g[i]? = some (g + 0))) ∧
      (∀ name, (∃ params, dew_parameters.lookup name = some params) ↔
        name = "Na+" ∨ name = "Cl-") := by
  obtain ⟨dew, hdew, hdlen, -, hdent⟩ := dewCorrections_entries log mixture T P x.length 0
    (List.replicate x.length 0) (by omega) (by simp)
    (fun j _ hj => by
      rw [List.length_replicate] at hj
      simp [List.getElem?_replicate, hj])
  simp only [List.length_replicate] at hdlen
  obtain ⟨ln_g, hg, hglen, hgent⟩ := zipSame_entries (· + ·)
    (mixture.lnActivityCoefficients T P x) dew (by rw [hHKF, hdlen])
  obtain ⟨ln_a, ha, -, -⟩ := zipSame_entries (· + ·) ln_g (x.map log)
    (by rw [hglen, hHKF, List.length_map])
  refine ⟨{ props with ln_g := ln_g, ln_a := ln_a, som := StateOfMatter.Liquid }, ?_, rfl,
    by rw [hglen, hHKF], ?_, ?_⟩
  · simp only [activityModelDEW, hdew, Option.some_bind, hg, ha, Option.map_some']
  · intro i name g hi hname hgam
    have hd := hdent i name (Nat.zero_le _) (by omega) hname
    constructor
    · intro params hlook
      rw [hlook] at hd
      have := hgent i g _ hgam hd
      rw [this]
      simp only [Option.map_some', Option.getD_some, dewCorrectionTerm]
      congr 2
      ring
    · intro hlook
      rw [hlook] at hd
      exact hgent i g _ hgam hd
  · intro name
    constructor
    · rintro ⟨params, hlook⟩
      by_contra hne
      push_neg at hne
      have h1 : (name == "Na+") = false := beq_eq_false_iff_ne.2 hne.1
      have h2 : (name == "Cl-") = false := beq_eq_false_iff_ne.2 hne.2
      simp [dew_parameters, List.lookup, h1, h2] at hlook
    · rintro (rfl | rfl)
      · exact ⟨_, rfl⟩
      · exact ⟨_, rfl⟩

/-- Witness of C28 on the mixture and the mole fractions of the test, at `T = 300` and
`P = 2`, with `log` read as the identity: `Na+` is a key of the table, `CO2` is not. -/
theorem activityModelDEW_ln_g_witness :
    moleFractions.length ≤ testMixture.species.length ∧
    (testMixture.lnActivityCoefficients 300 2 moleFractions).length = moleFractions.length ∧
    ∃ out, activityModelDEW id testMixture ⟨[], [], StateOfMatter.Unspecified⟩ 300 2
        moleFractions = some out ∧
      out.som = StateOfMatter.Liquid ∧
      out.ln_g[3]? = some ((300 + 2 * (0.3 / testAmounts.sum)) +
        eta * (1 / 300 + 2 / 300 ^ 2 + 3 * id 300 + 4 * 300 + 5 * 2 + 6 * 2 ^ 2)) ∧
      out.ln_g[8]? = some ((300 + 2 * (0.1 / testAmounts.sum)) + 0) := by
  obtain ⟨out, h, hsom, -, hent, -⟩ :=
    activityModelDEW_ln_g id testMixture ⟨[], [], StateOfMatter.Unspecified⟩ 300 2
      moleFractions (by decide) rfl
  exact ⟨by decide, rfl, out, h, hsom,
    (hent 3 "Na+" _ (by decide) rfl rfl).1 ⟨1, 2, 3, 4, 5, 6⟩ rfl,
    (hent 8 "CO2" _ (by decide) rfl rfl).2 rfl⟩

/-- C27, what the code does: `ln_a = ln_g + log(x)`, so for every species `i`, water or
solute, `ln_a[i] - ln_g[i] = log(x[i])` and, for a positive `x[i]`,
`exp(ln_a[i] - ln_g[i])` is the mole fraction `x[i]`; for a solute this is not the
molality `x[i] / (x[H2O] * waterMolarMass)` that `checkActivities` of the test
requires, unless `x[H2O] * waterMolarMass = 1`. The functions `std::log` and
`std::exp` are parameters with `exp (log y) = y` for positive `y`. -/
theorem activityModelDEW_activity_ratio (log exp : ℚ → ℚ) (mixture : AqueousMixture)
    (props : ActivityProps) (T P : ℚ) (x : List ℚ)
    (hspecies : x.length ≤ mixture.species.length)
    (hHKF : (mixture.lnActivityCoefficients T P x).length = x.length)
    (hexp : ∀ y, 0 < y → exp (log y) = y) :
    ∃ out, activityModelDEW log mixture props T P x = some out ∧
      ∀ (i : Nat) xi, x[i]? = some xi →
        ∃ a g, out.ln_a[i]? = some a ∧ out.ln_g[i]? = some g ∧ a - g = log xi ∧
          (0 < xi → exp (a - g) = xi ∧
            ∀ x0 M, x[0]? = some x0 → x0 * M ≠ 1 → 0 < i →
              exp (a - g) ≠ xi / (x0 * M)) := by
  obtain ⟨dew, hdew, hdlen, -, -⟩ := dewCorrections_entries log mixture T P x.length 0
    (List.replicate x.length 0) (by omega) (by simp)
    (fun j _ hj => by
      rw [List.length_replicate] at hj
      simp [List.getElem?_replicate, hj])
  simp only [List.length_replicate] at hdlen
  obtain ⟨ln_g, hg, hglen, -⟩ := zipSame_entries (· + ·)
    (mixture.lnActivityCoefficients T P x) dew (by rw [hHKF, hdlen])
  obtain ⟨ln_a, ha, -, haent⟩ := zipSame_entries (· + ·) ln_g (x.map log)
    (by rw [hglen, hHKF, List.length_map])
  refine ⟨{ props with ln_g := ln_g, ln_a := ln_a, som := StateOfMatter.Liquid }, ?_, ?_⟩
  · simp only [activityModelDEW, hdew, Option.some_bind, hg, ha, Option.map_some']
  · intro i xi hxi
    have hi : i < x.length := (List.getElem?_eq_some_iff.1 hxi).1
    have hgi : ln_g[i]? = some (ln_g[i]) :=
      List.getElem?_eq_getElem (by rw [hglen, hHKF]; exact hi)
    have hdiff : ln_g[i] + log xi - ln_g[i] = log xi := by ring
    refine ⟨ln_g[i] + log xi, ln_g[i], haent i _ _ hgi (by simp [hxi]), hgi, hdiff, ?_⟩
    intro hpos
    rw [hdiff, hexp xi hpos]
    refine ⟨rfl, ?_⟩
    intro x0 M _ hM _ heq
    by_cases hz : x0 * M = 0
    · rw [hz, div_zero] at heq
      exact absurd heq (ne_of_gt hpos)
    · exact hM (by field_simp at heq; linarith)

/-- Witness of C27's divergence on the input of the test, at the solutes `Na+` (index
`3`) and `CO2` (index `8`, a species without DEW parameters), with `log` and `exp`
read as the identity and `waterMolarMass = 0.018015268`: the code yields the mole
fraction of the solute, not its molality. -/
theorem activityModelDEW_activity_ratio_witness :
    moleFractions.length ≤ testMixture.species.length ∧
    (testMixture.lnActivityCoefficients 300 1230000 moleFractions).length =
      moleFractions.length ∧
    moleFractions[3]? = some (0.3 / testAmounts.sum) ∧
    moleFractions[0]? = some (55.508 / testAmounts.sum) ∧
    (0 : ℚ) < 0.3 / testAmounts.sum ∧
    55.508 / testAmounts.sum * (0.018015268 : ℚ) ≠ 1 ∧
    ∃ out, activityModelDEW id testMixture ⟨[], [], StateOfMatter.Unspecified⟩ 300 1230000
        moleFractions = some out ∧
      (∃ a g, out.ln_a[3]? = some a ∧ out.ln_g[3]? = some g ∧
        id (a - g) = 0.3 / testAmounts.sum ∧
        id (a - g) ≠ 0.3 / testAmounts.sum / (55.508 / testAmounts.sum * 0.018015268)) ∧
      moleFractions[8]? = some (0.1 / testAmounts.sum) ∧
      (0 : ℚ) < 0.1 / testAmounts.sum ∧
      ∃ a g, out.ln_a[8]? = some a ∧ out.ln_g[8]? = some g ∧
        id (a - g) = 0.1 / testAmounts.sum ∧
        id (a - g) ≠ 0.1 / testAmounts.sum / (55.508 / testAmounts.sum * 0.018015268) := by
  have hpos : (0 : ℚ) < 0.3 / testAmounts.sum := by norm_num [testAmounts]
  have hpos8 : (0 : ℚ) < 0.1 / testAmounts.sum := by norm_num [testAmounts]
  have hM : 55.508 / testAmounts.sum * (0.018015268 : ℚ) ≠ 1 := by norm_num [testAmounts]
  obtain ⟨out, h, hent⟩ :=
    activityModelDEW_activity_ratio id id testMixture ⟨[], [], StateOfMatter.Unspecified⟩
      300 1230000 moleFractions (by decide) rfl (fun _ _ => rfl)
  obtain ⟨a, g, ha, hg, -, hrest⟩ := hent 3 _ rfl
  obtain ⟨a8, g8, ha8, hg8, -, hrest8⟩ := hent 8 _ rfl
  exact ⟨by decide, rfl, rfl, rfl, hpos, hM, out, h,
    ⟨a, g, ha, hg, (hrest hpos).1, (hrest hpos).2 _ _ rfl hM (by decide)⟩,
    rfl, hpos8, a8, g8, ha8, hg8, (hrest8 hpos8).1, (hrest8 hpos8).2 _ _ rfl hM (by decide)⟩

end Reaktoro
